import Mathlib

/-!
# Open3D (CUDA branch): ScalableTSDFVolumeCuda host code

A shallow embedding of `src/Cuda/Integration/ScalableTSDFVolumeCudaHost.hpp`
(`UploadKeys`, `UploadVolumes`, `DownloadVolumes`, `Create`, `Reset`, `Release` and the
copy operations, `UpdateDevice`, `ResetActiveSubvolumeIndices`, `Integrate`, `DownSample`,
`GetMinBound`, `GetMaxBound`, `GetMinMaxBound`) over the vector type of
`src/Cuda/Geometry/VectorCuda.h` (with its `ToVectorb`, `homogeneous` and `hnormalized`),
followed by theorems about them.

Conventions of the embedding.

* `std::vector<T>` is `List T`; `v[i]` is `v.getD i d`.  Reading past the end of a
  vector is undefined in the source; the embedding reads the default `d` there (`0`
  for an address), which only happens when `New` returns fewer addresses than it was
  given keys or when a caller passes arrays that are too short.
* The host hash table (`Cuda/Container/HashTableCudaHost.hpp`) is not part of the
  sources.  Its state is a type parameter `σ` and its operations are the fields of
  `HashTableCuda σ`, so a theorem quantified over `HashTableCuda σ` holds for every
  behaviour of the table, including every outcome of the races between device threads.
* `utility::LogInfo` / `utility::LogWarning` and the calls into the hash table are
  recorded, in program order, in a list of `Event`s.
* `float` values are rationals; `int` values are integers, and the 32-bit product that
  `UploadVolumes` uses as a pool offset and the 32-bit products and sums of `GetMinBound`
  and `GetMaxBound` are wrapped explicitly.  The `float` operations of `UpdateDevice`,
  `GetMinBound` and `GetMaxBound` round their results as IEEE 754 binary32 does
  (`roundFloat`); the other `float` operations of the embedding are exact.
* `assert`s are compiled out (`NDEBUG`), except in `CreateChecked`, which is `Create` with
  its leading assertion.
* `TransformCuda` (`Cuda/Common/TransformCuda.h`) is not part of the sources either; a
  transform is what the host code can observe of it, with nothing assumed about
  `Inverse()`.
-/

namespace open3d
namespace cuda

/-! ## Data model -/

/-- `VectorCuda<T, N>`: the array `T v[N]`. -/
structure VectorCuda (T : Type) (N : Nat) where
  v : List T
  size_eq : v.length = N
deriving DecidableEq

/-- `float`: the finite values of the type, as rational numbers.  Arithmetic on them is
exact unless it is written with `roundFloat` (as in `UpdateDevice`, `GetMinBound` and
`GetMaxBound`). -/
abbrev float := ℚ

/-- `uchar` (`unsigned char`). -/
abbrev uchar := Nat

/-- `typedef VectorCuda<int, 3> Vector3i;` the block key. -/
abbrev Vector3i := VectorCuda Int 3

/-- `typedef VectorCuda<uchar, 3> Vector3b;` a color. -/
abbrev Vector3b := VectorCuda uchar 3

/-- `typedef VectorCuda<float, 3> Vector3f;` a point.  The embedding uses it for
`Eigen::Vector3f` and `Eigen::Vector3d` as well (the conversion to `double` is exact). -/
abbrev Vector3f := VectorCuda float 3

/-- `VectorCuda(T v0, T v1, T v2)`. -/
def VectorCuda.mk3 {T : Type} (v0 v1 v2 : T) : VectorCuda T 3 := ⟨[v0, v1, v2], rfl⟩

/-- `VectorCuda()`: every component is `T(0)`. -/
def VectorCuda.zero (T : Type) [Zero T] (N : Nat) : VectorCuda T N :=
  ⟨List.replicate N 0, List.length_replicate N 0⟩

instance (T : Type) [Zero T] (N : Nat) : Inhabited (VectorCuda T N) := ⟨VectorCuda.zero T N⟩

instance (T : Type) [Zero T] (N : Nat) : Zero (VectorCuda T N) := ⟨VectorCuda.zero T N⟩

/-- `operator()(size_t i)`: the component `v[i]`. -/
def VectorCuda.get {T : Type} [Inhabited T] {N : Nat} (a : VectorCuda T N) (i : Nat) : T :=
  a.v.getD i default

/-- The `for` loop of `operator==`, entered with loop variable `i` and `n` passes to
go: `if (v[i] != other.v[i]) return false;`, and `return true;` after the loop. -/
def VectorCuda.eqLoop {T : Type} [DecidableEq T] [Inhabited T] {N : Nat}
    (a other : VectorCuda T N) : Nat → Nat → Bool
  | _, 0 => true
  | i, n + 1 => if a.get i ≠ other.get i then false else VectorCuda.eqLoop a other (i + 1) n

/-- `bool operator==(const VecType &other) const`. -/
def VectorCuda.operator_eq {T : Type} [DecidableEq T] [Inhabited T] {N : Nat}
    (a other : VectorCuda T N) : Bool :=
  VectorCuda.eqLoop a other 0 N

/-- `bool operator!=(const VecType &other) const`: `!((*this) == other)`. -/
def VectorCuda.operator_ne {T : Type} [DecidableEq T] [Inhabited T] {N : Nat}
    (a other : VectorCuda T N) : Bool :=
  !(a.operator_eq other)

/-- The assignment `a(i) = x` through `T &operator()(size_t i)`.  (For `i ≥ N` the source
writes past the array; the embedding then leaves the vector as it is.) -/
def VectorCuda.set {T : Type} {N : Nat} (a : VectorCuda T N) (i : Nat) (x : T) :
    VectorCuda T N :=
  ⟨a.v.set i x, (List.length_set a.v i x).trans a.size_eq⟩

/-- `fminf`. -/
def fminf (x y : float) : float := min x y

/-- The conversion `uchar(x)` of a `float`: the fractional part is dropped.  (Where the
result does not fit `unsigned char` the conversion is undefined; the embedding reduces
it modulo 256.) -/
def ucharOfFloat (x : float) : uchar := ((if 0 ≤ x then ⌊x⌋ else ⌈x⌉) % 256).toNat

/-- `ToVectorb()` of a vector of `int`s: `ret.v[i] = uchar(fminf(v[i], 255));` for
`i < N`, on a `ret` that the default constructor has filled with zeros.  (`fminf` takes
`float`s, so `v[i]` is converted; the embedding converts exactly.) -/
def VectorCuda.ToVectorb {N : Nat} (a : VectorCuda Int N) : VectorCuda uchar N :=
  (List.range N).foldl
    (fun ret i => ret.set i (ucharOfFloat (fminf ((a.get i : Int) : float) 255)))
    (VectorCuda.zero uchar N)

/-- `homogeneous()` of a vector of `int`s: `ret.v[i] = v[i];` for `i < N`, then
`ret.v[N] = T(1);`. -/
def VectorCuda.homogeneous {N : Nat} (a : VectorCuda Int N) : VectorCuda Int (N + 1) :=
  ((List.range N).foldl (fun ret i => ret.set i (a.get i)) (VectorCuda.zero Int (N + 1))).set
    N 1

/-- `hnormalized()` of a vector of `int`s of dimension `N + 1`: `ret.v[i] = v[i] / v[N];`
for `i < N`, with the division of C++ (the quotient is rounded toward zero; division by
zero, undefined in C++, gives 0). -/
def VectorCuda.hnormalized {N : Nat} (a : VectorCuda Int (N + 1)) : VectorCuda Int N :=
  (List.range N).foldl (fun ret i => ret.set i (Int.tdiv (a.get i) (a.get N)))
    (VectorCuda.zero Int N)

/-- The value type of the hash table, as far as the host code reads it: the three device
pointers `tsdf_`, `weight_`, `color_` of one subvolume, each an element offset into the
memory pool of its kind. -/
structure UniformTSDFVolumeCudaDevice where
  tsdf_ : Int
  weight_ : Int
  color_ : Int
deriving DecidableEq

/-- The host operations of `HashTableCuda<Vector3i, ...>` that the volume calls.
`New keys` returns one address per key (negative when the insertion failed) and the
new table; `σ` is the table state, which may carry whatever decides the outcome of
the device-side races.  `init` is the default-constructed table, and `CreateKernel t N`
is the table after `ScalableTSDFVolumeCudaKernelCaller::Create` on a volume of block side
`N` (the kernel that hands every value slot its part of the memory pools). -/
structure HashTableCuda (σ : Type) where
  init : σ
  Create : σ → Int → Int → σ
  ResetLocks : σ → σ
  New : σ → List Vector3i → List Int × σ
  DownloadKeys : σ → List Vector3i
  DownloadKeyValuePairs : σ → List Vector3i × List UniformTSDFVolumeCudaDevice
  CreateKernel : σ → Int → σ

/-- What the host code does that is visible outside it, in program order: the calls of
`hash_table_.ResetLocks` and `hash_table_.New` and the log lines. -/
inductive Event where
  | ResetLocks : Event
  | New (keys : List Vector3i) : Event
  | LogInfo (uploaded total : Nat) : Event
  | LogWarning (count : Nat) : Event
  | LogError : Event
deriving DecidableEq

/-- One pass of the `while` loop of `UploadKeys`, as seen by `hash_table_.New`: the
keys it was given, the index map kept alongside and the addresses it returned.
Bookkeeping of the embedding only; nothing in `UploadKeys` reads it. -/
structure Round where
  keys_to_attempt : List Vector3i
  index_map : List Nat
  ret_value_addrs : List Int
deriving DecidableEq

/-! ## UploadKeys -/

/-- The three vectors written by the `for` loop of `UploadKeys`. -/
structure Partition where
  new_index_map : List Nat
  new_keys_to_attempt : List Vector3i
  value_addrs : List Int
deriving DecidableEq

/-- Body of `for (int i = 0; i < keys_to_attempt.size(); ++i)` in `UploadKeys`. -/
def partitionBody (keys_to_attempt : List Vector3i) (index_map : List Nat)
    (ret_value_addrs : List Int) (p : Partition) (i : Nat) : Partition :=
  let addr := ret_value_addrs.getD i 0
  if addr < 0 then
    { p with
      new_index_map := p.new_index_map ++ [index_map.getD i 0]
      new_keys_to_attempt := p.new_keys_to_attempt ++ [keys_to_attempt.getD i default] }
  else
    { p with value_addrs := p.value_addrs.set (index_map.getD i 0) addr }

/-- The whole `for` loop of `UploadKeys`, started with empty `new_index_map` and
`new_keys_to_attempt`. -/
def partitionLoop (keys_to_attempt : List Vector3i) (index_map : List Nat)
    (ret_value_addrs : List Int) (value_addrs : List Int) : Partition :=
  (List.range keys_to_attempt.length).foldl
    (partitionBody keys_to_attempt index_map ret_value_addrs) ⟨[], [], value_addrs⟩

/-- The local variables of `UploadKeys`, the hash table, the event log and the
record of the rounds run so far. -/
structure UploadState (σ : Type) where
  hash_table_ : σ
  keys_to_attempt : List Vector3i
  index_map : List Nat
  value_addrs : List Int
  attempt : Nat
  log : List Event
  rounds : List Round

/-- `const int kTotalAttempt = 10;` -/
def kTotalAttempt : Nat := 10

/-- The body of the `while` loop of `UploadKeys` up to the test
`new_keys_to_attempt.empty()`: the state with table, `value_addrs`, log and round
record updated, and the partition computed in this pass. -/
def uploadRound {σ : Type} (ht : HashTableCuda σ) (st : UploadState σ) :
    UploadState σ × Partition :=
  let table := ht.ResetLocks st.hash_table_
  let r := ht.New table st.keys_to_attempt
  let p := partitionLoop st.keys_to_attempt st.index_map r.1 st.value_addrs
  ({ st with
      hash_table_ := r.2
      value_addrs := p.value_addrs
      log := st.log ++ [Event.ResetLocks, Event.New st.keys_to_attempt,
        Event.LogInfo (st.keys_to_attempt.length - p.new_keys_to_attempt.length)
          st.keys_to_attempt.length]
      rounds := st.rounds ++ [⟨st.keys_to_attempt, st.index_map, r.1⟩] }, p)

/-- `while (attempt++ < kTotalAttempt) { ... }` of `UploadKeys`.  The first argument
bounds the number of times the loop test is evaluated; `kTotalAttempt + 1` tests are
enough from `attempt = 0` (`uploadLoop_fuel`). -/
def uploadLoop {σ : Type} (ht : HashTableCuda σ) : Nat → UploadState σ → UploadState σ
  | 0, st => st
  | fuel + 1, st =>
    if st.attempt < kTotalAttempt then
      let rp := uploadRound ht { st with attempt := st.attempt + 1 }
      if rp.2.new_keys_to_attempt.isEmpty then
        rp.1
      else
        uploadLoop ht fuel
          { rp.1 with
            index_map := rp.2.new_index_map
            keys_to_attempt := rp.2.new_keys_to_attempt }
    else
      { st with attempt := st.attempt + 1 }

/-- The state in which `UploadKeys` enters its `while` loop. -/
def uploadInit {σ : Type} (table : σ) (keys : List Vector3i) : UploadState σ :=
  { hash_table_ := table
    keys_to_attempt := keys
    index_map := List.range keys.length
    value_addrs := List.replicate keys.length 0
    attempt := 0
    log := []
    rounds := [] }

/-- `ScalableTSDFVolumeCuda::UploadKeys`, with everything it leaves behind: the final
values of its locals, the hash table, the log and the rounds it ran. -/
def UploadKeysRun {σ : Type} (ht : HashTableCuda σ) (table : σ) (keys : List Vector3i) :
    UploadState σ :=
  let st := uploadLoop ht (kTotalAttempt + 1) (uploadInit table keys)
  if st.attempt = kTotalAttempt then
    { st with log := st.log ++ [Event.LogWarning st.keys_to_attempt.length] }
  else
    st

/-- `ScalableTSDFVolumeCuda::UploadKeys`: the returned `value_addrs`. -/
def UploadKeys {σ : Type} (ht : HashTableCuda σ) (table : σ) (keys : List Vector3i) :
    List Int :=
  (UploadKeysRun ht table keys).value_addrs

/-- The state at the `k`-th evaluation of the loop test of `UploadKeys` (counted from
0) when the loop is neither left by `break` nor stopped by the budget: `k` passes of
the loop body, each followed by the two `std::swap`s. -/
def retryState {σ : Type} (ht : HashTableCuda σ) (table : σ) (keys : List Vector3i) :
    Nat → UploadState σ
  | 0 => uploadInit table keys
  | k + 1 =>
    let st := retryState ht table keys k
    let rp := uploadRound ht { st with attempt := st.attempt + 1 }
    { rp.1 with
      index_map := rp.2.new_index_map
      keys_to_attempt := rp.2.new_keys_to_attempt }

/-- Round `k` (counted from 0) of the retry protocol without a budget: what `New` is
given and what it returns in that round. -/
def roundAt {σ : Type} (ht : HashTableCuda σ) (table : σ) (keys : List Vector3i)
    (k : Nat) : Round :=
  let st := retryState ht table keys k
  ⟨st.keys_to_attempt, st.index_map,
    (ht.New (ht.ResetLocks st.hash_table_) st.keys_to_attempt).1⟩

/-- `New` returned a non-negative address for every key it was given in this round. -/
def Round.allResolved (rd : Round) : Prop :=
  ∀ j, j < rd.keys_to_attempt.length → 0 ≤ rd.ret_value_addrs.getD j 0

instance (rd : Round) : Decidable rd.allResolved :=
  inferInstanceAs (Decidable (∀ j, j < rd.keys_to_attempt.length → _))

/-- The keys of a round for which `New` returned a negative address, in the order in
which they were given. -/
def Round.failedKeys (rd : Round) : List Vector3i :=
  ((rd.keys_to_attempt.zip rd.ret_value_addrs).filter (fun ka => ka.2 < 0)).map (fun ka => ka.1)

/-- The entries of the index map of a round whose key got a negative address from
`New`, in order. -/
def Round.failedIndices (rd : Round) : List Nat :=
  ((rd.index_map.zip rd.ret_value_addrs).filter (fun ia => ia.2 < 0)).map (fun ia => ia.1)

/-- What one round of `UploadKeys` appends to the log: the two calls into the hash
table and the `LogInfo` line "uploaded / attempted". -/
def Round.events (rd : Round) : List Event :=
  [Event.ResetLocks, Event.New rd.keys_to_attempt,
    Event.LogInfo (rd.keys_to_attempt.length - rd.failedKeys.length)
      rd.keys_to_attempt.length]

/-- The event is a call into the hash table (`ResetLocks` or `New`). -/
def Event.isTableCall : Event → Bool
  | Event.ResetLocks => true
  | Event.New _ => true
  | _ => false

/-- The event is a call of `hash_table_.New`. -/
def Event.isNew : Event → Bool
  | Event.New _ => true
  | _ => false

/-- The event is the `LogWarning` of `UploadKeys`. -/
def Event.isWarning : Event → Bool
  | Event.LogWarning _ => true
  | _ => false

/-- Invariant of the `while` loop of `UploadKeys`, at the loop test. -/
structure UploadInv {σ : Type} (keys : List Vector3i) (st : UploadState σ) : Prop where
  len_im : st.index_map.length = st.keys_to_attempt.length
  nodup : st.index_map.Nodup
  lt : ∀ i ∈ st.index_map, i < keys.length
  len_va : st.value_addrs.length = keys.length
  key_of : st.index_map.map (fun i => keys[i]?) = st.keys_to_attempt.map some
  resolved : ∀ rd ∈ st.rounds, ∀ (j i : Nat) (a : Int), rd.index_map[j]? = some i →
    rd.ret_value_addrs[j]? = some a → 0 ≤ a →
      st.value_addrs[i]? = some a ∧ i ∉ st.index_map

/-- Entry `i` of the key list was resolved to the slot address `a`: in some round `New`
returned the non-negative address `a` at a position whose index-map entry is `i`. -/
def UploadState.ResolvedTo {σ : Type} (st : UploadState σ) (i : Nat) (a : Int) : Prop :=
  ∃ rd ∈ st.rounds, ∃ j : Nat,
    rd.index_map[j]? = some i ∧ rd.ret_value_addrs[j]? = some a ∧ 0 ≤ a

/-- Number of keys of a round to which `New` gave a non-negative address. -/
def Round.resolvedCount (rd : Round) : Nat :=
  rd.keys_to_attempt.length - rd.failedKeys.length

/-- The keys that are unresolved when `UploadKeys` returns: those that failed in its last
round. -/
def UploadState.unresolvedKeys {σ : Type} (st : UploadState σ) : List Vector3i :=
  match st.rounds.getLast? with
  | none => st.keys_to_attempt
  | some rd => rd.failedKeys

/-- `New` is constrained to `M` successful slots per round on a table that starts with
`value_capacity` free slots: in each round of the retry protocol it resolves `M` of the
keys it is given, or all of them if they are fewer, or as many as there are free slots
left if those are fewer (the free slots left are `value_capacity` minus the keys
resolved in earlier rounds). -/
def ConstrainedNew {σ : Type} (ht : HashTableCuda σ) (table : σ) (keys : List Vector3i)
    (M value_capacity : Nat) : Prop :=
  ∀ k, k < kTotalAttempt →
    (roundAt ht table keys k).resolvedCount
      = min M (min (roundAt ht table keys k).keys_to_attempt.length
          (value_capacity - (keys.length - (roundAt ht table keys k).keys_to_attempt.length)))

instance {σ : Type} (ht : HashTableCuda σ) (table : σ) (keys : List Vector3i)
    (M value_capacity : Nat) : Decidable (ConstrainedNew ht table keys M value_capacity) :=
  inferInstanceAs (Decidable (∀ k, k < kTotalAttempt → _))

/-! ## float arithmetic -/

/-- Rounding of a real number to an integer, to the nearest one and to the even one of
two that are equally near. -/
def roundNearestEven (q : ℚ) : Int :=
  if q - ⌊q⌋ < 1 / 2 then ⌊q⌋
  else if 1 / 2 < q - ⌊q⌋ then ⌊q⌋ + 1
  else if ⌊q⌋ % 2 = 0 then ⌊q⌋ else ⌊q⌋ + 1

/-- The exponent `e` for which the `float`s around `q` are the multiples of `2^e`: 23
below the binary exponent of `q`, and `-149` throughout the subnormal range. -/
def ulpExponent (q : ℚ) : Int := max (Int.log 2 |q|) (-126) - 23

/-- The `float` (IEEE 754 binary32) that an operation with the real result `q` returns:
`q` rounded to the nearest multiple of `2^(ulpExponent q)`, ties to even.  (Where this is
of magnitude `2^128` or more the source has an infinity, which has no counterpart among
the rationals; the theorems about `roundFloat` keep the results below that bound.) -/
def roundFloat (q : ℚ) : float :=
  (roundNearestEven (q / 2 ^ ulpExponent q) : ℚ) * 2 ^ ulpExponent q

/-- `x + y` on `float`s. -/
def fadd (x y : float) : float := roundFloat (x + y)

/-- `x * y` on `float`s. -/
def fmul (x y : float) : float := roundFloat (x * y)

/-- `x / y` on `float`s, for `y` other than 0. -/
def fdiv (x y : float) : float := roundFloat (x / y)

/-- The conversion of an `int` to `float`. -/
def intToFloat (i : Int) : float := roundFloat (i : ℚ)

/-! ## TransformCuda -/

/-- `TransformCuda` (`Cuda/Common/TransformCuda.h` is not among the sources), as far as
the host code can observe one: `act k` is the action on a point (`operator*`) of the
transform that `k` calls of `Inverse()` lead to.  Nothing is assumed about what
`Inverse()` computes. -/
structure TransformCuda where
  act : Nat → Vector3f → Vector3f

/-- `Vector3f operator*(const Vector3f &)` of `TransformCuda`. -/
def TransformCuda.mul (t : TransformCuda) (x : Vector3f) : Vector3f := t.act 0 x

/-- `TransformCuda::Inverse()`. -/
def TransformCuda.Inverse (t : TransformCuda) : TransformCuda := ⟨fun k => t.act (k + 1)⟩

/-- A transform that, like every transform reached from it by `Inverse()`, leaves every
point where it is (stands for `TransformCuda::Identity()`). -/
def TransformCuda.Identity : TransformCuda := ⟨fun _ x => x⟩

/-! ## The volume: pools, Create, Reset, UploadVolumes, DownloadVolumes, DownSample -/

/-- `ScalableTSDFVolumeCpuData`: the voxel arrays of one subvolume on the host. -/
structure ScalableTSDFVolumeCpuData where
  tsdf_ : List float
  weight_ : List uchar
  color_ : List Vector3b
deriving DecidableEq

instance : Inhabited ScalableTSDFVolumeCpuData := ⟨⟨[], [], []⟩⟩

/-- `ScalableTSDFVolumeCudaDevice`: the device view, as far as the host code of the
sources writes it.  A memory pool is the function from element index (relative to the
pointer returned by `cudaMalloc`) to the element stored there; `Create` allocates
`N^3 * value_capacity` elements for each pool.  The `int` array
`active_subvolume_indices_` (`value_capacity` elements) is kept as its bytes, the
function from byte offset to byte, because `ResetActiveSubvolumeIndices` fills it
bytewise.  (The copies of the hash table and of the active-entry array and the
foreground/background pools are left out.) -/
structure ScalableTSDFVolumeCudaDevice where
  N_ : Int
  tsdf_memory_pool_ : Int → float
  weight_memory_pool_ : Int → uchar
  color_memory_pool_ : Int → Vector3b
  active_subvolume_indices_ : Int → uchar
  bucket_count_ : Int
  value_capacity_ : Int
  voxel_length_ : float
  inv_voxel_length_ : float
  sdf_trunc_ : float
  transform_volume_to_world_ : TransformCuda
  transform_world_to_volume_ : TransformCuda

/-- `ScalableTSDFVolumeCuda`: the host object.  `device_` is the shared pointer to the
device view (`none` is `nullptr`).  (`active_subvolume_entry_array_` is carried next
to the volume where the host code uses it, in `Integrate` and `GetMinMaxBound`.) -/
structure ScalableTSDFVolumeCuda (σ : Type) where
  N_ : Int
  device_ : Option ScalableTSDFVolumeCudaDevice
  hash_table_ : σ
  bucket_count_ : Int
  value_capacity_ : Int
  voxel_length_ : float
  sdf_trunc_ : float
  transform_volume_to_world_ : TransformCuda

/-- A value of C++ type `int` after an arithmetic operation: the result modulo `2^32`,
read as a signed number. -/
def wrapInt32 (x : Int) : Int := (x + 2147483648) % 4294967296 - 2147483648

/-- `const int NNN = N_ * N_ * N_;` -/
def cube32 (N : Int) : Int := wrapInt32 (wrapInt32 (N * N) * N)

/-- `cudaMemset(pool, 0, sizeof(T) * count)`: the first `count` elements become zero. -/
def memsetZero {α : Type} [Zero α] (pool : Int → α) (count : Int) : Int → α :=
  fun p => if 0 ≤ p ∧ p < count then 0 else pool p

/-- `cudaMemcpy(&pool[offset], src.data(), sizeof(T) * count, cudaMemcpyHostToDevice)`:
element `offset + j` of the pool becomes `src[j]` for `j < count`.  (Where `src` has
fewer than `count` elements the source reads past the vector; the embedding leaves
those pool elements as they were.) -/
def memcpyHostToDevice {α : Type} (pool : Int → α) (offset : Int) (src : List α)
    (count : Nat) : Int → α :=
  fun p => if offset ≤ p ∧ p < offset + count then src.getD (p - offset).toNat (pool p)
    else pool p

/-- `cudaMemcpy(dst.data(), ptr, sizeof(T) * count, cudaMemcpyDeviceToHost)` into a vector
resized to `count` elements. -/
def memcpyDeviceToHost {α : Type} (pool : Int → α) (ptr : Int) (count : Nat) : List α :=
  (List.range count).map (fun j : Nat => pool (ptr + (j : Int)))

/-- `ScalableTSDFVolumeCuda::UpdateDevice`.  `1.0f / voxel_length_` is a quotient of
`float`s.  (The two assignments of the device parts of the hash table and of the array of
active entries are left out, as these members are.  For `voxel_length_ == 0` the source
stores an infinity in `inv_voxel_length_`; the embedding stores 0.) -/
def ScalableTSDFVolumeCuda.UpdateDevice {σ : Type} (vol : ScalableTSDFVolumeCuda σ) :
    ScalableTSDFVolumeCuda σ :=
  { vol with
    device_ := vol.device_.map (fun d =>
      { d with
        N_ := vol.N_
        bucket_count_ := vol.bucket_count_
        value_capacity_ := vol.value_capacity_
        voxel_length_ := vol.voxel_length_
        inv_voxel_length_ := fdiv 1 vol.voxel_length_
        sdf_trunc_ := vol.sdf_trunc_
        transform_volume_to_world_ := vol.transform_volume_to_world_
        transform_world_to_volume_ := vol.transform_volume_to_world_.Inverse }) }

/-- `ScalableTSDFVolumeCuda::Reset`. -/
def ScalableTSDFVolumeCuda.Reset {σ : Type} (vol : ScalableTSDFVolumeCuda σ) :
    ScalableTSDFVolumeCuda σ :=
  let NNN := cube32 vol.N_
  { vol with
    device_ := vol.device_.map (fun d =>
      { d with
        tsdf_memory_pool_ := memsetZero d.tsdf_memory_pool_ (NNN * vol.value_capacity_)
        weight_memory_pool_ := memsetZero d.weight_memory_pool_ (NNN * vol.value_capacity_)
        color_memory_pool_ := memsetZero d.color_memory_pool_ (NNN * vol.value_capacity_) }) }

/-- `ScalableTSDFVolumeCuda::Create` from its second statement on, which is all of it in
a build with `NDEBUG` (the leading `assert` is compiled out); `CreateChecked` is `Create`
with the assertion.  `fresh` is the device view right after `std::make_shared` and the
`cudaMalloc`s (pool contents unspecified).  The result is the volume and what was logged. -/
def ScalableTSDFVolumeCuda.Create {σ : Type} (ht : HashTableCuda σ)
    (fresh : ScalableTSDFVolumeCudaDevice) (vol : ScalableTSDFVolumeCuda σ)
    (N bucket_count value_capacity : Int) : ScalableTSDFVolumeCuda σ × List Event :=
  match vol.device_ with
  | some _ => (vol, [Event.LogError])
  | none =>
    let vol1 : ScalableTSDFVolumeCuda σ :=
      { vol with
        N_ := N
        bucket_count_ := bucket_count
        value_capacity_ := value_capacity
        device_ := some fresh
        hash_table_ := ht.Create vol.hash_table_ bucket_count value_capacity }
    let vol2 := vol1.UpdateDevice.Reset
    ({ vol2 with hash_table_ := ht.CreateKernel vol2.hash_table_ N }, [])

/-- `ScalableTSDFVolumeCuda::Create` in a build that compiles assertions in.  When
`assert(bucket_count > 0 && value_capacity > 0)` fails the process is aborted (`none`)
before `device_` is tested and before anything is logged or assigned; when it holds the
rest of `Create` runs. -/
def ScalableTSDFVolumeCuda.CreateChecked {σ : Type} (ht : HashTableCuda σ)
    (fresh : ScalableTSDFVolumeCudaDevice) (vol : ScalableTSDFVolumeCuda σ)
    (N bucket_count value_capacity : Int) : Option (ScalableTSDFVolumeCuda σ × List Event) :=
  if bucket_count > 0 ∧ value_capacity > 0 then
    some (vol.Create ht fresh N bucket_count value_capacity)
  else none

/-- The constructor `ScalableTSDFVolumeCuda(N, voxel_length, sdf_trunc,
transform_volume_to_world, bucket_count, value_capacity)`.  (`N_`, `bucket_count_` and
`value_capacity_` are not initialised before `Create` assigns them; the embedding starts
them at the values that `Create` assigns.) -/
def ScalableTSDFVolumeCuda.construct {σ : Type} (ht : HashTableCuda σ)
    (fresh : ScalableTSDFVolumeCudaDevice) (N : Int) (voxel_length sdf_trunc : float)
    (transform_volume_to_world : TransformCuda) (bucket_count value_capacity : Int) :
    ScalableTSDFVolumeCuda σ :=
  (ScalableTSDFVolumeCuda.Create ht fresh
    { N_ := N
      device_ := none
      hash_table_ := ht.init
      bucket_count_ := bucket_count
      value_capacity_ := value_capacity
      voxel_length_ := voxel_length
      sdf_trunc_ := sdf_trunc
      transform_volume_to_world_ := transform_volume_to_world }
    N bucket_count value_capacity).1

/-- Body of `for (int i = 0; i < value_addrs.size(); ++i)` in `UploadVolumes`; the state
is `ret` and the device view. -/
def uploadVolumesBody (NNN : Int) (values : List ScalableTSDFVolumeCpuData)
    (value_addrs : List Int) (acc : Bool × ScalableTSDFVolumeCudaDevice) (i : Nat) :
    Bool × ScalableTSDFVolumeCudaDevice :=
  let addr := value_addrs.getD i 0
  if addr < 0 then
    (false, acc.2)
  else
    let offset := wrapInt32 (NNN * addr)
    (acc.1,
      { acc.2 with
        tsdf_memory_pool_ := memcpyHostToDevice acc.2.tsdf_memory_pool_ offset
          (values.getD i default).tsdf_ NNN.toNat
        weight_memory_pool_ := memcpyHostToDevice acc.2.weight_memory_pool_ offset
          (values.getD i default).weight_ NNN.toNat
        color_memory_pool_ := memcpyHostToDevice acc.2.color_memory_pool_ offset
          (values.getD i default).color_ NNN.toNat })

/-- The `for` loop of `UploadVolumes` over the addresses returned by `UploadKeys`. -/
def uploadVolumesLoop (NNN : Int) (values : List ScalableTSDFVolumeCpuData)
    (value_addrs : List Int) (dev : ScalableTSDFVolumeCudaDevice) :
    Bool × ScalableTSDFVolumeCudaDevice :=
  (List.range value_addrs.length).foldl (uploadVolumesBody NNN values value_addrs) (true, dev)

/-- `ScalableTSDFVolumeCuda::UploadVolumes`: the returned flag and the volume afterwards.
(With `device_ == nullptr` the source dereferences a null pointer; the embedding then
changes no pool.) -/
def ScalableTSDFVolumeCuda.UploadVolumes {σ : Type} (ht : HashTableCuda σ)
    (vol : ScalableTSDFVolumeCuda σ) (keys : List Vector3i)
    (values : List ScalableTSDFVolumeCpuData) : Bool × ScalableTSDFVolumeCuda σ :=
  let run := UploadKeysRun ht vol.hash_table_ keys
  let NNN := cube32 vol.N_
  match vol.device_ with
  | none =>
    ((List.range run.value_addrs.length).all (fun i => decide (¬ run.value_addrs.getD i 0 < 0)),
      { vol with hash_table_ := run.hash_table_ })
  | some dev =>
    let r := uploadVolumesLoop NNN values run.value_addrs dev
    (r.1, { vol with hash_table_ := run.hash_table_, device_ := some r.2 })

/-- `ScalableTSDFVolumeCuda::DownloadVolumes`.  (`assert(device_ != nullptr)`: without a
device view nothing is downloaded.) -/
def ScalableTSDFVolumeCuda.DownloadVolumes {σ : Type} (ht : HashTableCuda σ)
    (vol : ScalableTSDFVolumeCuda σ) : List Vector3i × List ScalableTSDFVolumeCpuData :=
  match vol.device_ with
  | none => ([], [])
  | some dev =>
    let key_value_pairs := ht.DownloadKeyValuePairs vol.hash_table_
    let NNN := (cube32 vol.N_).toNat
    (key_value_pairs.1,
      key_value_pairs.2.map (fun sub =>
        { tsdf_ := memcpyDeviceToHost dev.tsdf_memory_pool_ sub.tsdf_ NNN
          weight_ := memcpyDeviceToHost dev.weight_memory_pool_ sub.weight_ NNN
          color_ := memcpyDeviceToHost dev.color_memory_pool_ sub.color_ NNN }))

/-- `ScalableTSDFVolumeCuda::DownSample`, with the run of `volume_down.UploadKeys(keys)`
kept next to the returned volume.  `default_transform`, `default_bucket_count` and
`default_value_capacity` are the default arguments of the constructor,
`DownSampleKernel this volume_down` is what
`ScalableTSDFVolumeCudaKernelCaller::DownSample` leaves in the pools of `volume_down`;
all are declared outside the sources. -/
def ScalableTSDFVolumeCuda.DownSampleRun {σ : Type} (ht : HashTableCuda σ)
    (fresh : ScalableTSDFVolumeCudaDevice) (default_transform : TransformCuda)
    (default_bucket_count default_value_capacity : Int)
    (DownSampleKernel : ScalableTSDFVolumeCuda σ → ScalableTSDFVolumeCuda σ →
      ScalableTSDFVolumeCudaDevice → ScalableTSDFVolumeCudaDevice)
    (vol : ScalableTSDFVolumeCuda σ) : ScalableTSDFVolumeCuda σ × UploadState σ :=
  let volume_down : ScalableTSDFVolumeCuda σ :=
    ScalableTSDFVolumeCuda.construct ht fresh (Int.tdiv vol.N_ 2) (vol.voxel_length_ * 2)
      (vol.sdf_trunc_ * 2) default_transform default_bucket_count default_value_capacity
  let keys := ht.DownloadKeys vol.hash_table_
  let run := UploadKeysRun ht volume_down.hash_table_ keys
  let volume_down := { volume_down with hash_table_ := run.hash_table_ }
  ({ volume_down with device_ := volume_down.device_.map (DownSampleKernel vol volume_down) },
    run)

/-- `ScalableTSDFVolumeCuda::DownSample`: the returned volume. -/
def ScalableTSDFVolumeCuda.DownSample {σ : Type} (ht : HashTableCuda σ)
    (fresh : ScalableTSDFVolumeCudaDevice) (default_transform : TransformCuda)
    (default_bucket_count default_value_capacity : Int)
    (DownSampleKernel : ScalableTSDFVolumeCuda σ → ScalableTSDFVolumeCuda σ →
      ScalableTSDFVolumeCudaDevice → ScalableTSDFVolumeCudaDevice)
    (vol : ScalableTSDFVolumeCuda σ) : ScalableTSDFVolumeCuda σ :=
  (ScalableTSDFVolumeCuda.DownSampleRun ht fresh default_transform default_bucket_count
    default_value_capacity DownSampleKernel vol).1

/-! ## ResetActiveSubvolumeIndices and Integrate -/

/-- `sizeof(int)`. -/
def sizeofInt : Int := 4

/-- `cudaMemset(ptr, value, count)` on memory given by its bytes: each of the first
`count` bytes becomes `value` converted to `unsigned char`. -/
def cudaMemset (mem : Int → uchar) (value count : Int) : Int → uchar :=
  fun p => if 0 ≤ p ∧ p < count then (value % 256).toNat else mem p

/-- The `int` at index `i` of an `int` array given by its bytes, as the device reads
`active_subvolume_indices_[i]`: four bytes, little-endian, two's complement. -/
def readInt (mem : Int → uchar) (i : Int) : Int :=
  wrapInt32 ((mem (sizeofInt * i) : Int) + 256 * (mem (sizeofInt * i + 1) : Int)
    + 65536 * (mem (sizeofInt * i + 2) : Int) + 16777216 * (mem (sizeofInt * i + 3) : Int))

/-- `ScalableTSDFVolumeCuda::ResetActiveSubvolumeIndices`.  (`assert(device_ != nullptr)`:
without a device view nothing is written.  The byte count `sizeof(int) * value_capacity_`
is a `size_t`; the embedding takes the exact product, which it is for
`value_capacity_ ≥ 0`.) -/
def ScalableTSDFVolumeCuda.ResetActiveSubvolumeIndices {σ : Type}
    (vol : ScalableTSDFVolumeCuda σ) : ScalableTSDFVolumeCuda σ :=
  { vol with
    device_ := vol.device_.map (fun d =>
      { d with
        active_subvolume_indices_ :=
          cudaMemset d.active_subvolume_indices_ 0xff (sizeofInt * vol.value_capacity_) }) }

/-- `ImageCuda<T, 1>` as far as `Integrate` reads it: the size and the device pointer
(`none` is `nullptr`); `ι` stands for what the pointer points at. -/
structure ImageCuda (ι : Type) where
  width_ : Int
  height_ : Int
  device_ : Option ι

/-- What `Integrate` calls that is declared outside the sources.  `α` is the host array
`ArrayCuda<HashEntry<Vector3i>>` (the type of the member `active_subvolume_entry_array_`),
`R` is `RGBDImageCuda`, `C` is `PinholeCameraIntrinsicCuda`, `T` is `TransformCuda`.
`depth_` is the member `rgbd.depth_`, `ImageCreate w h c` is a default-constructed image
after `Create(w, h, c)`, `set_iterator` and `size` are the member functions of the
array, and the last three fields are the functions of
`ScalableTSDFVolumeCudaKernelCaller`.  A kernel caller gets the volume by reference; the
embedding hands it the volume together with `active_subvolume_entry_array_` and takes
back both. -/
structure IntegrateCallees (σ α ι R C T : Type) where
  depth_ : R → ImageCuda ι
  ImageCreate : Int → Int → Int → ImageCuda ι
  set_iterator : α → Int → α
  size : α → Int
  TouchSubvolumes : ScalableTSDFVolumeCuda σ × α → ImageCuda ι → C → T → Int → ImageCuda ι →
    ScalableTSDFVolumeCuda σ × α
  GetSubvolumesInFrustum : ScalableTSDFVolumeCuda σ × α → C → T → Int →
    ScalableTSDFVolumeCuda σ × α
  IntegrateSubvolumes : ScalableTSDFVolumeCuda σ × α → R → ImageCuda ι → C → T →
    ScalableTSDFVolumeCuda σ × α

/-- What `Integrate` does that is visible outside it, in program order: the calls into
the hash table, the mask image and the array, the member functions that launch a kernel
or reset the active indices, and the `LogDebug` line. -/
inductive IntegrateEvent where
  | ResetLocks : IntegrateEvent
  | ImageCreate (width height : Int) : IntegrateEvent
  | set_iterator (iterator_position : Int) : IntegrateEvent
  | TouchSubvolumes : IntegrateEvent
  | ResetActiveSubvolumeIndices : IntegrateEvent
  | GetSubvolumesInFrustum : IntegrateEvent
  | LogDebug (size : Int) : IntegrateEvent
  | IntegrateSubvolumes : IntegrateEvent
deriving DecidableEq

/-- The event is one of the per-frame phases (everything but the creation of the mask
image and the log line). -/
def IntegrateEvent.isPhase : IntegrateEvent → Bool
  | IntegrateEvent.ImageCreate _ _ => false
  | IntegrateEvent.LogDebug _ => false
  | _ => true

/-- The volume, its member `active_subvolume_entry_array_` and the events so far.
`launches` is bookkeeping of the embedding: for every kernel launched so far, the volume
and the array as the kernel found them. -/
structure IntegrateState (σ α : Type) where
  volume : ScalableTSDFVolumeCuda σ
  active_subvolume_entry_array_ : α
  log : List IntegrateEvent
  launches : List (IntegrateEvent × ScalableTSDFVolumeCuda σ × α)

/-- `ScalableTSDFVolumeCuda::TouchSubvolumes`: the call of the kernel caller. -/
def ScalableTSDFVolumeCuda.TouchSubvolumes {σ α ι R C T : Type}
    (kc : IntegrateCallees σ α ι R C T) (st : IntegrateState σ α) (depth : ImageCuda ι)
    (camera : C) (transform_camera_to_world : T) (frame_id : Int)
    (mask_image : ImageCuda ι) : IntegrateState σ α :=
  let r := kc.TouchSubvolumes (st.volume, st.active_subvolume_entry_array_) depth camera
    transform_camera_to_world frame_id mask_image
  { volume := r.1
    active_subvolume_entry_array_ := r.2
    log := st.log ++ [IntegrateEvent.TouchSubvolumes]
    launches := st.launches
      ++ [(IntegrateEvent.TouchSubvolumes, st.volume, st.active_subvolume_entry_array_)] }

/-- `ScalableTSDFVolumeCuda::GetSubvolumesInFrustum`: the call of the kernel caller. -/
def ScalableTSDFVolumeCuda.GetSubvolumesInFrustum {σ α ι R C T : Type}
    (kc : IntegrateCallees σ α ι R C T) (st : IntegrateState σ α) (camera : C)
    (transform_camera_to_world : T) (frame_id : Int) : IntegrateState σ α :=
  let r := kc.GetSubvolumesInFrustum (st.volume, st.active_subvolume_entry_array_) camera
    transform_camera_to_world frame_id
  { volume := r.1
    active_subvolume_entry_array_ := r.2
    log := st.log ++ [IntegrateEvent.GetSubvolumesInFrustum]
    launches := st.launches
      ++ [(IntegrateEvent.GetSubvolumesInFrustum, st.volume, st.active_subvolume_entry_array_)] }

/-- `ScalableTSDFVolumeCuda::IntegrateSubvolumes`: the call of the kernel caller. -/
def ScalableTSDFVolumeCuda.IntegrateSubvolumes {σ α ι R C T : Type}
    (kc : IntegrateCallees σ α ι R C T) (st : IntegrateState σ α) (rgbd : R)
    (mask_image : ImageCuda ι) (camera : C) (transform_camera_to_world : T) :
    IntegrateState σ α :=
  let r := kc.IntegrateSubvolumes (st.volume, st.active_subvolume_entry_array_) rgbd
    mask_image camera transform_camera_to_world
  { volume := r.1
    active_subvolume_entry_array_ := r.2
    log := st.log ++ [IntegrateEvent.IntegrateSubvolumes]
    launches := st.launches
      ++ [(IntegrateEvent.IntegrateSubvolumes, st.volume, st.active_subvolume_entry_array_)] }

/-- `ScalableTSDFVolumeCuda::Integrate` on a volume and its array, started with an empty
log.  (`assert(device_ != nullptr)` is left out: on a volume without device view the
embedding runs the same statements, of which `ResetActiveSubvolumeIndices` then writes
nothing.) -/
def ScalableTSDFVolumeCuda.Integrate {σ α ι R C T : Type} (ht : HashTableCuda σ)
    (kc : IntegrateCallees σ α ι R C T) (vol : ScalableTSDFVolumeCuda σ)
    (active_subvolume_entry_array_ : α) (rgbd : R) (camera : C)
    (transform_camera_to_world : T) (frame_id : Int) (r_mask_image : ImageCuda ι) :
    IntegrateState σ α :=
  let st0 : IntegrateState σ α :=
    { volume := { vol with hash_table_ := ht.ResetLocks vol.hash_table_ }
      active_subvolume_entry_array_ := active_subvolume_entry_array_
      log := [IntegrateEvent.ResetLocks]
      launches := [] }
  let fresh_mask : Bool :=
    decide (r_mask_image.width_ ≤ 0) || decide (r_mask_image.height_ ≤ 0)
      || r_mask_image.device_.isNone
  let mask_image : ImageCuda ι :=
    if fresh_mask then kc.ImageCreate (kc.depth_ rgbd).width_ (kc.depth_ rgbd).height_ 1
    else r_mask_image
  let st1 : IntegrateState σ α :=
    { st0 with
      log := st0.log ++ (if fresh_mask then
        [IntegrateEvent.ImageCreate (kc.depth_ rgbd).width_ (kc.depth_ rgbd).height_]
        else []) }
  let st2 : IntegrateState σ α :=
    { st1 with
      active_subvolume_entry_array_ := kc.set_iterator st1.active_subvolume_entry_array_ 0
      log := st1.log ++ [IntegrateEvent.set_iterator 0] }
  let st3 := ScalableTSDFVolumeCuda.TouchSubvolumes kc st2 (kc.depth_ rgbd) camera
    transform_camera_to_world frame_id mask_image
  let st4 : IntegrateState σ α :=
    { st3 with
      volume := st3.volume.ResetActiveSubvolumeIndices
      log := st3.log ++ [IntegrateEvent.ResetActiveSubvolumeIndices] }
  let st5 := ScalableTSDFVolumeCuda.GetSubvolumesInFrustum kc st4 camera
    transform_camera_to_world frame_id
  let st6 : IntegrateState σ α :=
    { st5 with
      log := st5.log ++ [IntegrateEvent.LogDebug (kc.size st5.active_subvolume_entry_array_)] }
  ScalableTSDFVolumeCuda.IntegrateSubvolumes kc st6 rgbd mask_image camera
    transform_camera_to_world

/-! ## GetMinBound, GetMaxBound, GetMinMaxBound -/

/-- `int max_int = std::numeric_limits<int>::max();` -/
def max_int : Int := 2147483647

/-- `int min_int = std::numeric_limits<int>::min();` -/
def min_int : Int := -2147483648

/-- The loops of `GetMinBound`: `min_bound(d) = std::min(key(d), min_bound(d));` for
every key and `d = 0, 1, 2`, started from `min_bound(max_int, max_int, max_int)`. -/
def minBoundLoop (keys : List Vector3i) : Vector3i :=
  keys.foldl
    (fun min_bound key =>
      (List.range 3).foldl (fun mb d => mb.set d (min (key.get d) (mb.get d))) min_bound)
    (VectorCuda.mk3 max_int max_int max_int)

/-- The loops of `GetMaxBound`: `max_bound(d) = std::max(key(d), max_bound(d));` for
every key and `d = 0, 1, 2`, started from `max_bound(min_int, min_int, min_int)`. -/
def maxBoundLoop (keys : List Vector3i) : Vector3i :=
  keys.foldl
    (fun max_bound key =>
      (List.range 3).foldl (fun mb d => mb.set d (max (key.get d) (mb.get d))) max_bound)
    (VectorCuda.mk3 min_int min_int min_int)

/-- `ScalableTSDFVolumeCuda::GetMinBound`.  `min_bound(d) * N_` is a product of `int`s;
it is converted to `float` for the sum with `0.5f`, and the sum and the product with
`voxel_length_` are operations on `float`s.  (`DownloadKeys` asserts `device_ != nullptr`;
the assertion is left out.) -/
def ScalableTSDFVolumeCuda.GetMinBound {σ : Type} (ht : HashTableCuda σ)
    (vol : ScalableTSDFVolumeCuda σ) : Vector3f :=
  let keys := ht.DownloadKeys vol.hash_table_
  let min_bound := minBoundLoop keys
  let min_boundf : Vector3f :=
    VectorCuda.mk3
      (fmul (fadd (intToFloat (wrapInt32 (min_bound.get 0 * vol.N_))) (1 / 2))
        vol.voxel_length_)
      (fmul (fadd (intToFloat (wrapInt32 (min_bound.get 1 * vol.N_))) (1 / 2))
        vol.voxel_length_)
      (fmul (fadd (intToFloat (wrapInt32 (min_bound.get 2 * vol.N_))) (1 / 2))
        vol.voxel_length_)
  let min_boundw := vol.transform_volume_to_world_.mul min_boundf
  VectorCuda.mk3 (min_boundw.get 0) (min_boundw.get 1) (min_boundw.get 2)

/-- `ScalableTSDFVolumeCuda::GetMaxBound`.  `max_bound(d) * N_ + N_` is computed in
`int`; it is converted to `float` for the sum with `0.5f`, and the sum and the product
with `voxel_length_` are operations on `float`s. -/
def ScalableTSDFVolumeCuda.GetMaxBound {σ : Type} (ht : HashTableCuda σ)
    (vol : ScalableTSDFVolumeCuda σ) : Vector3f :=
  let keys := ht.DownloadKeys vol.hash_table_
  let max_bound := maxBoundLoop keys
  let max_boundf : Vector3f :=
    VectorCuda.mk3
      (fmul (fadd (intToFloat (wrapInt32 (wrapInt32 (max_bound.get 0 * vol.N_) + vol.N_)))
        (1 / 2)) vol.voxel_length_)
      (fmul (fadd (intToFloat (wrapInt32 (wrapInt32 (max_bound.get 1 * vol.N_) + vol.N_)))
        (1 / 2)) vol.voxel_length_)
      (fmul (fadd (intToFloat (wrapInt32 (wrapInt32 (max_bound.get 2 * vol.N_) + vol.N_)))
        (1 / 2)) vol.voxel_length_)
  let max_boundw := vol.transform_volume_to_world_.mul max_boundf
  VectorCuda.mk3 (max_boundw.get 0) (max_boundw.get 1) (max_boundw.get 2)

/-- Body of `for (int i = 0; i < valid_pts_count_cpu.size(); ++i)` in `GetMinMaxBound`;
the state is the pair of `min_boundf` and `max_boundf`. -/
def getMinMaxBoundBody (num_valid_pts_thr : Int) (valid_pts_count_cpu : List Int)
    (min_bounds_cpu max_bounds_cpu : List Vector3f) (acc : Vector3f × Vector3f) (i : Nat) :
    Vector3f × Vector3f :=
  if valid_pts_count_cpu.getD i 0 > num_valid_pts_thr then
    (List.range 3).foldl
      (fun b j =>
        (b.1.set j (min (b.1.get j) ((min_bounds_cpu.getD i default).get j)),
          b.2.set j (max (b.2.get j) ((max_bounds_cpu.getD i default).get j))))
      acc
  else acc

/-- The `for` loop of `GetMinMaxBound` over the downloaded arrays, started from
`min_boundf(1e5, 1e5, 1e5)` and `max_boundf(-1e5, -1e5, -1e5)`. -/
def getMinMaxBoundLoop (num_valid_pts_thr : Int) (valid_pts_count_cpu : List Int)
    (min_bounds_cpu max_bounds_cpu : List Vector3f) : Vector3f × Vector3f :=
  (List.range valid_pts_count_cpu.length).foldl
    (getMinMaxBoundBody num_valid_pts_thr valid_pts_count_cpu min_bounds_cpu max_bounds_cpu)
    (VectorCuda.mk3 100000 100000 100000, VectorCuda.mk3 (-100000) (-100000) (-100000))

/-- What `GetMinMaxBound` calls that is declared outside the sources.  `α` is the host
array `ArrayCuda<HashEntry<Vector3i>>`.  `GetAllSubvolumes` is the function of
`ScalableTSDFVolumeCudaKernelCaller`, `size` the member function of the array, and
`GetMinMaxBound v n` is what the three arrays created with `n` elements hold after
`ScalableTSDFVolumeCudaKernelCaller::GetMinMaxBound` and are downloaded as
(`valid_pts_count_cpu`, `min_bounds_cpu`, `max_bounds_cpu`), next to the volume and the
array as the kernel leaves them. -/
structure GetMinMaxBoundCallees (σ α : Type) where
  GetAllSubvolumes : ScalableTSDFVolumeCuda σ × α → ScalableTSDFVolumeCuda σ × α
  size : α → Int
  GetMinMaxBound : ScalableTSDFVolumeCuda σ × α → Int →
    (ScalableTSDFVolumeCuda σ × α) × List Int × List Vector3f × List Vector3f

/-- `ScalableTSDFVolumeCuda::GetMinMaxBound`: the returned pair of bounds, and the
volume with its member `active_subvolume_entry_array_` afterwards. -/
def ScalableTSDFVolumeCuda.GetMinMaxBound {σ α : Type} (kc : GetMinMaxBoundCallees σ α)
    (vol : ScalableTSDFVolumeCuda σ) (active_subvolume_entry_array_ : α)
    (num_valid_pts_thr : Int) :
    (Vector3f × Vector3f) × (ScalableTSDFVolumeCuda σ × α) :=
  let v := kc.GetAllSubvolumes (vol.ResetActiveSubvolumeIndices, active_subvolume_entry_array_)
  let num_active_subvolumes := kc.size v.2
  let r := kc.GetMinMaxBound v num_active_subvolumes
  (getMinMaxBoundLoop num_valid_pts_thr r.2.1 r.2.2.1 r.2.2.2, r.1)

/-! ## A model of the hash table -/

/-- Modelled from the spec: the hash table (`Cuda/Container/HashTableCuda*.h*`) is not
among the sources.  §3 and §4.1 of the spec: one live entry per key; slot addresses are
claimed from a free list over `[0, value_capacity)`.  `entries` are the live entries
(key, slot address), `values` is the value heap (what the table stores at a slot
address), and `contention` holds, for every coming call of `New`, which of its attempts
find the bucket lock taken (the outcome of the races between the device threads). -/
structure SpatialHashTable where
  entries : List (Vector3i × Int)
  free_list : List Int
  contention : List (List Bool)
  values : Int → UniformTSDFVolumeCudaDevice

/-- Modelled from the spec: `TryInsert` of §4.1.  "Insertion acquires the bucket's lock
…; on success it scans the chain for an existing key (inserting an already-present key
returns its existing slot without allocating); if absent, it claims a new slot_address
from the global free-list and appends an entry.  `TryInsert` returns FAILURE when the
bucket lock is contended or when the free-list is exhausted."  FAILURE is `-1`. -/
def SpatialHashTable.TryInsert (t : SpatialHashTable) (locked : Bool) (key : Vector3i) :
    Int × SpatialHashTable :=
  if locked then (-1, t)
  else
    match t.entries.lookup key with
    | some a => (a, t)
    | none =>
      match t.free_list with
      | [] => (-1, t)
      | a :: rest => (a, { t with entries := t.entries ++ [(key, a)], free_list := rest })

/-- Modelled from the spec: one `TryInsert` per key, the attempt at position `i` finding
the lock taken iff `flags[i]` says so. -/
def SpatialHashTable.insertAll (t : SpatialHashTable) :
    List Vector3i → List Bool → List Int × SpatialHashTable
  | [], _ => ([], t)
  | key :: keys, flags =>
    let r := t.TryInsert (flags.headD false) key
    let rs := SpatialHashTable.insertAll r.2 keys flags.tail
    (r.1 :: rs.1, rs.2)

/-- Modelled from the spec: `New(keys)`, a parallel `TryInsert` of all keys, whose races
come out as the head of `contention` says. -/
def SpatialHashTable.New (t : SpatialHashTable) (keys : List Vector3i) :
    List Int × SpatialHashTable :=
  SpatialHashTable.insertAll { t with contention := t.contention.tail } keys
    (t.contention.headD [])

/-- Modelled from the spec: the operations of the hash table (`HashTableCudaHost.hpp` and
the kernel behind `ScalableTSDFVolumeCudaKernelCaller::Create` are not among the
sources), for a table whose coming races are decided by `schedule`.  The value at slot
address `a` points at element `a * N^3` of every pool (§3: "three parallel flat arrays
indexed by `slot_address * N³ + local_voxel_index`"). -/
def SpatialHashTable.ops (schedule : List (List Bool)) : HashTableCuda SpatialHashTable where
  init :=
    { entries := [], free_list := [], contention := schedule, values := fun _ => ⟨0, 0, 0⟩ }
  Create := fun t _ value_capacity =>
    { t with entries := [], free_list := (List.range value_capacity.toNat).map Int.ofNat }
  ResetLocks := fun t => t
  New := SpatialHashTable.New
  DownloadKeys := fun t => t.entries.map (fun e => e.1)
  DownloadKeyValuePairs := fun t =>
    (t.entries.map (fun e => e.1), t.entries.map (fun e => t.values e.2))
  CreateKernel := fun t N =>
    { t with values := fun a => ⟨a * (N * N * N), a * (N * N * N), a * (N * N * N)⟩ }

/-- Invariants 1 and 2 of the spec (§3) for the modelled table: a key has at most one
live entry, no slot address is shared between live entries or with the free list, and
all slot addresses lie in `[0, value_capacity)`. -/
structure SpatialHashTable.Inv (t : SpatialHashTable) (value_capacity : Int) : Prop where
  addr_nodup : (t.entries.map (fun e => e.2) ++ t.free_list).Nodup
  key_nodup : (t.entries.map (fun e => e.1)).Nodup
  addr_range : ∀ a ∈ t.entries.map (fun e => e.2) ++ t.free_list, 0 ≤ a ∧ a < value_capacity

/-- The block key `(a, 0, 0)`. -/
def keyX (a : Int) : Vector3i := VectorCuda.mk3 a 0 0

/-- The modelled table after `Create(bucket_count, value_capacity)`, its coming races
decided by `schedule`. -/
def SpatialHashTable.created (schedule : List (List Bool)) (bucket_count value_capacity : Int) :
    SpatialHashTable :=
  (SpatialHashTable.ops schedule).Create (SpatialHashTable.ops schedule).init bucket_count
    value_capacity

/-- A device view whose pools hold `9` (tsdf), `9` (weight) and `(9, 9, 9)` (color)
everywhere and whose array of active indices has every byte `9`: stands for freshly
allocated, uninitialised device memory. -/
def staleDevice : ScalableTSDFVolumeCudaDevice where
  N_ := 0
  tsdf_memory_pool_ := fun _ => 9
  weight_memory_pool_ := fun _ => 9
  color_memory_pool_ := fun _ => VectorCuda.mk3 9 9 9
  active_subvolume_indices_ := fun _ => 9
  bucket_count_ := 0
  value_capacity_ := 0
  voxel_length_ := 0
  inv_voxel_length_ := 0
  sdf_trunc_ := 0
  transform_volume_to_world_ := TransformCuda.Identity
  transform_world_to_volume_ := TransformCuda.Identity

/-- Host voxel arrays of `n` voxels, all with signed distance `x`, weight `w` and color
`(w, w, w)`. -/
def uniformCpuData (n : Nat) (x : float) (w : uchar) : ScalableTSDFVolumeCpuData where
  tsdf_ := List.replicate n x
  weight_ := List.replicate n w
  color_ := List.replicate n (VectorCuda.mk3 w w w)

/-- A hash table whose `New` hands out the slot addresses `addrs`, one per key, in its
first call (a table whose free list holds these addresses next). -/
def fixedAddressOps (addrs : List Int) : HashTableCuda Unit where
  init := ()
  Create := fun _ _ _ => ()
  ResetLocks := fun _ => ()
  New := fun _ keys => (addrs.take keys.length, ())
  DownloadKeys := fun _ => []
  DownloadKeyValuePairs := fun _ => ([], [])
  CreateKernel := fun _ _ => ()

/-- A hash table that holds the block keys `keys`: `DownloadKeys` returns them. -/
def keyTableOps (keys : List Vector3i) : HashTableCuda Unit where
  init := ()
  Create := fun _ _ _ => ()
  ResetLocks := fun _ => ()
  New := fun _ _ => ([], ())
  DownloadKeys := fun _ => keys
  DownloadKeyValuePairs := fun _ => (keys, [])
  CreateKernel := fun _ _ => ()

/-- A created volume with block side `N` and `value_capacity` slots over the table state
`table`, with voxel length 1, truncation distance 1 and the identity transform, whose
pools hold what `staleDevice` holds. -/
def volumeOver {σ : Type} (table : σ) (N value_capacity : Int) : ScalableTSDFVolumeCuda σ where
  N_ := N
  device_ := some staleDevice
  hash_table_ := table
  bucket_count_ := 1
  value_capacity_ := value_capacity
  voxel_length_ := 1
  sdf_trunc_ := 1
  transform_volume_to_world_ := TransformCuda.Identity

/-- The modelled table with `value_capacity` slots after `New(keys)` on the created
table, no attempt losing a race. -/
def SpatialHashTable.holding (keys : List Vector3i) (value_capacity : Int) : SpatialHashTable :=
  (SpatialHashTable.New (SpatialHashTable.created [] 1 value_capacity) keys).2

/-- The block keys `(0,0,0), (1,0,0), …, (n-1,0,0)`. -/
def keysX (n : Nat) : List Vector3i := (List.range n).map (fun i => keyX (Int.ofNat i))

/-- The races of `rounds` calls of `New` on `n` keys that share a bucket, where in each
call only the first attempt gets the lock. -/
def oneWinnerPerRound (rounds n : Nat) : List (List Bool) :=
  List.replicate rounds (false :: List.replicate n true)

/-- The modelled table with 11 free slots before a bulk upload of 11 keys that share a
bucket, in whose 10 rounds only one attempt per round gets the lock. -/
def contendedTable : SpatialHashTable :=
  SpatialHashTable.created (oneWinnerPerRound 10 10) 1 11

/-- Host voxel data for `n` blocks of `count` voxels each, block `i` filled with signed
distance `i`, weight `i` and color `(i, i, i)`. -/
def dataX (n count : Nat) : List ScalableTSDFVolumeCpuData :=
  (List.range n).map (fun i => uniformCpuData count (Nat.cast i) i)

/-- A volume with block side 1 and 11 slots that holds the blocks `(0,0,0) … (10,0,0)`,
block `i` with the voxel data of `dataX`: the created volume after an `UploadVolumes` in
which no attempt loses a race. -/
def elevenBlocks : ScalableTSDFVolumeCuda SpatialHashTable :=
  ((ScalableTSDFVolumeCuda.construct (SpatialHashTable.ops []) staleDevice 1 1 1
    TransformCuda.Identity 1 11).UploadVolumes (SpatialHashTable.ops []) (keysX 11) (dataX 11 1)).2

/-! ## Round trip -/

/-- The bulk upload of the round trip: `UploadKeys` on a fresh volume with the
parameters of `src`, over the modelled table with races `s`, for the keys that
`DownloadVolumes` returns for `src`. -/
def roundTripUpload (s : List (List Bool)) (fresh : ScalableTSDFVolumeCudaDevice)
    (src : ScalableTSDFVolumeCuda SpatialHashTable) : UploadState SpatialHashTable :=
  UploadKeysRun (SpatialHashTable.ops s)
    (ScalableTSDFVolumeCuda.construct (SpatialHashTable.ops s) fresh src.N_ src.voxel_length_
      src.sdf_trunc_ src.transform_volume_to_world_
          src.bucket_count_ src.value_capacity_).hash_table_
    (src.DownloadVolumes (SpatialHashTable.ops s)).1

/-- The round trip: a fresh volume with the parameters of `src` after `UploadVolumes` of
the keys and voxel arrays that `DownloadVolumes` returns for `src`. -/
def roundTrip (s : List (List Bool)) (fresh : ScalableTSDFVolumeCudaDevice)
    (src : ScalableTSDFVolumeCuda SpatialHashTable) : ScalableTSDFVolumeCuda SpatialHashTable :=
  ((ScalableTSDFVolumeCuda.construct (SpatialHashTable.ops s) fresh src.N_ src.voxel_length_
      src.sdf_trunc_ src.transform_volume_to_world_
          src.bucket_count_ src.value_capacity_).UploadVolumes
    (SpatialHashTable.ops s) (src.DownloadVolumes (SpatialHashTable.ops s)).1
    (src.DownloadVolumes (SpatialHashTable.ops s)).2).2

/-! ## Block regions -/

/-- Modelled from the spec: the extent of a block in volume space (no function of the
sources computes it).  §3 of the spec: a block key "identifies one N³ voxel block in
block-index space" and a voxel has side `voxel_length`, so along one axis the block with
key component `k` of a volume with block side `N` and voxel length `L` starts at
`k * N * L`. -/
def blockMin (N : Int) (L : float) (k : Int) : float := k * N * L

/-- Modelled from the spec: where the block with key component `k` ends along one axis:
`(k + 1) * N * L`. -/
def blockMax (N : Int) (L : float) (k : Int) : float := (k + 1) * N * L

/-- Modelled from the spec: the region of block `c` of a volume with block side `Nc` and
voxel length `Lc` contains the region of block `f` of a volume with block side `Nf` and
voxel length `Lf`, on each of the three axes. -/
def blockContains (Nc : Int) (Lc : float) (c : Vector3i) (Nf : Int) (Lf : float)
    (f : Vector3i) : Prop :=
  ∀ d, d < 3 →
    blockMin Nc Lc (c.v.getD d 0) ≤ blockMin Nf Lf (f.v.getD d 0)
    ∧ blockMax Nf Lf (f.v.getD d 0) ≤ blockMax Nc Lc (c.v.getD d 0)

/-! ## Fusion of one voxel -/

/-- Modelled from the spec: the per-voxel update of the Fuse phase (the body of
`ScalableTSDFVolumeCudaDevice::Integrate` is not among the sources, which hold its
declaration only).  §4.3 of the spec:
"`new_tsdf = (old_tsdf*old_weight + sdf*new_weight) / (old_weight+new_weight)`,
`new_weight = min(old_weight+new_weight, WEIGHT_MAX)`".  A voxel is the pair of its
signed distance and its weight ("weight (integer, saturating)", §3); a sample is the pair
of `sdf` and the weight it comes with. -/
def fuse (WEIGHT_MAX : Nat) (voxel : float × Nat) (sample : float × Nat) : float × Nat :=
  ((voxel.1 * voxel.2 + sample.1 * sample.2) / ((voxel.2 : float) + sample.2),
    min (voxel.2 + sample.2) WEIGHT_MAX)

/-- Modelled from the spec: fusing a sequence of samples, one after the other, into an
empty voxel (signed distance 0, weight 0). -/
def fuseAll (WEIGHT_MAX : Nat) (samples : List (float × Nat)) : float × Nat :=
  samples.foldl (fuse WEIGHT_MAX) (0, 0)

/-- The three samples of §8.4 of the spec: `(sdf=0.1,w=1), (sdf=0.2,w=1), (sdf=-0.1,w=2)`. -/
def fusionSamples : List (float × Nat) := [(1 / 10, 1), (2 / 10, 1), (-1 / 10, 2)]

/-! ## Pool addressing -/

/-- `const int offset = NNN * addr;` of `UploadVolumes`. -/
def uploadOffset (NNN addr : Int) : Int := wrapInt32 (NNN * addr)

/-- Number of elements of each memory pool as `Create` allocates it:
`cudaMalloc(&device_->tsdf_memory_pool_, sizeof(float) * NNN * value_capacity)` with
`const int NNN = N_ * N_ * N_;` (likewise for the weight and color pools). -/
def poolLength (N value_capacity : Int) : Int := cube32 N * value_capacity

/-! ## Ownership of the device view -/

/-- One run of the six `cudaFree`s of `Release`: the volume object that ran them, the
view whose pools were freed, what `device_.use_count()` returned, and (bookkeeping of the
embedding) how many volume objects pointed at the view at that moment. -/
structure FreeRecord where
  volume : Nat
  view : Nat
  use_count : Nat
  holders : Nat
deriving DecidableEq

/-- The volume objects of a program, as far as ownership of device views goes.
`device_` holds the member `device_` of every volume object (`none` is `nullptr`,
`some p` points at the view with address `p`), `use_count p` is the use count in the
control block of the `std::shared_ptr` of view `p`, and `freed` records the runs of
`cudaFree` in program order. -/
structure Ownership where
  device_ : List (Option Nat)
  use_count : Nat → Nat
  freed : List FreeRecord

/-- Number of volume objects whose `device_` points at the view `p`. -/
def Ownership.holders (w : Ownership) (p : Nat) : Nat := w.device_.count (some p)

/-- `device_ = nullptr;` in volume object `i`: the pointer is dropped and the use count
of what it pointed at goes down by one. -/
def Ownership.resetPtr (w : Ownership) (i : Nat) : Ownership :=
  match w.device_.getD i none with
  | none => w
  | some p =>
    { w with
      device_ := w.device_.set i none
      use_count := Function.update w.use_count p (w.use_count p - 1) }

/-- `device_ = other.device_;` in volume object `i`, `other` being volume object `j`:
copy assignment of `std::shared_ptr`.  What `device_` pointed at is let go (at both
places where the sources assign, `device_` is null by then), and the use count of what
`other.device_` points at goes up by one. -/
def Ownership.assignPtr (w : Ownership) (i j : Nat) : Ownership :=
  match w.device_.getD j none with
  | none => w.resetPtr i
  | some p =>
    { w.resetPtr i with
      device_ := (w.resetPtr i).device_.set i (some p)
      use_count := Function.update (w.resetPtr i).use_count p ((w.resetPtr i).use_count p + 1) }

/-- `ScalableTSDFVolumeCuda::Release` on volume object `i`, as far as the device view
goes (`hash_table_.Release()` and `active_subvolume_entry_array_.Release()` are left
out). -/
def Ownership.Release (w : Ownership) (i : Nat) : Ownership :=
  match w.device_.getD i none with
  | none => w.resetPtr i
  | some p =>
    if w.use_count p = 1 then
      Ownership.resetPtr
        { w with freed := w.freed ++ [⟨i, p, w.use_count p, w.holders p⟩] } i
    else w.resetPtr i

/-- The copy constructor `ScalableTSDFVolumeCuda(const ScalableTSDFVolumeCuda &other)`,
`other` being volume object `j`: a new volume object (the last of the list), whose
`device_` starts null and is assigned `other.device_`. -/
def Ownership.copyConstruct (w : Ownership) (j : Nat) : Ownership :=
  Ownership.assignPtr { w with device_ := w.device_ ++ [none] } w.device_.length j

/-- `operator=(const ScalableTSDFVolumeCuda &other)` on volume object `i`, `other` being
volume object `j`: `if (this != &other) { Release(); ... device_ = other.device_; ... }`. -/
def Ownership.assign (w : Ownership) (i j : Nat) : Ownership :=
  if i ≠ j then (w.Release i).assignPtr i j else w

/-- A call on volume objects: copy construction from a volume, copy assignment to the
first from the second, or `Release` (also run by the destructor). -/
inductive OwnershipOp where
  | copyConstruct (other : Nat) : OwnershipOp
  | assign (this other : Nat) : OwnershipOp
  | Release (this : Nat) : OwnershipOp
deriving DecidableEq

/-- One call.  A call that names a volume object that does not exist does nothing. -/
def Ownership.step (w : Ownership) : OwnershipOp → Ownership
  | OwnershipOp.copyConstruct j => if j < w.device_.length then w.copyConstruct j else w
  | OwnershipOp.assign i j =>
    if i < w.device_.length ∧ j < w.device_.length then w.assign i j else w
  | OwnershipOp.Release i => if i < w.device_.length then w.Release i else w

/-- A sequence of calls, in program order. -/
def Ownership.run (w : Ownership) (ops : List OwnershipOp) : Ownership :=
  ops.foldl Ownership.step w

/-- One volume object right after `Create`: its `device_` points at the view made by
`std::make_shared` (address 0), whose use count is 1; nothing has been freed. -/
def Ownership.created : Ownership where
  device_ := [some 0]
  use_count := fun p => if p = 0 then 1 else 0
  freed := []

/-- Invariant of the volume objects that share the view of `Ownership.created`. -/
structure Ownership.Inv (w : Ownership) : Prop where
  view0 : ∀ o ∈ w.device_, o = none ∨ o = some 0
  count : w.use_count 0 = w.holders 0
  once : w.freed.length ≤ 1
  gone : w.freed ≠ [] → w.holders 0 = 0
  sole : ∀ r ∈ w.freed, r.view = 0 ∧ r.use_count = 1 ∧ r.holders = 1

/-! ## Repeated keys -/

/-- The key list `(0,0,0)` followed by eleven times `(1,0,0)`. -/
def repeatedKeys : List Vector3i := keyX 0 :: List.replicate 11 (keyX 1)

/-! ## Theorems -/

section UploadKeysLemmas

variable {σ : Type}

/-- Positions of a round at which `New` returned a negative address. -/
theorem partitionBody_fold (kta : List Vector3i) (im : List Nat) (ret : List Int)
    (is : List Nat) (p : Partition) :
    (is.foldl (partitionBody kta im ret) p).new_index_map
        = p.new_index_map ++ (is.filter (fun i => ret.getD i 0 < 0)).map (fun i => im.getD i 0)
    ∧ (is.foldl (partitionBody kta im ret) p).new_keys_to_attempt
        = p.new_keys_to_attempt
            ++ (is.filter (fun i => ret.getD i 0 < 0)).map (fun i => kta.getD i default)
    ∧ (is.foldl (partitionBody kta im ret) p).value_addrs
        = (is.filter (fun i => ¬ ret.getD i 0 < 0)).foldl
            (fun va i => va.set (im.getD i 0) (ret.getD i 0)) p.value_addrs := by
  induction is generalizing p with
  | nil => simp
  | cons i is ih =>
    simp only [List.foldl_cons]
    obtain ⟨h1, h2, h3⟩ := ih (partitionBody kta im ret p i)
    rw [h1, h2, h3]
    by_cases h : ret.getD i 0 < 0
    · simp only [partitionBody, h, if_true, List.filter_cons, decide_True, decide_False,
        not_true_eq_false, List.map_cons, List.append_assoc, List.singleton_append]
      simp
    · simp only [partitionBody, h, if_false, List.filter_cons, decide_True, decide_False,
        not_false_eq_true, List.foldl_cons]
      simp


theorem setFold_length (f : Nat → Nat) (g : Nat → Int) (js : List Nat) (va : List Int) :
    (js.foldl (fun va i => va.set (f i) (g i)) va).length = va.length := by
  induction js generalizing va with
  | nil => rfl
  | cons j js ih => simp [List.foldl_cons, ih]

theorem setFold_getElem?_of_not_mem (f : Nat → Nat) (g : Nat → Int) (js : List Nat)
    (va : List Int) (x : Nat) (hx : ∀ j ∈ js, f j ≠ x) :
    (js.foldl (fun va i => va.set (f i) (g i)) va)[x]? = va[x]? := by
  induction js generalizing va with
  | nil => rfl
  | cons j js ih =>
    simp only [List.foldl_cons]
    rw [ih _ (fun k hk => hx k (List.mem_cons_of_mem _ hk))]
    exact List.getElem?_set_ne (hx j (List.mem_cons_self _ _))

theorem setFold_getElem?_of_mem (f : Nat → Nat) (g : Nat → Int) (js : List Nat)
    (va : List Int) (hnd : (js.map f).Nodup) (j : Nat) (hj : j ∈ js)
    (hlt : f j < va.length) :
    (js.foldl (fun va i => va.set (f i) (g i)) va)[f j]? = some (g j) := by
  induction js generalizing va with
  | nil => cases hj
  | cons k js ih =>
    simp only [List.foldl_cons]
    rw [List.map_cons, List.nodup_cons] at hnd
    rcases List.mem_cons.mp hj with rfl | hj'
    · rw [setFold_getElem?_of_not_mem]
      · exact List.getElem?_set_self hlt
      · intro i hi heq
        exact hnd.1 (heq ▸ List.mem_map_of_mem f hi)
    · exact ih _ hnd.2 hj' (by simpa using hlt)

theorem map_getD_range {α : Type} (l : List α) (d : α) :
    (List.range l.length).map (fun i => l.getD i d) = l := by
  apply List.ext_getElem
  · simp
  · intro n h1 h2
    simp at h1
    simp [h1]

theorem partitionLoop_spec (kta : List Vector3i) (im : List Nat) (ret va : List Int) :
    (partitionLoop kta im ret va).new_index_map
        = ((List.range kta.length).filter (fun i => ret.getD i 0 < 0)).map
            (fun i => im.getD i 0)
    ∧ (partitionLoop kta im ret va).new_keys_to_attempt
        = ((List.range kta.length).filter (fun i => ret.getD i 0 < 0)).map
            (fun i => kta.getD i default)
    ∧ (partitionLoop kta im ret va).value_addrs
        = ((List.range kta.length).filter (fun i => ¬ ret.getD i 0 < 0)).foldl
            (fun va i => va.set (im.getD i 0) (ret.getD i 0)) va := by
  have h := partitionBody_fold kta im ret (List.range kta.length) ⟨[], [], va⟩
  simpa [partitionLoop] using h


theorem filter_range_eq_zip {α : Type} (d : α) (l : List α) (ret : List Int) :
    ((List.range l.length).filter (fun i => ret.getD i 0 < 0)).map (fun i => l.getD i d)
      = ((l.zip ret).filter (fun ka => ka.2 < 0)).map (fun ka => ka.1) := by
  induction l generalizing ret with
  | nil => simp
  | cons x l ih =>
    cases ret with
    | nil =>
      simp only [List.zip_nil_right, List.filter_nil, List.map_nil, List.map_eq_nil_iff,
        List.filter_eq_nil_iff]
      intro i _
      simp
    | cons a ret =>
      have ht : (((List.range l.length).filter
            ((fun i => decide ((a :: ret).getD i 0 < 0)) ∘ Nat.succ)).map Nat.succ).map
            (fun i => (x :: l).getD i d)
          = ((l.zip ret).filter (fun ka => ka.2 < 0)).map (fun ka => ka.1) := by
        rw [← ih ret, List.map_map]
        rfl
      rw [List.length_cons, List.range_succ_eq_map, List.filter_cons, List.zip_cons_cons,
        List.filter_cons, List.filter_map]
      by_cases h : a < 0
      · simp only [List.getD_cons_zero, h, decide_True, if_true, List.map_cons, ht]
      · simp only [List.getD_cons_zero, h, decide_False, if_false, ht, Bool.false_eq_true]

theorem uploadRound_new_keys (ht : HashTableCuda σ) (st : UploadState σ) :
    (uploadRound ht st).2.new_keys_to_attempt
      = Round.failedKeys ⟨st.keys_to_attempt, st.index_map,
          (ht.New (ht.ResetLocks st.hash_table_) st.keys_to_attempt).1⟩ := by
  show (partitionLoop _ _ _ _).new_keys_to_attempt = _
  rw [(partitionLoop_spec _ _ _ _).2.1, filter_range_eq_zip]
  rfl

theorem uploadRound_new_index_map (ht : HashTableCuda σ) (st : UploadState σ)
    (hlen : st.index_map.length = st.keys_to_attempt.length) :
    (uploadRound ht st).2.new_index_map
      = Round.failedIndices ⟨st.keys_to_attempt, st.index_map,
          (ht.New (ht.ResetLocks st.hash_table_) st.keys_to_attempt).1⟩ := by
  show (partitionLoop _ _ _ _).new_index_map = _
  rw [(partitionLoop_spec _ _ _ _).1, ← hlen, filter_range_eq_zip]
  rfl

theorem uploadRound_isEmpty_iff (ht : HashTableCuda σ) (st : UploadState σ) :
    (uploadRound ht st).2.new_keys_to_attempt.isEmpty = true
      ↔ Round.allResolved ⟨st.keys_to_attempt, st.index_map,
          (ht.New (ht.ResetLocks st.hash_table_) st.keys_to_attempt).1⟩ := by
  show (partitionLoop _ _ _ _).new_keys_to_attempt.isEmpty = true ↔ _
  rw [(partitionLoop_spec _ _ _ _).2.1, List.isEmpty_iff, List.map_eq_nil_iff,
    List.filter_eq_nil_iff]
  simp only [List.mem_range, decide_eq_true_eq, not_lt]
  rfl

theorem uploadRound_log (ht : HashTableCuda σ) (st : UploadState σ) :
    (uploadRound ht st).1.log
      = st.log ++ Round.events ⟨st.keys_to_attempt, st.index_map,
          (ht.New (ht.ResetLocks st.hash_table_) st.keys_to_attempt).1⟩ := by
  have h := uploadRound_new_keys ht st
  show st.log ++ [Event.ResetLocks, Event.New st.keys_to_attempt,
      Event.LogInfo (st.keys_to_attempt.length
        - (uploadRound ht st).2.new_keys_to_attempt.length) st.keys_to_attempt.length] = _
  rw [h]
  rfl

/-- One pass of the loop body of `UploadKeys` followed by the two swaps re-establishes
the loop invariant. -/
theorem uploadRound_inv (ht : HashTableCuda σ) (keys : List Vector3i) (st : UploadState σ)
    (h : UploadInv keys st) :
    UploadInv keys
      { (uploadRound ht st).1 with
        index_map := (uploadRound ht st).2.new_index_map
        keys_to_attempt := (uploadRound ht st).2.new_keys_to_attempt } := by
  obtain ⟨e1, e2, e3⟩ := partitionLoop_spec st.keys_to_attempt st.index_map
    (ht.New (ht.ResetLocks st.hash_table_) st.keys_to_attempt).1 st.value_addrs
  set ret := (ht.New (ht.ResetLocks st.hash_table_) st.keys_to_attempt).1 with hret
  have hmapf : (List.range st.keys_to_attempt.length).map (fun i => st.index_map.getD i 0)
      = st.index_map := by
    rw [← h.len_im]; exact map_getD_range _ _
  have hsubF : (((List.range st.keys_to_attempt.length).filter
      (fun i => ret.getD i 0 < 0)).map (fun i => st.index_map.getD i 0)).Sublist
      st.index_map := by
    have := (List.filter_sublist (p := fun i => decide (ret.getD i 0 < 0))
      (List.range st.keys_to_attempt.length)).map (fun i => st.index_map.getD i 0)
    rwa [hmapf] at this
  have hsubG : (((List.range st.keys_to_attempt.length).filter
      (fun i => ¬ ret.getD i 0 < 0)).map (fun i => st.index_map.getD i 0)).Sublist
      st.index_map := by
    have := (List.filter_sublist (p := fun i => decide (¬ ret.getD i 0 < 0))
      (List.range st.keys_to_attempt.length)).map (fun i => st.index_map.getD i 0)
    rwa [hmapf] at this
  have hinj : ∀ a b, a < st.keys_to_attempt.length → b < st.keys_to_attempt.length →
      st.index_map.getD a 0 = st.index_map.getD b 0 → a = b := by
    intro a b ha hb hab
    have hnd : ((List.range st.keys_to_attempt.length).map
        (fun i => st.index_map.getD i 0)).Nodup := by rw [hmapf]; exact h.nodup
    exact List.inj_on_of_nodup_map hnd (List.mem_range.mpr ha) (List.mem_range.mpr hb) hab
  have hkey : ∀ j, j < st.keys_to_attempt.length →
      keys[st.index_map.getD j 0]? = some (st.keys_to_attempt.getD j default) := by
    intro j hj
    have hj' : j < st.index_map.length := by rw [h.len_im]; exact hj
    have := congrArg (fun l => l[j]?) h.key_of
    simp only [List.getElem?_map, List.getElem?_eq_getElem hj, List.getElem?_eq_getElem hj',
      Option.map_some'] at this
    simp only [List.getD_eq_getElem?_getD, List.getElem?_eq_getElem hj,
      List.getElem?_eq_getElem hj', Option.getD_some]
    exact Option.some_injective _ this
  constructor
  · show (uploadRound ht st).2.new_index_map.length
      = (uploadRound ht st).2.new_keys_to_attempt.length
    show (partitionLoop st.keys_to_attempt st.index_map ret st.value_addrs).new_index_map.length
      = (partitionLoop st.keys_to_attempt st.index_map ret
          st.value_addrs).new_keys_to_attempt.length
    rw [e1, e2, List.length_map, List.length_map]
  · show (partitionLoop st.keys_to_attempt st.index_map ret st.value_addrs).new_index_map.Nodup
    rw [e1]; exact h.nodup.sublist hsubF
  · show ∀ i ∈ (partitionLoop st.keys_to_attempt st.index_map ret
        st.value_addrs).new_index_map,
      i < keys.length
    rw [e1]; exact fun i hi => h.lt i (hsubF.subset hi)
  · show (partitionLoop st.keys_to_attempt st.index_map ret st.value_addrs).value_addrs.length
      = keys.length
    rw [e3, setFold_length]; exact h.len_va
  · show (partitionLoop st.keys_to_attempt st.index_map ret st.value_addrs).new_index_map.map
        (fun i => keys[i]?)
      = (partitionLoop st.keys_to_attempt st.index_map ret
          st.value_addrs).new_keys_to_attempt.map some
    rw [e1, e2, List.map_map, List.map_map]
    apply List.map_congr_left
    intro j hj
    exact hkey j (List.mem_range.mp (List.mem_of_mem_filter hj))
  · show ∀ rd ∈ st.rounds ++ [⟨st.keys_to_attempt, st.index_map, ret⟩],
      ∀ (j i : Nat) (a : Int), rd.index_map[j]? = some i → rd.ret_value_addrs[j]? = some a →
        0 ≤ a →
        (partitionLoop st.keys_to_attempt st.index_map ret st.value_addrs).value_addrs[i]?
            = some a
          ∧ i ∉ (partitionLoop st.keys_to_attempt st.index_map ret
              st.value_addrs).new_index_map
    intro rd hrd j i a hi ha h0
    rw [e1, e3]
    rcases List.mem_append.mp hrd with hold | hnew
    · obtain ⟨hv, hni⟩ := h.resolved rd hold j i a hi ha h0
      refine ⟨?_, fun hmem => hni (hsubF.subset hmem)⟩
      rw [setFold_getElem?_of_not_mem, hv]
      intro k hk heq
      exact hni (hsubG.subset (heq ▸ List.mem_map_of_mem _ hk))
    · rw [List.mem_singleton] at hnew
      subst hnew
      simp only at hi ha
      have hjlt : j < st.keys_to_attempt.length := by
        rw [← h.len_im]
        by_contra hcon
        rw [List.getElem?_eq_none (not_lt.mp hcon)] at hi
        cases hi
      have hfj : st.index_map.getD j 0 = i := by
        rw [List.getD_eq_getElem?_getD, hi]; rfl
      have hgj : ret.getD j 0 = a := by
        rw [List.getD_eq_getElem?_getD, ha]; rfl
      have hjG : j ∈ (List.range st.keys_to_attempt.length).filter
          (fun i => ¬ ret.getD i 0 < 0) := by
        rw [List.mem_filter]
        refine ⟨List.mem_range.mpr hjlt, ?_⟩
        rw [hgj]; simpa using h0
      constructor
      · have := setFold_getElem?_of_mem (fun i => st.index_map.getD i 0)
          (fun i => ret.getD i 0) _ st.value_addrs (h.nodup.sublist hsubG) j hjG
          (by
            show st.index_map.getD j 0 < st.value_addrs.length
            rw [hfj, h.len_va]
            exact h.lt i (List.getElem?_mem hi))
        simp only [hfj, hgj] at this
        exact this
      · intro hmem
        obtain ⟨k, hk, hkeq⟩ := List.mem_map.mp hmem
        rw [List.mem_filter] at hk
        have : k = j := hinj k j (List.mem_range.mp hk.1) hjlt (hkeq.trans hfj.symm)
        subst this
        have hneg := hk.2
        rw [hgj] at hneg
        have : a < 0 := by simpa using hneg
        omega

theorem uploadInit_inv (table : σ) (keys : List Vector3i) :
    UploadInv keys (uploadInit table keys) := by
  refine ⟨?_, ?_, ?_, ?_, ?_, ?_⟩
  · simp [uploadInit]
  · exact List.nodup_range _
  · intro i hi; exact List.mem_range.mp hi
  · simp [uploadInit]
  · show (List.range keys.length).map (fun i => keys[i]?) = keys.map some
    apply List.ext_getElem
    · simp
    · intro n h1 h2
      simp at h1
      simp [h1]
  · intro rd hrd; cases hrd

theorem retryState_inv (ht : HashTableCuda σ) (table : σ) (keys : List Vector3i) (k : Nat) :
    UploadInv keys (retryState ht table keys k) := by
  induction k with
  | zero => exact uploadInit_inv table keys
  | succ k ih =>
    have h : UploadInv keys
        { retryState ht table keys k with attempt := (retryState ht table keys k).attempt + 1 } :=
      ⟨ih.len_im, ih.nodup, ih.lt, ih.len_va, ih.key_of, ih.resolved⟩
    exact uploadRound_inv ht keys _ h

theorem retryState_attempt (ht : HashTableCuda σ) (table : σ) (keys : List Vector3i)
    (k : Nat) : (retryState ht table keys k).attempt = k := by
  induction k with
  | zero => rfl
  | succ k ih =>
    show (retryState ht table keys k).attempt + 1 = k + 1
    rw [ih]

theorem retryState_rounds (ht : HashTableCuda σ) (table : σ) (keys : List Vector3i)
    (k : Nat) :
    (retryState ht table keys k).rounds = (List.range k).map (roundAt ht table keys) := by
  induction k with
  | zero => rfl
  | succ k ih =>
    rw [List.range_succ, List.map_append, ← ih]
    rfl

theorem retryState_log (ht : HashTableCuda σ) (table : σ) (keys : List Vector3i)
    (k : Nat) :
    (retryState ht table keys k).log
      = ((List.range k).map (roundAt ht table keys)).flatMap Round.events := by
  induction k with
  | zero => rfl
  | succ k ih =>
    rw [List.range_succ, List.map_append, List.flatMap_append, ← ih]
    show (uploadRound ht _).1.log = _
    rw [uploadRound_log]
    simp [roundAt]


theorem roundAt_allResolved_iff (ht : HashTableCuda σ) (table : σ) (keys : List Vector3i)
    (k a : Nat) :
    (uploadRound ht { retryState ht table keys k with attempt := a }).2.new_keys_to_attempt.isEmpty
        = true
      ↔ (roundAt ht table keys k).allResolved :=
  uploadRound_isEmpty_iff ht _

/-- The `while` loop of `UploadKeys`, entered in the state reached after `k` unfinished
rounds, either leaves by `break` in the first round `n ≥ k` that resolves every key it
was given, or runs out of budget after round `kTotalAttempt`. -/
theorem uploadLoop_retryState (ht : HashTableCuda σ) (table : σ) (keys : List Vector3i)
    (d : Nat) :
    ∀ (k fuel : Nat), k + d = kTotalAttempt → d + 1 ≤ fuel →
      (∃ n, k ≤ n ∧ n < kTotalAttempt
          ∧ (∀ j, k ≤ j → j < n → ¬ (roundAt ht table keys j).allResolved)
          ∧ (roundAt ht table keys n).allResolved
          ∧ uploadLoop ht fuel (retryState ht table keys k)
              = (uploadRound ht { retryState ht table keys n with attempt := n + 1 }).1)
      ∨ ((∀ j, k ≤ j → j < kTotalAttempt → ¬ (roundAt ht table keys j).allResolved)
          ∧ uploadLoop ht fuel (retryState ht table keys k)
              = { retryState ht table keys kTotalAttempt with
                  attempt := kTotalAttempt + 1 }) := by
  induction d with
  | zero =>
    intro k fuel hk hfuel
    obtain ⟨f, rfl⟩ : ∃ f, fuel = f + 1 := ⟨fuel - 1, by omega⟩
    have hk' : k = kTotalAttempt := by omega
    subst hk'
    right
    refine ⟨fun j h1 h2 => absurd h1 (by omega), ?_⟩
    have ha := retryState_attempt ht table keys kTotalAttempt
    simp only [uploadLoop, ha, lt_irrefl, if_false]
  | succ d ih =>
    intro k fuel hk hfuel
    obtain ⟨f, rfl⟩ : ∃ f, fuel = f + 1 := ⟨fuel - 1, by omega⟩
    have ha := retryState_attempt ht table keys k
    have hlt : k < kTotalAttempt := by omega
    by_cases hb : (roundAt ht table keys k).allResolved
    · left
      refine ⟨k, le_refl k, hlt, fun j h1 h2 => absurd h1 (by omega), hb, ?_⟩
      have hb' := (roundAt_allResolved_iff ht table keys k (k + 1)).mpr hb
      simp only [uploadLoop, ha, hlt, if_true, hb']
    · have hb' : ¬ (uploadRound ht { retryState ht table keys k with
          attempt := k + 1 }).2.new_keys_to_attempt.isEmpty = true :=
        fun h => hb ((roundAt_allResolved_iff ht table keys k (k + 1)).mp h)
      have hstep : uploadLoop ht (f + 1) (retryState ht table keys k)
          = uploadLoop ht f (retryState ht table keys (k + 1)) := by
        simp only [uploadLoop, ha, hlt, hb', retryState, reduceIte, Bool.false_eq_true]
      rw [hstep]
      rcases ih (k + 1) f (by omega) (by omega) with ⟨n, h1, h2, h3, h4, h5⟩ | ⟨h1, h2⟩
      · left
        refine ⟨n, by omega, h2, ?_, h4, h5⟩
        intro j hj1 hj2
        by_cases hjk : j = k
        · subst hjk; exact hb
        · exact h3 j (by omega) hj2
      · right
        refine ⟨?_, h2⟩
        intro j hj1 hj2
        by_cases hjk : j = k
        · subst hjk; exact hb
        · exact h1 j (by omega) hj2


theorem UploadKeysRun_eq (ht : HashTableCuda σ) (table : σ) (keys : List Vector3i)
    (st : UploadState σ)
    (h : uploadLoop ht (kTotalAttempt + 1) (uploadInit table keys) = st) :
    UploadKeysRun ht table keys
      = if st.attempt = kTotalAttempt then
          { st with log := st.log ++ [Event.LogWarning st.keys_to_attempt.length] }
        else st := by
  subst h; rfl

/-- Shape of a run of `UploadKeys`: it consists of the first `m` rounds of the retry
protocol, `1 ≤ m ≤ kTotalAttempt`, none of the first `m - 1` rounds resolves all its
keys, and either round `m` does (the loop is left by `break` with `attempt = m`) or
`m = kTotalAttempt` and the loop test fails with `attempt = kTotalAttempt + 1`. -/
theorem UploadKeysRun_shape (ht : HashTableCuda σ) (table : σ) (keys : List Vector3i) :
    ∃ m, 1 ≤ m ∧ m ≤ kTotalAttempt
      ∧ (∀ j, j + 1 < m → ¬ (roundAt ht table keys j).allResolved)
      ∧ (UploadKeysRun ht table keys).rounds = (List.range m).map (roundAt ht table keys)
      ∧ (UploadKeysRun ht table keys).value_addrs = (retryState ht table keys m).value_addrs
      ∧ (UploadKeysRun ht table keys).hash_table_ = (retryState ht table keys m).hash_table_
      ∧ (((roundAt ht table keys (m - 1)).allResolved
            ∧ (UploadKeysRun ht table keys).attempt = m
            ∧ (UploadKeysRun ht table keys).keys_to_attempt
                = (roundAt ht table keys (m - 1)).keys_to_attempt
            ∧ (UploadKeysRun ht table keys).log
                = ((List.range m).map (roundAt ht table keys)).flatMap Round.events
                  ++ (if m = kTotalAttempt then
                        [Event.LogWarning (roundAt ht table keys (m - 1)).keys_to_attempt.length]
                      else []))
          ∨ (m = kTotalAttempt
            ∧ ¬ (roundAt ht table keys (m - 1)).allResolved
            ∧ (UploadKeysRun ht table keys).attempt = kTotalAttempt + 1
            ∧ (UploadKeysRun ht table keys).keys_to_attempt
                = (retryState ht table keys m).keys_to_attempt
            ∧ (UploadKeysRun ht table keys).log
                = ((List.range m).map (roundAt ht table keys)).flatMap Round.events)) := by
  rcases uploadLoop_retryState ht table keys kTotalAttempt 0 (kTotalAttempt + 1)
      (by simp) (le_refl _) with ⟨n, -, h2, h3, h4, h5⟩ | ⟨h1, h2⟩
  · have hrun := UploadKeysRun_eq ht table keys _ h5
    generalize hst : (uploadRound ht { retryState ht table keys n with attempt := n + 1 }).1
      = st at hrun
    have hlog : st.log
        = ((List.range (n + 1)).map (roundAt ht table keys)).flatMap Round.events := by
      rw [← hst, uploadRound_log, List.range_succ, List.map_append, List.flatMap_append,
        ← retryState_log]
      simp [roundAt]
    have hrounds : st.rounds = (List.range (n + 1)).map (roundAt ht table keys) := by
      rw [← hst, List.range_succ, List.map_append, ← retryState_rounds]
      rfl
    have hva : st.value_addrs = (retryState ht table keys (n + 1)).value_addrs := by
      rw [← hst]; rfl
    have htab : st.hash_table_ = (retryState ht table keys (n + 1)).hash_table_ := by
      rw [← hst]; rfl
    have hatt : st.attempt = n + 1 := by rw [← hst]; rfl
    have hkta : st.keys_to_attempt = (roundAt ht table keys n).keys_to_attempt := by
      rw [← hst]; rfl
    refine ⟨n + 1, by omega, by omega, fun j hj => h3 j (Nat.zero_le _) (by omega), ?_, ?_, ?_,
      Or.inl ⟨by simpa using h4, ?_, ?_, ?_⟩⟩
    · rw [hrun]; split <;> exact hrounds
    · rw [hrun]; split <;> exact hva
    · rw [hrun]; split <;> exact htab
    · rw [hrun]; split <;> exact hatt
    · rw [hrun]; split <;> exact hkta
    · rw [hrun]
      by_cases hn : n + 1 = kTotalAttempt
      · rw [if_pos (by rw [hatt]; exact hn), if_pos hn]
        show st.log ++ _ = _
        rw [hlog, hkta]
        rfl
      · rw [if_neg (by rw [hatt]; exact hn), if_neg hn, hlog, List.append_nil]
  · have hrun := UploadKeysRun_eq ht table keys _ h2
    have hne : ¬ (kTotalAttempt + 1 = kTotalAttempt) := by omega
    rw [if_neg hne] at hrun
    refine ⟨kTotalAttempt, by decide, le_refl _,
      fun j hj => h1 j (Nat.zero_le _) (by omega), ?_, ?_, ?_,
      Or.inr ⟨rfl, h1 _ (Nat.zero_le _) (by decide), ?_, ?_, ?_⟩⟩
    · rw [hrun]; exact retryState_rounds ht table keys kTotalAttempt
    · rw [hrun]
    · rw [hrun]
    · rw [hrun]
    · rw [hrun]
    · rw [hrun]; exact retryState_log ht table keys kTotalAttempt


theorem uploadLoop_fuel (ht : HashTableCuda σ) (d : Nat) :
    ∀ (st : UploadState σ) (fuel : Nat), st.attempt + d = kTotalAttempt → d + 1 ≤ fuel →
      uploadLoop ht fuel st = uploadLoop ht (d + 1) st := by
  induction d with
  | zero =>
    intro st fuel hst hfuel
    obtain ⟨f, rfl⟩ : ∃ f, fuel = f + 1 := ⟨fuel - 1, by omega⟩
    have hnlt : ¬ st.attempt < kTotalAttempt := by omega
    simp only [uploadLoop, hnlt, if_false]
  | succ d ih =>
    intro st fuel hst hfuel
    obtain ⟨f, rfl⟩ : ∃ f, fuel = f + 1 := ⟨fuel - 1, by omega⟩
    have hlt : st.attempt < kTotalAttempt := by omega
    simp only [uploadLoop, hlt, if_true]
    split
    · rfl
    · exact ih _ f (by show st.attempt + 1 + d = kTotalAttempt; omega) (by omega)

theorem filter_flatMap_events (p : Event → Bool) (l : List Round) :
    (l.flatMap Round.events).filter p = l.flatMap (fun rd => rd.events.filter p) := by
  induction l with
  | nil => rfl
  | cons x l ih => simp only [List.flatMap_cons, List.filter_append, ih]

theorem roundAt_mem_rounds (ht : HashTableCuda σ) (table : σ) (keys : List Vector3i)
    (k m : Nat) (h : k < m) :
    roundAt ht table keys k ∈ (retryState ht table keys m).rounds := by
  rw [retryState_rounds]
  exact List.mem_map_of_mem _ (List.mem_range.mpr h)

theorem rounds_getElem? (ht : HashTableCuda σ) (table : σ) (keys : List Vector3i)
    (m k : Nat) (rd : Round)
    (h : ((List.range m).map (roundAt ht table keys))[k]? = some rd) :
    k < m ∧ rd = roundAt ht table keys k := by
  rw [List.getElem?_map] at h
  by_cases hk : k < m
  · rw [List.getElem?_range hk] at h
    exact ⟨hk, (Option.some_injective _ h).symm⟩
  · rw [List.getElem?_eq_none (by simpa using hk)] at h
    cases h

theorem roundAt_succ (ht : HashTableCuda σ) (table : σ) (keys : List Vector3i) (k : Nat) :
    (roundAt ht table keys (k + 1)).keys_to_attempt = (roundAt ht table keys k).failedKeys
    ∧ (roundAt ht table keys (k + 1)).index_map = (roundAt ht table keys k).failedIndices := by
  constructor
  · show (uploadRound ht _).2.new_keys_to_attempt = _
    rw [uploadRound_new_keys]
    rfl
  · show (uploadRound ht _).2.new_index_map = _
    exact uploadRound_new_index_map ht
      { retryState ht table keys k with attempt := (retryState ht table keys k).attempt + 1 }
      (retryState_inv ht table keys k).len_im

/-- The addresses returned by `UploadKeys`: one per key, and the address `New` returned
for an entry of the key list in the round that resolved it. -/
theorem UploadKeysRun_resolved {σ : Type} (ht : HashTableCuda σ) (table : σ)
    (keys : List Vector3i) :
    (UploadKeys ht table keys).length = keys.length
    ∧ ∀ rd ∈ (UploadKeysRun ht table keys).rounds, ∀ (j i : Nat) (a : Int),
        rd.index_map[j]? = some i → rd.ret_value_addrs[j]? = some a → 0 ≤ a →
          i < keys.length ∧ rd.keys_to_attempt[j]? = keys[i]?
            ∧ (UploadKeys ht table keys)[i]? = some a := by
  obtain ⟨m, -, -, -, hr, hv, -, -⟩ := UploadKeysRun_shape ht table keys
  have hinv := retryState_inv ht table keys m
  refine ⟨by rw [UploadKeys, hv]; exact hinv.len_va, ?_⟩
  intro rd hrd j i a hi ha h0
  rw [hr] at hrd
  obtain ⟨k, hk, rfl⟩ := List.mem_map.mp hrd
  have hk' := List.mem_range.mp hk
  have hinvk := retryState_inv ht table keys k
  have hi' : (retryState ht table keys k).index_map[j]? = some i := hi
  refine ⟨hinvk.lt i (List.getElem?_mem hi'), ?_, ?_⟩
  · have := congrArg (fun l => l[j]?) hinvk.key_of
    simp only [List.getElem?_map, hi', Option.map_some'] at this
    show (retryState ht table keys k).keys_to_attempt[j]? = keys[i]?
    cases hkj : (retryState ht table keys k).keys_to_attempt[j]? with
    | none => rw [hkj] at this; cases this
    | some x => rw [hkj] at this; exact (Option.some_injective _ this).symm
  · rw [UploadKeys, hv]
    exact (hinv.resolved _ (roundAt_mem_rounds ht table keys k m hk') j i a hi ha h0).1


/-- The first round of `UploadKeys` is given the whole key list, and no round is given a
key that is not in the list. -/
theorem UploadKeysRun_keys_given (ht : HashTableCuda σ) (table : σ) (keys : List Vector3i) :
    (∃ rd, (UploadKeysRun ht table keys).rounds[0]? = some rd ∧ rd.keys_to_attempt = keys)
    ∧ ∀ rd ∈ (UploadKeysRun ht table keys).rounds,
        ∀ k ∈ rd.keys_to_attempt, k ∈ keys := by
  obtain ⟨m, hm, -, -, hr, -, -, -⟩ := UploadKeysRun_shape ht table keys
  rw [hr]
  constructor
  · refine ⟨roundAt ht table keys 0, ?_, rfl⟩
    rw [List.getElem?_map, List.getElem?_range (by omega)]
    rfl
  · intro rd hrd k hk
    obtain ⟨r, -, rfl⟩ := List.mem_map.mp hrd
    obtain ⟨j, hj⟩ := List.mem_iff_getElem?.mp hk
    have hj' : (retryState ht table keys r).keys_to_attempt[j]? = some k := hj
    have := congrArg (fun l => l[j]?) (retryState_inv ht table keys r).key_of
    simp only [List.getElem?_map, hj', Option.map_some'] at this
    cases hi : (retryState ht table keys r).index_map[j]? with
    | none => rw [hi] at this; cases this
    | some i =>
      rw [hi] at this
      exact List.getElem?_mem (Option.some_injective _ this)

end UploadKeysLemmas

section UploadVolumesLemmas

theorem memcpyFold_outside {α : Type} (skip : Nat → Bool) (off : Nat → Int)
    (src : Nat → List α) (cnt : Nat) (is : List Nat) (pool : Int → α) (p : Int)
    (h : ∀ i ∈ is, skip i = false → ¬ (off i ≤ p ∧ p < off i + cnt)) :
    (is.foldl (fun pl i => if skip i = true then pl
        else memcpyHostToDevice pl (off i) (src i) cnt) pool) p = pool p := by
  induction is generalizing pool with
  | nil => rfl
  | cons i is ih =>
    rw [List.foldl_cons, ih _ (fun j hj => h j (List.mem_cons_of_mem _ hj))]
    by_cases hs : skip i = true
    · rw [if_pos hs]
    · rw [if_neg hs]
      have := h i (List.mem_cons_self _ _) (by simpa using hs)
      simp only [memcpyHostToDevice, this, if_false]

theorem memcpyFold_inside {α : Type} (skip : Nat → Bool) (off : Nat → Int)
    (src : Nat → List α) (cnt : Nat) (is : List Nat) (pool : Int → α) (p : Int) (i : Nat)
    (hi : i ∈ is) (hs : skip i = false) (hp : off i ≤ p ∧ p < off i + cnt)
    (hothers : ∀ j ∈ is, j ≠ i → skip j = false → ¬ (off j ≤ p ∧ p < off j + cnt))
    (x : α) (hx : (src i)[(p - off i).toNat]? = some x) :
    (is.foldl (fun pl i => if skip i = true then pl
        else memcpyHostToDevice pl (off i) (src i) cnt) pool) p = x := by
  induction is generalizing pool with
  | nil => cases hi
  | cons k is ih =>
    rw [List.foldl_cons]
    by_cases hmem : i ∈ is
    · exact ih _ hmem (fun j hj => hothers j (List.mem_cons_of_mem _ hj))
    · have hk : k = i := by
        rcases List.mem_cons.mp hi with h | h
        · exact h.symm
        · exact absurd h hmem
      subst hk
      rw [memcpyFold_outside]
      · have hs' : ¬ skip k = true := by simp [hs]
        rw [if_neg hs']
        simp only [memcpyHostToDevice, hp, and_self, if_true, List.getD_eq_getElem?_getD, hx,
          Option.getD_some]
      · intro j hj hsj
        exact hothers j (List.mem_cons_of_mem _ hj) (fun h => hmem (h ▸ hj)) hsj

theorem wrapInt32_eq (x : Int) (h1 : -2147483648 ≤ x) (h2 : x ≤ 2147483647) :
    wrapInt32 x = x := by
  unfold wrapInt32; omega

theorem cube32_eq (N : Int) (h0 : 0 ≤ N) (h : N ^ 3 ≤ 2147483647) : cube32 N = N ^ 3 := by
  have h3 : N ^ 3 = N * N * N := by ring
  have hsq : N * N ≤ N ^ 3 := by
    rcases eq_or_lt_of_le h0 with h | h
    · subst h; simp
    · have : 1 ≤ N := h
      nlinarith [mul_nonneg h0 h0]
  have hsq0 : 0 ≤ N * N := mul_nonneg h0 h0
  unfold cube32
  rw [wrapInt32_eq (N * N) (by omega) (by omega),
    wrapInt32_eq (N * N * N) (by nlinarith) (by omega), h3]

theorem uploadVolumesBody_fold (NNN : Int) (values : List ScalableTSDFVolumeCpuData)
    (va : List Int) (is : List Nat) (acc : Bool × ScalableTSDFVolumeCudaDevice) :
    (is.foldl (uploadVolumesBody NNN values va) acc).2.tsdf_memory_pool_
        = is.foldl (fun pl i => if decide (va.getD i 0 < 0) = true then pl
            else memcpyHostToDevice pl (wrapInt32 (NNN * va.getD i 0))
              (values.getD i default).tsdf_ NNN.toNat) acc.2.tsdf_memory_pool_
    ∧ (is.foldl (uploadVolumesBody NNN values va) acc).2.weight_memory_pool_
        = is.foldl (fun pl i => if decide (va.getD i 0 < 0) = true then pl
            else memcpyHostToDevice pl (wrapInt32 (NNN * va.getD i 0))
              (values.getD i default).weight_ NNN.toNat) acc.2.weight_memory_pool_
    ∧ (is.foldl (uploadVolumesBody NNN values va) acc).2.color_memory_pool_
        = is.foldl (fun pl i => if decide (va.getD i 0 < 0) = true then pl
            else memcpyHostToDevice pl (wrapInt32 (NNN * va.getD i 0))
              (values.getD i default).color_ NNN.toNat) acc.2.color_memory_pool_
    ∧ (is.foldl (uploadVolumesBody NNN values va) acc).1
        = (acc.1 && is.all (fun i => decide (¬ va.getD i 0 < 0))) := by
  induction is generalizing acc with
  | nil => simp
  | cons i is ih =>
    simp only [List.foldl_cons]
    obtain ⟨h1, h2, h3, h4⟩ := ih (uploadVolumesBody NNN values va acc i)
    rw [h1, h2, h3, h4]
    by_cases h : va.getD i 0 < 0
    · simp only [uploadVolumesBody, h, if_true, decide_True, List.all_cons, not_true_eq_false,
        decide_False, Bool.false_and, Bool.and_false, and_self]
    · simp only [uploadVolumesBody, h, if_false, decide_False, List.all_cons, not_false_eq_true,
        decide_True, Bool.true_and, Bool.false_eq_true, and_self]

/-- One pool after the `for` loop of `UploadVolumes`, when the addresses are distinct,
non-negative and their offsets do not overflow: the slot of every address holds the
array uploaded for it, and every position outside all slots is untouched. -/
theorem poolFold_spec {α : Type} (NNN : Int) (hN : 0 ≤ NNN) (va : List Int)
    (src : Nat → List α) (pool : Int → α)
    (hnn : ∀ a ∈ va, 0 ≤ a) (hnd : va.Nodup)
    (hoff : ∀ a ∈ va, wrapInt32 (NNN * a) = NNN * a) :
    (∀ (i : Nat) (a : Int) (j : Nat) (x : α), va[i]? = some a → (j : Int) < NNN →
        (src i)[j]? = some x →
        ((List.range va.length).foldl (fun pl i => if decide (va.getD i 0 < 0) = true then pl
            else memcpyHostToDevice pl (wrapInt32 (NNN * va.getD i 0)) (src i) NNN.toNat) pool)
          (NNN * a + j) = x)
    ∧ (∀ p : Int, (∀ a ∈ va, ¬ (NNN * a ≤ p ∧ p < NNN * a + NNN)) →
        ((List.range va.length).foldl (fun pl i => if decide (va.getD i 0 < 0) = true then pl
            else memcpyHostToDevice pl (wrapInt32 (NNN * va.getD i 0)) (src i) NNN.toNat) pool)
          p = pool p) := by
  have hcnt : ((NNN.toNat : Nat) : Int) = NNN := Int.toNat_of_nonneg hN
  have hget : ∀ i, i < va.length → va.getD i 0 ∈ va ∧ va[i]? = some (va.getD i 0) := by
    intro i hi
    rw [List.getD_eq_getElem?_getD, List.getElem?_eq_getElem hi]
    exact ⟨List.getElem_mem hi, rfl⟩
  constructor
  · intro i a j x hia hj hx
    have hi : i < va.length := by
      by_contra hcon
      rw [List.getElem?_eq_none (not_lt.mp hcon)] at hia
      cases hia
    have hai : va.getD i 0 = a := by rw [List.getD_eq_getElem?_getD, hia]; rfl
    have hamem : a ∈ va := List.getElem?_mem hia
    apply memcpyFold_inside (fun i => decide (va.getD i 0 < 0))
      (fun i => wrapInt32 (NNN * va.getD i 0)) src NNN.toNat (List.range va.length) pool
      (NNN * a + j) i (List.mem_range.mpr hi)
    · have := hnn a hamem
      simp only [hai, decide_eq_false_iff_not, not_lt]
      exact this
    · simp only [hai, hoff a hamem, hcnt]
      omega
    · intro k hk hki hsk
      have hk' := List.mem_range.mp hk
      obtain ⟨hkmem, hkget⟩ := hget k hk'
      have hne : va.getD k 0 ≠ a := by
        intro heq
        rw [heq] at hkget
        have := (List.getElem?_inj hk' hnd (hkget.trans hia.symm))
        exact hki this
      have hk0 := hnn _ hkmem
      simp only [hoff _ hkmem, hcnt]
      intro hcon
      rcases lt_or_gt_of_ne hne with hlt | hgt
      · have : NNN * (va.getD k 0 + 1) ≤ NNN * a := Int.mul_le_mul_of_nonneg_left (by omega) hN
        have h2 : NNN * (va.getD k 0 + 1) = NNN * va.getD k 0 + NNN := by ring
        omega
      · have : NNN * (a + 1) ≤ NNN * va.getD k 0 := Int.mul_le_mul_of_nonneg_left (by omega) hN
        have h2 : NNN * (a + 1) = NNN * a + NNN := by ring
        omega
    · simp only [hai, hoff a hamem]
      have : (NNN * a + (j : Int) - NNN * a).toNat = j := by
        have : NNN * a + (j : Int) - NNN * a = (j : Int) := by ring
        rw [this]; exact Int.toNat_natCast j
      rw [this]; exact hx
  · intro p hp
    apply memcpyFold_outside
    intro i hi _
    obtain ⟨himem, -⟩ := hget i (List.mem_range.mp hi)
    simp only [hoff _ himem, hcnt]
    exact hp _ himem

end UploadVolumesLemmas

/-! ## UploadKeys: the returned addresses, the rounds, the retried keys -/

/-- C1: `UploadKeys` returns one entry per input key, and whenever `New`, in some round,
returns a non-negative address `a` at position `j` of that round and the index map of
the round holds `i` at `j`, then the key given to `New` at `j` is `keys[i]` and entry
`i` of the result is `a`: the address of no other key, and not overwritten later. -/
theorem UploadKeys_returns_resolved_addresses {σ : Type} (ht : HashTableCuda σ) (table : σ)
    (keys : List Vector3i) :
    (UploadKeys ht table keys).length = keys.length
    ∧ ∀ rd ∈ (UploadKeysRun ht table keys).rounds, ∀ (j i : Nat) (a : Int),
        rd.index_map[j]? = some i → rd.ret_value_addrs[j]? = some a → 0 ≤ a →
          i < keys.length ∧ rd.keys_to_attempt[j]? = keys[i]?
            ∧ (UploadKeys ht table keys)[i]? = some a :=
  UploadKeysRun_resolved ht table keys

/-- The code on a small input: three keys that share a bucket, one lock winner per
round.  Three rounds are run, each retrying the keys that failed in the round before, and
the returned addresses are those `New` handed out. -/
theorem UploadKeysRun_three_keys_in_three_rounds :
    (UploadKeysRun (SpatialHashTable.ops [])
        (SpatialHashTable.created (oneWinnerPerRound 3 2) 1 4) (keysX 3)).rounds
      = [⟨[keyX 0, keyX 1, keyX 2], [0, 1, 2], [0, -1, -1]⟩,
          ⟨[keyX 1, keyX 2], [1, 2], [1, -1]⟩,
          ⟨[keyX 2], [2], [2]⟩]
    ∧ UploadKeys (SpatialHashTable.ops [])
        (SpatialHashTable.created (oneWinnerPerRound 3 2) 1 4) (keysX 3) = [0, 1, 2]
    ∧ (UploadKeysRun (SpatialHashTable.ops [])
        (SpatialHashTable.created (oneWinnerPerRound 3 2) 1 4) (keysX 3)).log
      = [Event.ResetLocks, Event.New [keyX 0, keyX 1, keyX 2], Event.LogInfo 1 3,
          Event.ResetLocks, Event.New [keyX 1, keyX 2], Event.LogInfo 1 2,
          Event.ResetLocks, Event.New [keyX 2], Event.LogInfo 1 1] := by
  set_option maxRecDepth 100000 in decide

/-- C2: `UploadKeys` terminates (its loop needs no more than `kTotalAttempt + 1 = 11`
evaluations of the loop test) and runs exactly `min(r, 10)` rounds, `r` being the first
round (counted from 1; `roundAt` counts from 0) in which `New` returns a non-negative
address for every key it was given, and 10 rounds if there is no such round.  The rounds
are the first rounds of the retry protocol, each is one `ResetLocks` followed by one
`New`, `New` is called at most 10 times, and no round follows one that resolved all its
keys. -/
theorem UploadKeys_round_count {σ : Type} (ht : HashTableCuda σ) (table : σ)
    (keys : List Vector3i) :
    (∀ fuel, kTotalAttempt + 1 ≤ fuel →
        uploadLoop ht fuel (uploadInit table keys)
          = uploadLoop ht (kTotalAttempt + 1) (uploadInit table keys))
    ∧ (∀ r, (roundAt ht table keys r).allResolved →
        (∀ k, k < r → ¬ (roundAt ht table keys k).allResolved) →
        (UploadKeysRun ht table keys).rounds.length = min (r + 1) 10)
    ∧ ((∀ r, ¬ (roundAt ht table keys r).allResolved) →
        (UploadKeysRun ht table keys).rounds.length = 10)
    ∧ (UploadKeysRun ht table keys).rounds
        = (List.range (UploadKeysRun ht table keys).rounds.length).map (roundAt ht table keys)
    ∧ (UploadKeysRun ht table keys).log.filter Event.isTableCall
        = (UploadKeysRun ht table keys).rounds.flatMap
            (fun rd => [Event.ResetLocks, Event.New rd.keys_to_attempt])
    ∧ ((UploadKeysRun ht table keys).log.filter Event.isNew).length
        = (UploadKeysRun ht table keys).rounds.length
    ∧ 1 ≤ (UploadKeysRun ht table keys).rounds.length
    ∧ (UploadKeysRun ht table keys).rounds.length ≤ 10
    ∧ (∀ k, k + 1 < (UploadKeysRun ht table keys).rounds.length →
        ¬ (roundAt ht table keys k).allResolved) := by
  obtain ⟨m, hm1, hm2, hnot, hr, -, -, hcase⟩ := UploadKeysRun_shape ht table keys
  have hlen : (UploadKeysRun ht table keys).rounds.length = m := by
    rw [hr, List.length_map, List.length_range]
  have hm2' : m ≤ 10 := hm2
  have hlogT : (UploadKeysRun ht table keys).log.filter Event.isTableCall
      = ((List.range m).map (roundAt ht table keys)).flatMap
          (fun rd => [Event.ResetLocks, Event.New rd.keys_to_attempt]) := by
    rcases hcase with ⟨-, -, -, hlog⟩ | ⟨-, -, -, -, hlog⟩
    · rw [hlog, List.filter_append, filter_flatMap_events]
      have : List.filter Event.isTableCall
          (if m = kTotalAttempt then
            [Event.LogWarning (roundAt ht table keys (m - 1)).keys_to_attempt.length]
          else []) = [] := by
        split <;> rfl
      rw [this, List.append_nil]
      rfl
    · rw [hlog, filter_flatMap_events]
      rfl
  have hlogN : (UploadKeysRun ht table keys).log.filter Event.isNew
      = ((List.range m).map (roundAt ht table keys)).flatMap
          (fun rd => [Event.New rd.keys_to_attempt]) := by
    rcases hcase with ⟨-, -, -, hlog⟩ | ⟨-, -, -, -, hlog⟩
    · rw [hlog, List.filter_append, filter_flatMap_events]
      have : List.filter Event.isNew
          (if m = kTotalAttempt then
            [Event.LogWarning (roundAt ht table keys (m - 1)).keys_to_attempt.length]
          else []) = [] := by
        split <;> rfl
      rw [this, List.append_nil]
      rfl
    · rw [hlog, filter_flatMap_events]
      rfl
  refine ⟨fun fuel hfuel => uploadLoop_fuel ht kTotalAttempt _ fuel (by simp [uploadInit]) hfuel,
    ?_, ?_, ?_, ?_, ?_, by rw [hlen]; exact hm1, ?_, ?_⟩
  · intro r hr1 hr2
    rw [hlen]
    have h1 : m ≤ r + 1 := by
      by_contra hcon
      exact hnot r (by omega) hr1
    rcases hcase with ⟨hres, -⟩ | ⟨hm, -⟩
    · have h2 : r ≤ m - 1 := by
        by_contra hcon
        exact hr2 (m - 1) (by omega) hres
      omega
    · have : m = 10 := hm
      omega
  · intro hnone
    rw [hlen]
    rcases hcase with ⟨hres, -⟩ | ⟨hm, -⟩
    · exact absurd hres (hnone _)
    · exact hm
  · rw [hlen]; exact hr
  · rw [hlogT, hr]
  · rw [hlogN, hlen]
    have hsum : ∀ l : List Round,
        (l.flatMap (fun rd => [Event.New rd.keys_to_attempt])).length = l.length := by
      intro l
      induction l with
      | nil => rfl
      | cons x l ih =>
        rw [List.flatMap_cons, List.length_append, ih, List.length_singleton,
          List.length_cons, Nat.add_comm]
    rw [hsum, List.length_map, List.length_range]
  · rw [hlen]; exact hm2'
  · rw [hlen]; exact hnot

/-- C3: the first round of `UploadKeys` is given all keys with the identity index map;
the keys (and index-map entries) of each later round are exactly those of the round
before for which `New` returned a negative address, in the same order; at the start of
every round `keys_to_attempt[j] = keys[index_map[j]]` for every position `j`; and an
entry of the key list that has been resolved in one round is in the index map of no
later round. -/
theorem UploadKeys_retries_exactly_failed_keys {σ : Type} (ht : HashTableCuda σ) (table : σ)
    (keys : List Vector3i) :
    (∀ rd, (UploadKeysRun ht table keys).rounds[0]? = some rd →
        rd.keys_to_attempt = keys ∧ rd.index_map = List.range keys.length)
    ∧ (∀ (k : Nat) (rd rd' : Round),
        (UploadKeysRun ht table keys).rounds[k]? = some rd →
        (UploadKeysRun ht table keys).rounds[k + 1]? = some rd' →
        rd'.keys_to_attempt = rd.failedKeys ∧ rd'.index_map = rd.failedIndices)
    ∧ (∀ rd ∈ (UploadKeysRun ht table keys).rounds,
        rd.index_map.length = rd.keys_to_attempt.length
        ∧ rd.index_map.map (fun i => keys[i]?) = rd.keys_to_attempt.map some)
    ∧ (∀ (k k' : Nat) (rd rd' : Round) (j i : Nat) (a : Int), k < k' →
        (UploadKeysRun ht table keys).rounds[k]? = some rd →
        (UploadKeysRun ht table keys).rounds[k']? = some rd' →
        rd.index_map[j]? = some i → rd.ret_value_addrs[j]? = some a → 0 ≤ a →
        i ∉ rd'.index_map) := by
  obtain ⟨m, -, -, -, hr, -, -, -⟩ := UploadKeysRun_shape ht table keys
  rw [hr]
  refine ⟨?_, ?_, ?_, ?_⟩
  · intro rd h
    obtain ⟨-, rfl⟩ := rounds_getElem? ht table keys m 0 rd h
    exact ⟨rfl, rfl⟩
  · intro k rd rd' h h'
    obtain ⟨-, rfl⟩ := rounds_getElem? ht table keys m k rd h
    obtain ⟨-, rfl⟩ := rounds_getElem? ht table keys m (k + 1) rd' h'
    exact roundAt_succ ht table keys k
  · intro rd hrd
    obtain ⟨k, -, rfl⟩ := List.mem_map.mp hrd
    exact ⟨(retryState_inv ht table keys k).len_im, (retryState_inv ht table keys k).key_of⟩
  · intro k k' rd rd' j i a hkk h h' hi ha h0
    obtain ⟨-, rfl⟩ := rounds_getElem? ht table keys m k rd h
    obtain ⟨-, rfl⟩ := rounds_getElem? ht table keys m k' rd' h'
    exact ((retryState_inv ht table keys k').resolved _
      (roundAt_mem_rounds ht table keys k k' hkk) j i a hi ha h0).2

/-! ## UploadKeys and UploadVolumes when keys stay unresolved -/

/-- C4 (the code at the failing input): a table with a single slot is given the keys
`(0,0,0)` and `(1,0,0)`.  `UploadKeys` runs all 10 rounds, `(1,0,0)` is still unresolved
(it is the one key left in `keys_to_attempt`), the loop is left with `attempt = 11`, and
the log holds no `LogWarning`. -/
theorem UploadKeys_exhausted_budget_logs_no_warning :
    (UploadKeysRun (SpatialHashTable.ops []) (SpatialHashTable.created [] 1 1)
        [keyX 0, keyX 1]).rounds.length = 10
    ∧ (UploadKeysRun (SpatialHashTable.ops []) (SpatialHashTable.created [] 1 1)
        [keyX 0, keyX 1]).keys_to_attempt = [keyX 1]
    ∧ (UploadKeysRun (SpatialHashTable.ops []) (SpatialHashTable.created [] 1 1)
        [keyX 0, keyX 1]).hash_table_.entries = [(keyX 0, 0)]
    ∧ (UploadKeysRun (SpatialHashTable.ops []) (SpatialHashTable.created [] 1 1)
        [keyX 0, keyX 1]).attempt = 11
    ∧ (UploadKeysRun (SpatialHashTable.ops []) (SpatialHashTable.created [] 1 1)
        [keyX 0, keyX 1]).log.filter Event.isWarning = [] := by
  set_option maxRecDepth 100000 in decide

/-- C5 (the code at the failing input): a volume with block side 1 and a single slot is
given the keys `(0,0,0)`, `(1,0,0)` with voxel data `(5, 5)` and `(7, 7)`.  `UploadKeys`
leaves `(1,0,0)` unresolved (it is not in the table) but returns the address list
`[0, 0]`; `UploadVolumes` returns `true` and slot 0 of the pools holds the data of the
unresolved key. -/
theorem UploadVolumes_copies_unresolved_key :
    UploadKeys (SpatialHashTable.ops [])
        (ScalableTSDFVolumeCuda.construct (SpatialHashTable.ops []) staleDevice 1 1 1
          TransformCuda.Identity 1 1).hash_table_ [keyX 0, keyX 1] = [0, 0]
    ∧ (ScalableTSDFVolumeCuda.UploadVolumes (SpatialHashTable.ops [])
        (ScalableTSDFVolumeCuda.construct (SpatialHashTable.ops []) staleDevice 1 1 1
          TransformCuda.Identity 1 1)
        [keyX 0, keyX 1] [uniformCpuData 1 5 5, uniformCpuData 1 7 7]).2.hash_table_.entries
          = [(keyX 0, 0)]
    ∧ (ScalableTSDFVolumeCuda.UploadVolumes (SpatialHashTable.ops [])
        (ScalableTSDFVolumeCuda.construct (SpatialHashTable.ops []) staleDevice 1 1 1
          TransformCuda.Identity 1 1)
        [keyX 0, keyX 1] [uniformCpuData 1 5 5, uniformCpuData 1 7 7]).1 = true
    ∧ (ScalableTSDFVolumeCuda.UploadVolumes (SpatialHashTable.ops [])
        (ScalableTSDFVolumeCuda.construct (SpatialHashTable.ops []) staleDevice 1 1 1
          TransformCuda.Identity 1 1)
        [keyX 0, keyX 1] [uniformCpuData 1 5 5, uniformCpuData 1 7 7]).2.device_.map
          (fun d => (d.tsdf_memory_pool_ 0, d.weight_memory_pool_ 0, d.color_memory_pool_ 0))
        = some (7, 7, VectorCuda.mk3 7 7 7) := by
  set_option maxRecDepth 100000 in decide

/-! ## UploadVolumes: what is written, what is left alone -/

/-- What `UploadVolumes` writes when the offsets fit in `int`: the slot of every resolved
key holds its arrays, and no position outside these slots changes. -/
theorem UploadVolumes_spec {σ : Type} (ht : HashTableCuda σ)
    (vol : ScalableTSDFVolumeCuda σ) (dev : ScalableTSDFVolumeCudaDevice)
    (keys : List Vector3i) (values : List ScalableTSDFVolumeCpuData)
    (hdev : vol.device_ = some dev)
    (hN : 0 ≤ vol.N_)
    (hcap : vol.N_ ^ 3 * vol.value_capacity_ ≤ 2147483647)
    (hsize : ∀ v ∈ values, v.tsdf_.length = (vol.N_ ^ 3).toNat
      ∧ v.weight_.length = (vol.N_ ^ 3).toNat ∧ v.color_.length = (vol.N_ ^ 3).toNat)
    (hres : ∀ i, i < keys.length →
      ∃ a, (UploadKeysRun ht vol.hash_table_ keys).ResolvedTo i a ∧ a < vol.value_capacity_)
    (hdistinct : ∀ i i' a, (UploadKeysRun ht vol.hash_table_ keys).ResolvedTo i a →
      (UploadKeysRun ht vol.hash_table_ keys).ResolvedTo i' a → i = i') :
    ∃ dev', (vol.UploadVolumes ht keys values).2.device_ = some dev'
      ∧ (∀ (i : Nat) (a : Int) (v : ScalableTSDFVolumeCpuData),
          (UploadKeysRun ht vol.hash_table_ keys).ResolvedTo i a → values[i]? = some v →
          ∀ j : Nat, (j : Int) < vol.N_ ^ 3 →
            v.tsdf_[j]? = some (dev'.tsdf_memory_pool_ (a * vol.N_ ^ 3 + j))
            ∧ v.weight_[j]? = some (dev'.weight_memory_pool_ (a * vol.N_ ^ 3 + j))
            ∧ v.color_[j]? = some (dev'.color_memory_pool_ (a * vol.N_ ^ 3 + j)))
      ∧ (∀ p : Int,
          (∀ i a, (UploadKeysRun ht vol.hash_table_ keys).ResolvedTo i a →
            ¬ (a * vol.N_ ^ 3 ≤ p ∧ p < a * vol.N_ ^ 3 + vol.N_ ^ 3)) →
          dev'.tsdf_memory_pool_ p = dev.tsdf_memory_pool_ p
          ∧ dev'.weight_memory_pool_ p = dev.weight_memory_pool_ p
          ∧ dev'.color_memory_pool_ p = dev.color_memory_pool_ p) := by
  obtain ⟨hlen, hC1⟩ := UploadKeysRun_resolved ht vol.hash_table_ keys
  have hlen' : (UploadKeysRun ht vol.hash_table_ keys).value_addrs.length = keys.length := hlen
  have hva : ∀ i a, (UploadKeysRun ht vol.hash_table_ keys).ResolvedTo i a →
      (UploadKeysRun ht vol.hash_table_ keys).value_addrs[i]? = some a := by
    rintro i a ⟨rd, hrd, j, hi, ha, h0⟩
    exact (hC1 rd hrd j i a hi ha h0).2.2
  generalize hrun : UploadKeysRun ht vol.hash_table_ keys = run at *
  have hmem : ∀ a ∈ run.value_addrs,
      ∃ i, run.ResolvedTo i a ∧ 0 ≤ a ∧ a < vol.value_capacity_ := by
    intro a ha
    obtain ⟨i, hi⟩ := List.mem_iff_getElem?.mp ha
    have hilt : i < keys.length := by
      rw [← hlen']
      by_contra hcon
      rw [List.getElem?_eq_none (not_lt.mp hcon)] at hi
      cases hi
    obtain ⟨a', hr, hc⟩ := hres i hilt
    have := (hva i a' hr).symm.trans hi
    have haa : a' = a := Option.some_injective _ this
    subst haa
    obtain ⟨rd, hrd, j, hi', ha', h0⟩ := hr
    exact ⟨i, ⟨rd, hrd, j, hi', ha', h0⟩, h0, hc⟩
  have hnd : run.value_addrs.Nodup := by
    rw [List.nodup_iff_getElem?_ne_getElem?]
    intro i j hij hj heq
    rw [hlen'] at hj
    obtain ⟨a, hr, -⟩ := hres i (by omega)
    obtain ⟨b, hr', -⟩ := hres j hj
    have hab : a = b := by
      have := (hva i a hr).symm.trans (heq.trans (hva j b hr'))
      exact Option.some_injective _ this
    subst hab
    have := hdistinct i j a hr hr'
    omega
  have hupl : (vol.UploadVolumes ht keys values).2.device_
      = some (uploadVolumesLoop (cube32 vol.N_) values run.value_addrs dev).2 := by
    simp only [ScalableTSDFVolumeCuda.UploadVolumes, hdev, hrun]
  refine ⟨_, hupl, ?_⟩
  obtain ⟨ht1, ht2, ht3, -⟩ := uploadVolumesBody_fold (cube32 vol.N_) values run.value_addrs
    (List.range run.value_addrs.length) (true, dev)
  by_cases hempty : run.value_addrs = []
  · constructor
    · intro i a v hr
      have := hva i a hr
      rw [hempty] at this
      cases this
    · intro p _
      simp only [uploadVolumesLoop, hempty, List.length_nil, List.range_zero, List.foldl_nil,
        and_self]
  · obtain ⟨a0, ha0⟩ := List.exists_mem_of_ne_nil _ hempty
    obtain ⟨-, -, ha00, ha0c⟩ := hmem a0 ha0
    have hN3 : 0 ≤ vol.N_ ^ 3 := pow_nonneg hN 3
    have hN3le : vol.N_ ^ 3 ≤ 2147483647 := by
      have : vol.N_ ^ 3 * 1 ≤ vol.N_ ^ 3 * vol.value_capacity_ :=
        Int.mul_le_mul_of_nonneg_left (by omega) hN3
      omega
    have hcube : cube32 vol.N_ = vol.N_ ^ 3 := cube32_eq vol.N_ hN hN3le
    have hoff : ∀ a ∈ run.value_addrs, wrapInt32 (vol.N_ ^ 3 * a) = vol.N_ ^ 3 * a := by
      intro a ha
      obtain ⟨-, -, h0, hc⟩ := hmem a ha
      have h1 : vol.N_ ^ 3 * a ≤ vol.N_ ^ 3 * vol.value_capacity_ :=
        Int.mul_le_mul_of_nonneg_left (by omega) hN3
      have h2 : 0 ≤ vol.N_ ^ 3 * a := mul_nonneg hN3 h0
      exact wrapInt32_eq _ (by omega) (by omega)
    have hnn : ∀ a ∈ run.value_addrs, 0 ≤ a := fun a ha => (hmem a ha).choose_spec.2.1
    rw [hcube] at ht1 ht2 ht3
    obtain ⟨hT1, hT2⟩ := poolFold_spec (vol.N_ ^ 3) hN3 run.value_addrs
      (fun i => (values.getD i default).tsdf_) dev.tsdf_memory_pool_ hnn hnd hoff
    obtain ⟨hW1, hW2⟩ := poolFold_spec (vol.N_ ^ 3) hN3 run.value_addrs
      (fun i => (values.getD i default).weight_) dev.weight_memory_pool_ hnn hnd hoff
    obtain ⟨hC1', hC2⟩ := poolFold_spec (vol.N_ ^ 3) hN3 run.value_addrs
      (fun i => (values.getD i default).color_) dev.color_memory_pool_ hnn hnd hoff
    rw [hcube]
    unfold uploadVolumesLoop
    rw [ht1, ht2, ht3]
    constructor
    · intro i a v hr hv j hj
      have hvi : values.getD i default = v := by
        rw [List.getD_eq_getElem?_getD, hv]; rfl
      obtain ⟨hs1, hs2, hs3⟩ := hsize v (List.getElem?_mem hv)
      have hjn : j < (vol.N_ ^ 3).toNat := by omega
      have hcomm : a * vol.N_ ^ 3 + (j : Int) = vol.N_ ^ 3 * a + j := by ring
      rw [hcomm]
      refine ⟨?_, ?_, ?_⟩
      · have hb : j < v.tsdf_.length := by omega
        have hx : v.tsdf_[j]? = some v.tsdf_[j] := List.getElem?_eq_getElem hb
        rw [hT1 i a j _ (hva i a hr) hj (by simpa only [hvi] using hx)]
        exact hx
      · have hb : j < v.weight_.length := by omega
        have hx : v.weight_[j]? = some v.weight_[j] := List.getElem?_eq_getElem hb
        rw [hW1 i a j _ (hva i a hr) hj (by simpa only [hvi] using hx)]
        exact hx
      · have hb : j < v.color_.length := by omega
        have hx : v.color_[j]? = some v.color_[j] := List.getElem?_eq_getElem hb
        rw [hC1' i a j _ (hva i a hr) hj (by simpa only [hvi] using hx)]
        exact hx
    · intro p hp
      have hp' : ∀ a ∈ run.value_addrs,
          ¬ (vol.N_ ^ 3 * a ≤ p ∧ p < vol.N_ ^ 3 * a + vol.N_ ^ 3) := by
        intro a ha
        obtain ⟨i, hr, -, -⟩ := hmem a ha
        have := hp i a hr
        rwa [mul_comm] at this
      exact ⟨hT2 p hp', hW2 p hp', hC2 p hp'⟩

/-- C6 (amended): let `UploadVolumes` be called on a created volume with `N ≥ 0` and
`N^3 * value_capacity ≤ 2^31 - 1`, with one voxel-array triple of `N^3` entries per key,
and let `UploadKeys` resolve every key to a slot address below `value_capacity`, distinct
keys to distinct addresses.  Then for each key `i` with address `a` and each local index
`j < N^3` the tsdf, weight and color pools hold `values[i]` at `a * N^3 + j`, and every
pool position that lies in no resolved key's slot is unchanged. -/
theorem UploadVolumes_writes_resolved_slots {σ : Type} (ht : HashTableCuda σ)
    (vol : ScalableTSDFVolumeCuda σ) (dev : ScalableTSDFVolumeCudaDevice)
    (keys : List Vector3i) (values : List ScalableTSDFVolumeCpuData)
    (hdev : vol.device_ = some dev)
    (hN : 0 ≤ vol.N_)
    (hcap : vol.N_ ^ 3 * vol.value_capacity_ ≤ 2147483647)
    (hsize : ∀ v ∈ values, v.tsdf_.length = (vol.N_ ^ 3).toNat
      ∧ v.weight_.length = (vol.N_ ^ 3).toNat ∧ v.color_.length = (vol.N_ ^ 3).toNat)
    (hres : ∀ i, i < keys.length →
      ∃ a, (UploadKeysRun ht vol.hash_table_ keys).ResolvedTo i a ∧ a < vol.value_capacity_)
    (hdistinct : ∀ i i' a, (UploadKeysRun ht vol.hash_table_ keys).ResolvedTo i a →
      (UploadKeysRun ht vol.hash_table_ keys).ResolvedTo i' a → i = i') :
    ∃ dev', (vol.UploadVolumes ht keys values).2.device_ = some dev'
      ∧ (∀ (i : Nat) (a : Int) (v : ScalableTSDFVolumeCpuData),
          (UploadKeysRun ht vol.hash_table_ keys).ResolvedTo i a → values[i]? = some v →
          ∀ j : Nat, (j : Int) < vol.N_ ^ 3 →
            v.tsdf_[j]? = some (dev'.tsdf_memory_pool_ (a * vol.N_ ^ 3 + j))
            ∧ v.weight_[j]? = some (dev'.weight_memory_pool_ (a * vol.N_ ^ 3 + j))
            ∧ v.color_[j]? = some (dev'.color_memory_pool_ (a * vol.N_ ^ 3 + j)))
      ∧ (∀ p : Int,
          (∀ i a, (UploadKeysRun ht vol.hash_table_ keys).ResolvedTo i a →
            ¬ (a * vol.N_ ^ 3 ≤ p ∧ p < a * vol.N_ ^ 3 + vol.N_ ^ 3)) →
          dev'.tsdf_memory_pool_ p = dev.tsdf_memory_pool_ p
          ∧ dev'.weight_memory_pool_ p = dev.weight_memory_pool_ p
          ∧ dev'.color_memory_pool_ p = dev.color_memory_pool_ p) :=
  UploadVolumes_spec ht vol dev keys values hdev hN hcap hsize hres hdistinct

/-- Witness for `UploadVolumes_writes_resolved_slots`: block side 2, two slots, the keys
`(0,0,0)` and `(1,0,0)` resolved to the addresses 0 and 1: position `1 * 2^3 + 3` of the
tsdf pool holds the value uploaded for the second key and position 16, which lies in no
slot, still holds what it held before. -/
theorem UploadVolumes_writes_resolved_slots_witness :
    ∃ dev', ((volumeOver (SpatialHashTable.created [] 1 2) 2 2).UploadVolumes
        (SpatialHashTable.ops []) [keyX 0, keyX 1]
        [uniformCpuData 8 5 5, uniformCpuData 8 7 7]).2.device_ = some dev'
      ∧ some (7 : float) = some (dev'.tsdf_memory_pool_ (1 * 2 ^ 3 + 3))
      ∧ dev'.tsdf_memory_pool_ 16 = 9 := by
  have hrounds : (UploadKeysRun (SpatialHashTable.ops []) (SpatialHashTable.created [] 1 2)
      [keyX 0, keyX 1]).rounds = [⟨[keyX 0, keyX 1], [0, 1], [0, 1]⟩] := by decide
  have hva : UploadKeys (SpatialHashTable.ops []) (SpatialHashTable.created [] 1 2)
      [keyX 0, keyX 1] = [0, 1] := by decide
  have hr0 : (UploadKeysRun (SpatialHashTable.ops []) (SpatialHashTable.created [] 1 2)
      [keyX 0, keyX 1]).ResolvedTo 0 0 :=
    ⟨⟨[keyX 0, keyX 1], [0, 1], [0, 1]⟩, by rw [hrounds]; exact List.mem_singleton.mpr rfl,
      0, rfl, rfl, le_refl _⟩
  have hr1 : (UploadKeysRun (SpatialHashTable.ops []) (SpatialHashTable.created [] 1 2)
      [keyX 0, keyX 1]).ResolvedTo 1 1 :=
    ⟨⟨[keyX 0, keyX 1], [0, 1], [0, 1]⟩, by rw [hrounds]; exact List.mem_singleton.mpr rfl,
      1, rfl, rfl, by decide⟩
  have hto : ∀ i a, (UploadKeysRun (SpatialHashTable.ops []) (SpatialHashTable.created [] 1 2)
      [keyX 0, keyX 1]).ResolvedTo i a → (i = 0 ∧ a = 0) ∨ (i = 1 ∧ a = 1) := by
    rintro i a ⟨rd, hrd, j, hi, ha, h0⟩
    obtain ⟨hlt, -, hv⟩ := (UploadKeysRun_resolved (SpatialHashTable.ops [])
      (SpatialHashTable.created [] 1 2) [keyX 0, keyX 1]).2 rd hrd j i a hi ha h0
    rw [hva] at hv
    have hlt' : i < 2 := hlt
    interval_cases i
    · left; exact ⟨rfl, (Option.some_injective _ hv).symm⟩
    · right; exact ⟨rfl, (Option.some_injective _ hv).symm⟩
  obtain ⟨dev', h1, h2, h3⟩ := UploadVolumes_writes_resolved_slots (SpatialHashTable.ops [])
    (volumeOver (SpatialHashTable.created [] 1 2) 2 2) staleDevice [keyX 0, keyX 1]
    [uniformCpuData 8 5 5, uniformCpuData 8 7 7] rfl (by decide) (by decide)
    (by
      intro v hv
      simp only [List.mem_cons, List.mem_singleton, List.not_mem_nil, or_false] at hv
      rcases hv with rfl | rfl <;> decide)
    (by
      intro i hi
      have hi' : i < 2 := hi
      interval_cases i
      · exact ⟨0, hr0, by decide⟩
      · exact ⟨1, hr1, by decide⟩)
    (by
      intro i i' a h h'
      rcases hto i a h with ⟨rfl, rfl⟩ | ⟨rfl, rfl⟩ <;>
        rcases hto i' _ h' with ⟨rfl, h''⟩ | ⟨rfl, h''⟩ <;> first | rfl | (exfalso; omega))
  refine ⟨dev', h1, ?_, ?_⟩
  · exact (h2 1 1 (uniformCpuData 8 7 7) hr1 rfl 3 (by decide)).1
  · rw [(h3 16 (by
      intro i a h
      rcases hto i a h with ⟨rfl, rfl⟩ | ⟨rfl, rfl⟩ <;> decide)).1]
    rfl

/-- C6 (as stated, at a concrete input): block side 8, two keys resolved to the distinct
slot addresses 0 and 8388608 with voxel data `(5, 5)` and `(7, 7)`.  The offset of the
second key, `512 * 8388608 = 2^32`, is computed in `int` and comes out as 0, so after
`UploadVolumes` position `0 * 8^3 + 0` of the pools holds the data of the second key, not
that of the first key, whose slot it is. -/
theorem UploadVolumes_offset_wraps_in_int :
    UploadKeys (fixedAddressOps [0, 8388608]) () [keyX 0, keyX 1] = [0, 8388608]
    ∧ (uniformCpuData 512 5 5).tsdf_[0]? = some 5
    ∧ ((volumeOver () 8 8388609).UploadVolumes (fixedAddressOps [0, 8388608])
        [keyX 0, keyX 1] [uniformCpuData 512 5 5, uniformCpuData 512 7 7]).2.device_.map
          (fun d => (d.tsdf_memory_pool_ (0 * 8 ^ 3 + 0), d.weight_memory_pool_ (0 * 8 ^ 3 + 0)))
        = some (7, 7) := by
  set_option maxRecDepth 100000 in decide

/-! ## DownSample -/

/-- C9: `DownSample` returns a volume whose block side is `N / 2` (the quotient of C++,
which for `N ≥ 0` is the integer quotient), whose voxel length is `2 * L` and whose
truncation distance is `2 * T`; applied twice it yields voxel length `4 * L`, truncation
`4 * T` and, for `N = 8`, block side 2. -/
theorem DownSample_halves_block_side_doubles_lengths {σ : Type} (ht : HashTableCuda σ)
    (fresh fresh' : ScalableTSDFVolumeCudaDevice)
    (default_transform : TransformCuda)
    (default_bucket_count default_value_capacity : Int)
    (DownSampleKernel : ScalableTSDFVolumeCuda σ → ScalableTSDFVolumeCuda σ →
      ScalableTSDFVolumeCudaDevice → ScalableTSDFVolumeCudaDevice)
    (vol : ScalableTSDFVolumeCuda σ) :
    (vol.DownSample ht fresh default_transform
        default_bucket_count default_value_capacity DownSampleKernel).N_
        = Int.tdiv vol.N_ 2
    ∧ (0 ≤ vol.N_ →
        (vol.DownSample ht fresh default_transform
            default_bucket_count default_value_capacity DownSampleKernel).N_
          = vol.N_ / 2)
    ∧ (vol.DownSample ht fresh default_transform default_bucket_count default_value_capacity
        DownSampleKernel).voxel_length_ = 2 * vol.voxel_length_
    ∧ (vol.DownSample ht fresh default_transform default_bucket_count default_value_capacity
        DownSampleKernel).sdf_trunc_ = 2 * vol.sdf_trunc_
    ∧ (vol.N_ = 8 →
        ((vol.DownSample ht fresh default_transform default_bucket_count default_value_capacity
            DownSampleKernel).DownSample ht fresh' default_transform
                default_bucket_count default_value_capacity
            DownSampleKernel).N_ = 2)
    ∧ ((vol.DownSample ht fresh default_transform default_bucket_count default_value_capacity
          DownSampleKernel).DownSample ht fresh' default_transform
              default_bucket_count default_value_capacity
          DownSampleKernel).voxel_length_ = 4 * vol.voxel_length_
    ∧ ((vol.DownSample ht fresh default_transform default_bucket_count default_value_capacity
          DownSampleKernel).DownSample ht fresh' default_transform
              default_bucket_count default_value_capacity
          DownSampleKernel).sdf_trunc_ = 4 * vol.sdf_trunc_ := by
  have hN : ∀ (f : ScalableTSDFVolumeCudaDevice) (w : ScalableTSDFVolumeCuda σ),
      (w.DownSample ht f default_transform
          default_bucket_count default_value_capacity DownSampleKernel).N_
        = Int.tdiv w.N_ 2 := fun _ _ => rfl
  have hL : ∀ (f : ScalableTSDFVolumeCudaDevice) (w : ScalableTSDFVolumeCuda σ),
      (w.DownSample ht f default_transform default_bucket_count default_value_capacity
        DownSampleKernel).voxel_length_ = w.voxel_length_ * 2 := fun _ _ => rfl
  have hT : ∀ (f : ScalableTSDFVolumeCudaDevice) (w : ScalableTSDFVolumeCuda σ),
      (w.DownSample ht f default_transform default_bucket_count default_value_capacity
        DownSampleKernel).sdf_trunc_ = w.sdf_trunc_ * 2 := fun _ _ => rfl
  refine ⟨hN _ _, ?_, ?_, ?_, ?_, ?_, ?_⟩
  · intro h0
    rw [hN]
    exact Int.tdiv_eq_ediv h0 (by decide)
  · rw [hL]; ring
  · rw [hT]; ring
  · intro h8
    rw [hN, hN, h8]
    decide
  · rw [hL, hL]; ring
  · rw [hT, hT]; ring

/-- C10 (amended): for a fine volume with even block side `N`, the keys that `DownSample`
hands to the bulk upload of the coarse volume are exactly the fine block keys, unchanged
(the first `New` gets all of them, later rounds retry some of them, and no other key is
ever given to `New`); every block key `k` is the key of a coarse block (side `N/2`, voxel
length `2L`) whose region contains the fine block `k`, and when `N` and `L` are not zero
it is the only such key. -/
theorem DownSample_uploads_the_fine_keys {σ : Type} (ht : HashTableCuda σ)
    (fresh : ScalableTSDFVolumeCudaDevice) (default_transform : TransformCuda)
    (default_bucket_count default_value_capacity : Int)
    (DownSampleKernel : ScalableTSDFVolumeCuda σ → ScalableTSDFVolumeCuda σ →
      ScalableTSDFVolumeCudaDevice → ScalableTSDFVolumeCudaDevice)
    (vol : ScalableTSDFVolumeCuda σ) (heven : vol.N_ % 2 = 0) :
    (∃ rd, (vol.DownSampleRun ht fresh default_transform default_bucket_count default_value_capacity
          DownSampleKernel).2.rounds[0]? = some rd
        ∧ rd.keys_to_attempt = ht.DownloadKeys vol.hash_table_)
    ∧ (∀ rd ∈ (vol.DownSampleRun ht fresh default_transform
        default_bucket_count default_value_capacity
          DownSampleKernel).2.rounds,
        ∀ k ∈ rd.keys_to_attempt, k ∈ ht.DownloadKeys vol.hash_table_)
    ∧ (∀ k : Vector3i,
        blockContains
          (vol.DownSample ht fresh default_transform default_bucket_count default_value_capacity
            DownSampleKernel).N_
          (vol.DownSample ht fresh default_transform default_bucket_count default_value_capacity
            DownSampleKernel).voxel_length_ k vol.N_ vol.voxel_length_ k)
    ∧ (vol.N_ ≠ 0 → vol.voxel_length_ ≠ 0 → ∀ c k : Vector3i,
        blockContains
          (vol.DownSample ht fresh default_transform default_bucket_count default_value_capacity
            DownSampleKernel).N_
          (vol.DownSample ht fresh default_transform default_bucket_count default_value_capacity
            DownSampleKernel).voxel_length_ c vol.N_ vol.voxel_length_ k → c = k) := by
  have hrun : (vol.DownSampleRun ht fresh default_transform
      default_bucket_count default_value_capacity
      DownSampleKernel).2
      = UploadKeysRun ht (ScalableTSDFVolumeCuda.construct ht fresh (Int.tdiv vol.N_ 2)
          (vol.voxel_length_ * 2) (vol.sdf_trunc_ * 2) default_transform default_bucket_count
          default_value_capacity).hash_table_ (ht.DownloadKeys vol.hash_table_) := rfl
  have hN : (vol.DownSample ht fresh default_transform default_bucket_count default_value_capacity
      DownSampleKernel).N_ = Int.tdiv vol.N_ 2 := rfl
  have hL : (vol.DownSample ht fresh default_transform default_bucket_count default_value_capacity
      DownSampleKernel).voxel_length_ = vol.voxel_length_ * 2 := rfl
  obtain ⟨m, hm⟩ : ∃ m, vol.N_ = 2 * m := Int.dvd_of_emod_eq_zero heven
  have hhalf : Int.tdiv vol.N_ 2 = m := by
    rw [hm]; exact Int.mul_tdiv_cancel_left m (by decide)
  have hmin : ∀ x : Int, blockMin (Int.tdiv vol.N_ 2) (vol.voxel_length_ * 2) x
      = blockMin vol.N_ vol.voxel_length_ x := by
    intro x
    simp only [blockMin, hhalf]
    rw [hm]; push_cast; ring
  have hmax : ∀ x : Int, blockMax (Int.tdiv vol.N_ 2) (vol.voxel_length_ * 2) x
      = blockMax vol.N_ vol.voxel_length_ x := by
    intro x
    simp only [blockMax, hhalf]
    rw [hm]; push_cast; ring
  rw [hrun, hN, hL]
  refine ⟨(UploadKeysRun_keys_given ht _ _).1, (UploadKeysRun_keys_given ht _ _).2, ?_, ?_⟩
  · intro k d _
    rw [hmin, hmax]
    exact ⟨le_refl _, le_refl _⟩
  · intro hN0 hL0 c k hck
    have hcomp : ∀ d, d < 3 → c.v.getD d 0 = k.v.getD d 0 := by
      intro d hd
      obtain ⟨h1, h2⟩ := hck d hd
      rw [hmin] at h1
      rw [hmax] at h2
      simp only [blockMin, blockMax] at h1 h2
      have hNL : (vol.N_ : ℚ) * vol.voxel_length_ ≠ 0 :=
        mul_ne_zero (by exact_mod_cast hN0) hL0
      have heq : ((c.v.getD d 0 : Int) : ℚ) * ((vol.N_ : ℚ) * vol.voxel_length_)
          = ((k.v.getD d 0 : Int) : ℚ) * ((vol.N_ : ℚ) * vol.voxel_length_) := by
        apply le_antisymm
        · linarith
        · linarith
      exact_mod_cast mul_right_cancel₀ hNL heq
    have hv : c.v = k.v := by
      apply List.ext_getElem
      · rw [c.size_eq, k.size_eq]
      · intro n h1 h2
        have hn : n < 3 := by rw [← c.size_eq]; exact h1
        have := hcomp n hn
        simpa only [List.getD_eq_getElem?_getD, List.getElem?_eq_getElem h1,
          List.getElem?_eq_getElem h2, Option.getD_some] using this
    cases c; cases k
    simp only at hv
    subst hv
    rfl

/-- Witness for `DownSample_uploads_the_fine_keys`: a volume with block side 8 and voxel
length 1 holding the blocks `(1,0,0)` and `(2,0,0)`. -/
theorem DownSample_uploads_the_fine_keys_witness :
    (8 : Int) % 2 = 0
    ∧ (∃ rd, ((volumeOver (SpatialHashTable.holding [keyX 1, keyX 2] 4) 8 4).DownSampleRun
          (SpatialHashTable.ops []) staleDevice TransformCuda.Identity 1 4
          (fun _ _ d => d)).2.rounds[0]? = some rd
        ∧ rd.keys_to_attempt = [keyX 1, keyX 2])
    ∧ blockContains (Int.tdiv 8 2) ((1 : float) * 2) (keyX 1) 8 1 (keyX 1) :=
  ⟨by decide,
    (DownSample_uploads_the_fine_keys (SpatialHashTable.ops []) staleDevice
      TransformCuda.Identity 1 4
      (fun _ _ d => d) (volumeOver (SpatialHashTable.holding [keyX 1, keyX 2] 4) 8 4)
      (by decide)).1,
    (DownSample_uploads_the_fine_keys (SpatialHashTable.ops []) staleDevice
      TransformCuda.Identity 1 4
      (fun _ _ d => d) (volumeOver (SpatialHashTable.holding [keyX 1, keyX 2] 4) 8 4)
      (by decide)).2.2.1 (keyX 1)⟩

/-- C10 (as stated, at a concrete input): a fine volume with block side 3 and voxel
length 1 holds the block `(1,0,0)`, which covers `[3, 6)` along the first axis.
`DownSample` builds a coarse volume with block side 1 and voxel length 2 and inserts the
key `(1,0,0)` into its table; the coarse block with that key covers `[2, 4)`, and no
coarse block at all contains the fine block. -/
theorem DownSample_odd_block_side_inserts_unrelated_key :
    (((volumeOver (SpatialHashTable.holding [keyX 1] 4) 3 4).DownSampleRun
        (SpatialHashTable.ops []) staleDevice TransformCuda.Identity 1 4
          (fun _ _ d => d)).2.rounds.map
          (fun rd => rd.keys_to_attempt)) = [[keyX 1]]
    ∧ ((volumeOver (SpatialHashTable.holding [keyX 1] 4) 3 4).DownSample
        (SpatialHashTable.ops []) staleDevice TransformCuda.Identity 1 4
          (fun _ _ d => d)).hash_table_.entries
          = [(keyX 1, 0)]
    ∧ ((volumeOver (SpatialHashTable.holding [keyX 1] 4) 3 4).DownSample
        (SpatialHashTable.ops []) staleDevice TransformCuda.Identity 1 4
          (fun _ _ d => d)).N_ = 1
    ∧ ((volumeOver (SpatialHashTable.holding [keyX 1] 4) 3 4).DownSample
        (SpatialHashTable.ops []) staleDevice TransformCuda.Identity 1 4
          (fun _ _ d => d)).voxel_length_ = 2
    ∧ blockMin 3 1 1 = 3 ∧ blockMax 3 1 1 = 6 ∧ blockMin 1 2 1 = 2 ∧ blockMax 1 2 1 = 4
    ∧ ∀ c : Vector3i, ¬ blockContains 1 2 c 3 1 (keyX 1) := by
  refine ⟨by decide, by decide, by decide, ?_, ?_, ?_, ?_, ?_, ?_⟩
  · show (1 : ℚ) * 2 = 2
    norm_num
  · norm_num [blockMin]
  · norm_num [blockMax]
  · norm_num [blockMin]
  · norm_num [blockMax]
  · intro c h
    obtain ⟨h1, h2⟩ := h 0 (by decide)
    have hk : (keyX 1).v.getD 0 0 = 1 := rfl
    rw [hk] at h1 h2
    simp only [blockMin, blockMax] at h1 h2
    push_cast at h1 h2
    linarith

/-! ## Retry convergence -/

section RetryLemmas

variable {σ : Type}

theorem Round.failedKeys_length_le (rd : Round) :
    rd.failedKeys.length ≤ rd.keys_to_attempt.length := by
  unfold Round.failedKeys
  rw [List.length_map]
  calc _ ≤ (rd.keys_to_attempt.zip rd.ret_value_addrs).length := List.length_filter_le _ _
    _ ≤ rd.keys_to_attempt.length := by rw [List.length_zip]; exact Nat.min_le_left _ _

theorem Round.allResolved_iff (rd : Round) : rd.allResolved ↔ rd.failedKeys = [] := by
  unfold Round.failedKeys Round.allResolved
  rw [← filter_range_eq_zip default, List.map_eq_nil_iff, List.filter_eq_nil_iff]
  simp only [List.mem_range, decide_eq_true_eq, not_lt]

theorem roundAt_pending_succ (ht : HashTableCuda σ) (table : σ) (keys : List Vector3i)
    (k : Nat) :
    (roundAt ht table keys (k + 1)).keys_to_attempt.length
      = (roundAt ht table keys k).keys_to_attempt.length
        - (roundAt ht table keys k).resolvedCount := by
  rw [(roundAt_succ ht table keys k).1]
  have := (roundAt ht table keys k).failedKeys_length_le
  unfold Round.resolvedCount
  omega

/-- Under a constrained `New` the number of keys given to round `k` is the number of keys
minus what `k` rounds of `M` slots can resolve of the resolvable keys. -/
theorem constrained_pending (ht : HashTableCuda σ) (table : σ) (keys : List Vector3i)
    (M cap : Nat) (hnew : ConstrainedNew ht table keys M cap) :
    ∀ k, k ≤ kTotalAttempt →
      (roundAt ht table keys k).keys_to_attempt.length
        = keys.length - min (k * M) (min keys.length cap) := by
  intro k
  induction k with
  | zero =>
    intro _
    show keys.length = _
    simp
  | succ k ih =>
    intro hk
    have h1 := ih (by omega)
    have h2 := hnew k (by omega)
    rw [roundAt_pending_succ, h2, h1, Nat.succ_mul]
    generalize k * M = x
    omega

theorem resolvedCount_sum (ht : HashTableCuda σ) (table : σ) (keys : List Vector3i) (t : Nat) :
    (((List.range t).map (roundAt ht table keys)).map Round.resolvedCount).sum
      = keys.length - (roundAt ht table keys t).keys_to_attempt.length
    ∧ (roundAt ht table keys t).keys_to_attempt.length ≤ keys.length := by
  induction t with
  | zero => exact ⟨by simp [roundAt, retryState, uploadInit], le_refl _⟩
  | succ t ih =>
    have hle := (roundAt ht table keys t).failedKeys_length_le
    have hs := roundAt_pending_succ ht table keys t
    rw [List.range_succ, List.map_append, List.map_append, List.sum_append, ih.1]
    simp only [List.map_cons, List.map_nil, List.sum_cons, List.sum_nil, add_zero]
    have hrc : (roundAt ht table keys t).resolvedCount
        ≤ (roundAt ht table keys t).keys_to_attempt.length := Nat.sub_le _ _
    have := ih.2
    constructor <;> omega

theorem ceil_div_spec (K M : Nat) (hM : 0 < M) :
    K ≤ ((K + M - 1) / M) * M
    ∧ (0 < K → ((K + M - 1) / M - 1) * M < K ∧ 0 < (K + M - 1) / M) := by
  have h1 := Nat.div_mul_le_self (K + M - 1) M
  have h2 := Nat.lt_mul_div_succ (K + M - 1) hM
  rw [Nat.mul_add, Nat.mul_one, Nat.mul_comm] at h2
  refine ⟨by omega, fun hK => ?_⟩
  have hpos : 0 < (K + M - 1) / M := Nat.div_pos (by omega) hM
  refine ⟨?_, hpos⟩
  have : ((K + M - 1) / M - 1) * M = (K + M - 1) / M * M - M := by
    rw [Nat.sub_mul, Nat.one_mul]
  omega

end RetryLemmas

/-- C8 (amended): let `0 < M < K` with `ceil(K/M) ≤ 10`, and let `New` be constrained to
`M` successful slots per round on a table with `value_capacity` free slots.  Then the
first `ceil(K/M)` rounds of `UploadKeys` resolve `min(K, value_capacity)` keys, which are
all the keys that can be resolved; when `K ≤ value_capacity` the run has exactly
`ceil(K/M)` rounds and leaves no key unresolved; when `K > value_capacity` it uses all
10 rounds and exactly `K - value_capacity` keys are unresolved at the end (they are what
is left in `keys_to_attempt`). -/
theorem UploadKeys_retry_convergence {σ : Type} (ht : HashTableCuda σ) (table : σ)
    (keys : List Vector3i) (M value_capacity : Nat)
    (hM : 0 < M) (hMK : M < keys.length) (hbudget : (keys.length + M - 1) / M ≤ 10)
    (hnew : ConstrainedNew ht table keys M value_capacity) :
    (((UploadKeysRun ht table keys).rounds.take ((keys.length + M - 1) / M)).map
        Round.resolvedCount).sum = min keys.length value_capacity
    ∧ (keys.length ≤ value_capacity →
        (UploadKeysRun ht table keys).rounds.length = (keys.length + M - 1) / M
        ∧ (UploadKeysRun ht table keys).unresolvedKeys = [])
    ∧ (value_capacity < keys.length →
        (UploadKeysRun ht table keys).rounds.length = 10
        ∧ (UploadKeysRun ht table keys).unresolvedKeys.length = keys.length - value_capacity
        ∧ (UploadKeysRun ht table keys).keys_to_attempt.length
            = keys.length - value_capacity) := by
  obtain ⟨hR1, hR2⟩ := ceil_div_spec keys.length M hM
  obtain ⟨hR2, hR0⟩ := hR2 (by omega)
  generalize hR : (keys.length + M - 1) / M = R at *
  obtain ⟨m, hm1, hm2, hnot, hr, -, -, hcase⟩ := UploadKeysRun_shape ht table keys
  have hm2' : m ≤ 10 := hm2
  have hu := constrained_pending ht table keys M value_capacity hnew
  have hall : ∀ j, (roundAt ht table keys j).allResolved
      ↔ (roundAt ht table keys (j + 1)).keys_to_attempt.length = 0 := by
    intro j
    rw [Round.allResolved_iff, (roundAt_succ ht table keys j).1, List.length_eq_zero]
  have hlen : (UploadKeysRun ht table keys).rounds.length = m := by
    rw [hr, List.length_map, List.length_range]
  have hlast : (UploadKeysRun ht table keys).unresolvedKeys
      = (roundAt ht table keys m).keys_to_attempt := by
    unfold UploadState.unresolvedKeys
    have : (UploadKeysRun ht table keys).rounds.getLast?
        = some (roundAt ht table keys (m - 1)) := by
      rw [List.getLast?_eq_getElem?, hlen, hr, List.getElem?_map,
        List.getElem?_range (by omega)]
      rfl
    rw [this]
    show (roundAt ht table keys (m - 1)).failedKeys = _
    rw [← (roundAt_succ ht table keys (m - 1)).1]
    congr 2
    omega
  have hRm : R ≤ m := by
    rcases hcase with ⟨hres, -⟩ | ⟨hm, -⟩
    · by_contra hcon
      have h1 := (hall (m - 1)).mp hres
      have hm' : m - 1 + 1 = m := by omega
      rw [hm', hu m hm2] at h1
      have h2 : m * M ≤ (R - 1) * M := Nat.mul_le_mul_right M (by omega)
      omega
    · have : m = 10 := hm
      omega
  have hRM : R * M ≤ m * M := Nat.mul_le_mul_right M hRm
  have h10 : m * M ≤ 10 * M := Nat.mul_le_mul_right M hm2'
  refine ⟨?_, ?_, ?_⟩
  · rw [hr, ← List.map_take, List.take_range, Nat.min_eq_left hRm,
      (resolvedCount_sum ht table keys R).1, hu R (by show R ≤ 10; omega)]
    omega
  · intro hK
    have hmR : m ≤ R := by
      by_contra hcon
      have h1 : ¬ (roundAt ht table keys (R - 1)).allResolved := hnot (R - 1) (by omega)
      rw [hall] at h1
      have hR' : R - 1 + 1 = R := by omega
      rw [hR', hu R (by show R ≤ 10; omega)] at h1
      omega
    have hmeq : m = R := by omega
    refine ⟨by rw [hlen, hmeq], ?_⟩
    rw [hlast, ← List.length_eq_zero, hu m hm2, hmeq]
    omega
  · intro hK
    have hpos : ∀ t, t ≤ 10 → 0 < (roundAt ht table keys t).keys_to_attempt.length := by
      intro t ht
      rw [hu t ht]
      omega
    rcases hcase with ⟨hres, -⟩ | ⟨hm, -, -, hkta, -⟩
    · have h1 := (hall (m - 1)).mp hres
      have hm' : m - 1 + 1 = m := by omega
      rw [hm'] at h1
      have := hpos m hm2'
      omega
    · have hm10 : m = 10 := hm
      refine ⟨by rw [hlen, hm10], ?_, ?_⟩
      · rw [hlast, hu m hm2]
        omega
      · rw [hkta]
        show (roundAt ht table keys m).keys_to_attempt.length = _
        rw [hu m hm2]
        omega

/-- Witness for `UploadKeys_retry_convergence`: three keys, a table with two slots, `New`
constrained to `M = 2` slots per round: all 10 rounds are used and one key is left. -/
theorem UploadKeys_retry_convergence_witness :
    ConstrainedNew (SpatialHashTable.ops []) (SpatialHashTable.created [] 1 2) (keysX 3) 2 2
    ∧ (UploadKeysRun (SpatialHashTable.ops []) (SpatialHashTable.created [] 1 2)
        (keysX 3)).rounds.length = 10
    ∧ (UploadKeysRun (SpatialHashTable.ops []) (SpatialHashTable.created [] 1 2)
        (keysX 3)).unresolvedKeys.length = (keysX 3).length - 2
    ∧ (UploadKeysRun (SpatialHashTable.ops []) (SpatialHashTable.created [] 1 2)
        (keysX 3)).keys_to_attempt.length = (keysX 3).length - 2 :=
  ⟨by decide,
    (UploadKeys_retry_convergence (SpatialHashTable.ops []) (SpatialHashTable.created [] 1 2)
      (keysX 3) 2 2 (by decide) (by decide) (by decide) (by decide)).2.2 (by decide)⟩

/-- C8 (as stated, at a concrete input): `K = 11` keys that share a bucket, a table with
11 free slots, and races in which only one attempt per round gets the lock, so that
`New` is constrained to `M = 1` slot per round.  All 11 keys are resolvable and
`ceil(K/M) = 11`, but `UploadKeys` stops after 10 rounds: the key `(10,0,0)` is
unresolved although a slot is still free, and nothing is reported (no `LogWarning`). -/
theorem UploadKeys_budget_ends_before_convergence :
    ConstrainedNew (SpatialHashTable.ops []) contendedTable (keysX 11) 1 11
    ∧ (keysX 11).length = 11
    ∧ (UploadKeysRun (SpatialHashTable.ops []) contendedTable (keysX 11)).rounds.length = 10
    ∧ (UploadKeysRun (SpatialHashTable.ops []) contendedTable
        (keysX 11)).unresolvedKeys = [keyX 10]
    ∧ (UploadKeysRun (SpatialHashTable.ops []) contendedTable
        (keysX 11)).hash_table_.free_list = [10]
    ∧ (UploadKeysRun (SpatialHashTable.ops []) contendedTable
        (keysX 11)).log.filter Event.isWarning = [] := by
  set_option maxRecDepth 1000000 in decide

/-! ## Round trip through DownloadVolumes and UploadVolumes -/

section TableLemmas

theorem SpatialHashTable.TryInsert_spec (t : SpatialHashTable) (cap : Int) (hinv : t.Inv cap)
    (locked : Bool) (key : Vector3i) :
    (t.TryInsert locked key).2.Inv cap
    ∧ (∃ l, (t.TryInsert locked key).2.entries = t.entries ++ l ∧ ∀ e ∈ l, e.1 = key)
    ∧ (0 ≤ (t.TryInsert locked key).1 →
        (key, (t.TryInsert locked key).1) ∈ (t.TryInsert locked key).2.entries)
    ∧ (t.TryInsert locked key).2.values = t.values
    ∧ (t.TryInsert locked key).2.contention = t.contention := by
  have hfail : ¬ (0 : Int) ≤ -1 := by decide
  by_cases hl : locked = true
  · have hval : t.TryInsert locked key = (-1, t) := by
      simp only [SpatialHashTable.TryInsert, hl, if_true]
    rw [hval]
    exact ⟨hinv, ⟨[], (List.append_nil _).symm, fun e he => absurd he (List.not_mem_nil e)⟩,
      fun h => absurd h hfail, rfl, rfl⟩
  · cases hlook : t.entries.lookup key with
    | some a =>
      have hval : t.TryInsert locked key = (a, t) := by
        simp only [SpatialHashTable.TryInsert, hl, if_false, hlook, Bool.false_eq_true]
      rw [hval]
      refine ⟨hinv,
        ⟨[], (List.append_nil _).symm, fun e he => absurd he (List.not_mem_nil e)⟩,
        fun _ => ?_, rfl, rfl⟩
      obtain ⟨l1, l2, h, -⟩ := List.lookup_eq_some_iff.mp hlook
      show (key, a) ∈ t.entries
      rw [h]
      exact List.mem_append_right _ (List.mem_cons_self _ _)
    | none =>
      cases hfree : t.free_list with
      | nil =>
        have hval : t.TryInsert locked key = (-1, t) := by
          simp only [SpatialHashTable.TryInsert, hl, if_false, hlook, hfree,
            Bool.false_eq_true]
        rw [hval]
        exact ⟨hinv, ⟨[], (List.append_nil _).symm,
          fun e he => absurd he (List.not_mem_nil e)⟩, fun h => absurd h hfail, rfl, rfl⟩
      | cons a rest =>
        have hval : t.TryInsert locked key
            = (a, { t with entries := t.entries ++ [(key, a)], free_list := rest }) := by
          simp only [SpatialHashTable.TryInsert, hl, if_false, hlook, hfree,
            Bool.false_eq_true]
        rw [hval]
        have hperm : ((t.entries ++ [(key, a)]).map (fun e => e.2) ++ rest).Perm
            (t.entries.map (fun e => e.2) ++ t.free_list) := by
          rw [hfree, List.map_append, List.append_assoc]
          exact List.Perm.refl _
        refine ⟨⟨hperm.nodup_iff.mpr hinv.addr_nodup, ?_, ?_⟩,
          ⟨[(key, a)], rfl, fun e he => by rw [List.mem_singleton.mp he]⟩,
          fun _ => List.mem_append_right _ (List.mem_singleton.mpr rfl), rfl, rfl⟩
        · show ((t.entries ++ [(key, a)]).map (fun e => e.1)).Nodup
          rw [List.map_append, List.nodup_append]
          refine ⟨hinv.key_nodup, List.nodup_singleton _, ?_⟩
          intro x hx hx'
          simp only [List.map_cons, List.map_nil, List.mem_singleton] at hx'
          subst hx'
          obtain ⟨e, he, hek⟩ := List.mem_map.mp hx
          have := List.lookup_eq_none_iff.mp hlook e he
          simp [hek] at this
        · intro b hb
          exact hinv.addr_range b (hperm.mem_iff.mp hb)

theorem SpatialHashTable.insertAll_spec (cap : Int) (keys : List Vector3i) :
    ∀ (t : SpatialHashTable) (flags : List Bool), t.Inv cap →
      (t.insertAll keys flags).2.Inv cap
      ∧ (∃ l, (t.insertAll keys flags).2.entries = t.entries ++ l ∧ ∀ e ∈ l, e.1 ∈ keys)
      ∧ (t.insertAll keys flags).1.length = keys.length
      ∧ (∀ (j : Nat) (key : Vector3i) (a : Int), keys[j]? = some key →
          (t.insertAll keys flags).1[j]? = some a → 0 ≤ a →
          (key, a) ∈ (t.insertAll keys flags).2.entries)
      ∧ (t.insertAll keys flags).2.values = t.values := by
  induction keys with
  | nil =>
    intro t flags hinv
    exact ⟨hinv, ⟨[], by simp [SpatialHashTable.insertAll], by simp⟩, rfl,
      fun j key a h => by simp at h, rfl⟩
  | cons key keys ih =>
    intro t flags hinv
    obtain ⟨h1, ⟨l1, hl1, hl1k⟩, h3, h4, -⟩ :=
      SpatialHashTable.TryInsert_spec t cap hinv (flags.headD false) key
    obtain ⟨g1, ⟨l2, hl2, hl2k⟩, g3, g4, g5⟩ :=
      ih (t.TryInsert (flags.headD false) key).2 flags.tail h1
    simp only [SpatialHashTable.insertAll]
    refine ⟨g1, ⟨l1 ++ l2, ?_, ?_⟩, by rw [List.length_cons, g3, List.length_cons], ?_,
      by rw [g5, h4]⟩
    · rw [hl2, hl1, List.append_assoc]
    · intro e he
      rcases List.mem_append.mp he with h | h
      · rw [hl1k e h]; exact List.mem_cons_self _ _
      · exact List.mem_cons_of_mem _ (hl2k e h)
    · intro j k a hk ha h0
      cases j with
      | zero =>
        simp only [List.getElem?_cons_zero, Option.some.injEq] at hk ha
        subst hk; subst ha
        rw [hl2]
        exact List.mem_append_left _ (h3 h0)
      | succ j =>
        simp only [List.getElem?_cons_succ] at hk ha
        exact g4 j k a hk ha h0

theorem SpatialHashTable.New_spec (cap : Int) (keys : List Vector3i) (t : SpatialHashTable)
    (hinv : t.Inv cap) :
    (t.New keys).2.Inv cap
    ∧ (∃ l, (t.New keys).2.entries = t.entries ++ l ∧ ∀ e ∈ l, e.1 ∈ keys)
    ∧ (t.New keys).1.length = keys.length
    ∧ (∀ (j : Nat) (key : Vector3i) (a : Int), keys[j]? = some key →
        (t.New keys).1[j]? = some a → 0 ≤ a → (key, a) ∈ (t.New keys).2.entries)
    ∧ (t.New keys).2.values = t.values :=
  SpatialHashTable.insertAll_spec cap keys { t with contention := t.contention.tail }
    (t.contention.headD []) ⟨hinv.addr_nodup, hinv.key_nodup, hinv.addr_range⟩

theorem retryState_keys_subset {σ : Type} (ht : HashTableCuda σ) (table : σ)
    (keys : List Vector3i) (r : Nat) :
    ∀ k ∈ (retryState ht table keys r).keys_to_attempt, k ∈ keys := by
  intro k hk
  obtain ⟨j, hj⟩ := List.mem_iff_getElem?.mp hk
  have := congrArg (fun l => l[j]?) (retryState_inv ht table keys r).key_of
  simp only [List.getElem?_map, hj, Option.map_some'] at this
  cases hi : (retryState ht table keys r).index_map[j]? with
  | none => rw [hi] at this; cases this
  | some i =>
    rw [hi] at this
    exact List.getElem?_mem (Option.some_injective _ this)

/-- Every entry of the key list is, at each loop test of `UploadKeys`, either still in
the index map or resolved by one of the rounds run so far (for a `New` that returns one
address per key). -/
theorem retryState_pending_or_resolved {σ : Type} (ht : HashTableCuda σ) (table : σ)
    (keys : List Vector3i) (hlen : ∀ t ks, (ht.New t ks).1.length = ks.length) :
    ∀ k i, i < keys.length →
      i ∈ (retryState ht table keys k).index_map
      ∨ ∃ a, (retryState ht table keys k).ResolvedTo i a := by
  intro k
  induction k with
  | zero =>
    intro i hi
    left
    exact List.mem_range.mpr hi
  | succ k ih =>
    intro i hi
    have hsub : ∀ rd ∈ (retryState ht table keys k).rounds,
        rd ∈ (retryState ht table keys (k + 1)).rounds := by
      intro rd hrd
      rw [retryState_rounds] at hrd ⊢
      obtain ⟨r, hr, rfl⟩ := List.mem_map.mp hrd
      exact List.mem_map_of_mem _ (List.mem_range.mpr (by have := List.mem_range.mp hr; omega))
    rcases ih i hi with hmem | ⟨a, rd, hrd, j, h1, h2, h3⟩
    · obtain ⟨j, hj⟩ := List.mem_iff_getElem?.mp hmem
      have hjlt : j < (retryState ht table keys k).index_map.length := by
        by_contra hcon
        rw [List.getElem?_eq_none (not_lt.mp hcon)] at hj
        cases hj
      have hretlen : (roundAt ht table keys k).ret_value_addrs.length
          = (retryState ht table keys k).index_map.length := by
        rw [(retryState_inv ht table keys k).len_im]
        exact hlen _ _
      have hjret : j < (roundAt ht table keys k).ret_value_addrs.length := by omega
      have ha : (roundAt ht table keys k).ret_value_addrs[j]?
          = some (roundAt ht table keys k).ret_value_addrs[j] := List.getElem?_eq_getElem hjret
      by_cases hneg : (roundAt ht table keys k).ret_value_addrs[j] < 0
      · left
        show i ∈ (roundAt ht table keys (k + 1)).index_map
        rw [(roundAt_succ ht table keys k).2]
        unfold Round.failedIndices
        refine List.mem_map.mpr ⟨(i, (roundAt ht table keys k).ret_value_addrs[j]), ?_, rfl⟩
        rw [List.mem_filter]
        refine ⟨List.getElem?_mem (List.getElem?_zip_eq_some.mpr ⟨hj, ha⟩), ?_⟩
        simpa using hneg
      · right
        exact ⟨_, roundAt ht table keys k, roundAt_mem_rounds ht table keys k (k + 1) (by omega),
          j, hj, ha, not_lt.mp hneg⟩
    · right
      exact ⟨a, rd, hsub rd hrd, j, h1, h2, h3⟩

/-- The modelled table along the rounds of `UploadKeys`: it keeps its invariants, gains
only entries for keys of the key list, keeps its value heap, and holds `(key, a)` for
every key to which `New` has returned a non-negative address `a`. -/
theorem retryState_table (s : List (List Bool)) (t0 : SpatialHashTable) (cap : Int)
    (hinv : t0.Inv cap) (keys : List Vector3i) :
    ∀ k, (retryState (SpatialHashTable.ops s) t0 keys k).hash_table_.Inv cap
      ∧ (∀ e ∈ (retryState (SpatialHashTable.ops s) t0 keys k).hash_table_.entries,
          e ∈ t0.entries ∨ e.1 ∈ keys)
      ∧ (retryState (SpatialHashTable.ops s) t0 keys k).hash_table_.values = t0.values
      ∧ (∀ rd ∈ (retryState (SpatialHashTable.ops s) t0 keys k).rounds,
          ∀ (j : Nat) (key : Vector3i) (a : Int), rd.keys_to_attempt[j]? = some key →
            rd.ret_value_addrs[j]? = some a → 0 ≤ a →
            (key, a) ∈ (retryState (SpatialHashTable.ops s) t0 keys k).hash_table_.entries) := by
  intro k
  induction k with
  | zero =>
    exact ⟨hinv, fun e he => Or.inl he, rfl, fun rd hrd => absurd hrd (List.not_mem_nil rd)⟩
  | succ k ih =>
    obtain ⟨i1, i2, i3, i4⟩ := ih
    obtain ⟨n1, ⟨l, hl, hlk⟩, -, n4, n5⟩ := SpatialHashTable.New_spec cap
      (retryState (SpatialHashTable.ops s) t0 keys k).keys_to_attempt
      (retryState (SpatialHashTable.ops s) t0 keys k).hash_table_ i1
    have htab : (retryState (SpatialHashTable.ops s) t0 keys (k + 1)).hash_table_
        = ((retryState (SpatialHashTable.ops s) t0 keys k).hash_table_.New
            (retryState (SpatialHashTable.ops s) t0 keys k).keys_to_attempt).2 := rfl
    have hrounds : (retryState (SpatialHashTable.ops s) t0 keys (k + 1)).rounds
        = (retryState (SpatialHashTable.ops s) t0 keys k).rounds
          ++ [⟨(retryState (SpatialHashTable.ops s) t0 keys k).keys_to_attempt,
              (retryState (SpatialHashTable.ops s) t0 keys k).index_map,
              ((retryState (SpatialHashTable.ops s) t0 keys k).hash_table_.New
                (retryState (SpatialHashTable.ops s) t0 keys k).keys_to_attempt).1⟩] := rfl
    rw [htab, hrounds]
    refine ⟨n1, ?_, by rw [n5, i3], ?_⟩
    · intro e he
      rw [hl] at he
      rcases List.mem_append.mp he with h | h
      · exact i2 e h
      · exact Or.inr (retryState_keys_subset _ t0 keys k _ (hlk e h))
    · intro rd hrd j key a hk ha h0
      rcases List.mem_append.mp hrd with h | h
      · rw [hl]
        exact List.mem_append_left _ (i4 rd h j key a hk ha h0)
      · rw [List.mem_singleton] at h
        subst h
        exact n4 j key a hk ha h0

theorem SpatialHashTable.insertAll_length (keys : List Vector3i) :
    ∀ (t : SpatialHashTable) (flags : List Bool),
      (t.insertAll keys flags).1.length = keys.length := by
  induction keys with
  | nil => intro t flags; rfl
  | cons key keys ih =>
    intro t flags
    simp only [SpatialHashTable.insertAll, List.length_cons, ih]

theorem unresolvedKeys_of_rounds {σ : Type} (ht : HashTableCuda σ) (table : σ)
    (keys : List Vector3i) (st : UploadState σ) (m : Nat) (hm : 1 ≤ m)
    (hr : st.rounds = (List.range m).map (roundAt ht table keys)) :
    st.unresolvedKeys = (roundAt ht table keys m).keys_to_attempt := by
  unfold UploadState.unresolvedKeys
  have : st.rounds.getLast? = some (roundAt ht table keys (m - 1)) := by
    rw [List.getLast?_eq_getElem?, hr, List.length_map, List.length_range, List.getElem?_map,
      List.getElem?_range (by omega)]
    rfl
  rw [this]
  show (roundAt ht table keys (m - 1)).failedKeys = _
  rw [← (roundAt_succ ht table keys (m - 1)).1]
  congr 2
  omega

theorem DownloadVolumes_eq {σ : Type} (ht : HashTableCuda σ) (vol : ScalableTSDFVolumeCuda σ)
    (dev : ScalableTSDFVolumeCudaDevice) (h : vol.device_ = some dev) :
    vol.DownloadVolumes ht
      = ((ht.DownloadKeyValuePairs vol.hash_table_).1,
          (ht.DownloadKeyValuePairs vol.hash_table_).2.map (fun sub =>
            { tsdf_ := memcpyDeviceToHost dev.tsdf_memory_pool_ sub.tsdf_ (cube32 vol.N_).toNat
              weight_ := memcpyDeviceToHost dev.weight_memory_pool_ sub.weight_
                (cube32 vol.N_).toNat
              color_ := memcpyDeviceToHost dev.color_memory_pool_ sub.color_
                (cube32 vol.N_).toNat })) := by
  simp only [ScalableTSDFVolumeCuda.DownloadVolumes, h]

theorem memcpyDeviceToHost_eq {α : Type} (pool : Int → α) (ptr : Int) (count : Nat)
    (l : List α) (hlen : l.length = count)
    (h : ∀ j : Nat, j < count → l[j]? = some (pool (ptr + j))) :
    memcpyDeviceToHost pool ptr count = l := by
  apply List.ext_getElem?
  intro j
  unfold memcpyDeviceToHost
  by_cases hj : j < count
  · rw [h j hj, List.getElem?_map, List.getElem?_range hj]
    rfl
  · rw [List.getElem?_eq_none (by rw [List.length_map, List.length_range]; omega),
      List.getElem?_eq_none (by omega)]

/-- Uploading into a volume over an empty modelled table and downloading again: when
every key is resolved, the download holds every uploaded key with the arrays uploaded for
it, and no other key. -/
theorem upload_then_download (s : List (List Bool))
    (vol : ScalableTSDFVolumeCuda SpatialHashTable) (dev : ScalableTSDFVolumeCudaDevice)
    (keys : List Vector3i) (vals : List ScalableTSDFVolumeCpuData)
    (hdev : vol.device_ = some dev) (hN : 0 ≤ vol.N_)
    (hcap : vol.N_ ^ 3 * vol.value_capacity_ ≤ 2147483647)
    (hinv : vol.hash_table_.Inv vol.value_capacity_) (hempty : vol.hash_table_.entries = [])
    (hvalues : ∀ a, vol.hash_table_.values a
      = ⟨a * (vol.N_ * vol.N_ * vol.N_), a * (vol.N_ * vol.N_ * vol.N_),
          a * (vol.N_ * vol.N_ * vol.N_)⟩)
    (hknd : keys.Nodup)
    (hsize : ∀ v ∈ vals, v.tsdf_.length = (vol.N_ ^ 3).toNat
      ∧ v.weight_.length = (vol.N_ ^ 3).toNat ∧ v.color_.length = (vol.N_ ^ 3).toNat)
    (hres : (UploadKeysRun (SpatialHashTable.ops s) vol.hash_table_ keys).unresolvedKeys = []) :
    (∀ (i : Nat) (k : Vector3i) (v : ScalableTSDFVolumeCpuData),
        keys[i]? = some k → vals[i]? = some v →
        ∃ q : Nat, ((vol.UploadVolumes (SpatialHashTable.ops s) keys vals).2.DownloadVolumes
              (SpatialHashTable.ops s)).1[q]? = some k
          ∧ ((vol.UploadVolumes (SpatialHashTable.ops s) keys vals).2.DownloadVolumes
              (SpatialHashTable.ops s)).2[q]? = some v)
    ∧ (∀ k ∈ ((vol.UploadVolumes (SpatialHashTable.ops s) keys vals).2.DownloadVolumes
          (SpatialHashTable.ops s)).1, k ∈ keys)
    ∧ ((vol.UploadVolumes (SpatialHashTable.ops s) keys vals).2.DownloadVolumes
          (SpatialHashTable.ops s)).1.Nodup := by
  obtain ⟨m, hm1, -, -, hr, -, htab, -⟩ :=
    UploadKeysRun_shape (SpatialHashTable.ops s) vol.hash_table_ keys
  obtain ⟨t1, t2, t3, t4⟩ := retryState_table s vol.hash_table_ vol.value_capacity_ hinv keys m
  rw [← htab] at t1 t2 t3 t4
  rw [retryState_rounds, ← hr] at t4
  obtain ⟨-, hC1⟩ := UploadKeysRun_resolved (SpatialHashTable.ops s) vol.hash_table_ keys
  have hlenNew : ∀ (t : SpatialHashTable) (ks : List Vector3i),
      ((SpatialHashTable.ops s).New t ks).1.length = ks.length :=
    fun t ks => SpatialHashTable.insertAll_length ks _ _
  have hall : ∀ i, i < keys.length →
      ∃ a, (UploadKeysRun (SpatialHashTable.ops s) vol.hash_table_ keys).ResolvedTo i a := by
    intro i hi
    rw [unresolvedKeys_of_rounds (SpatialHashTable.ops s) vol.hash_table_ keys _ m hm1 hr] at hres
    have him : (retryState (SpatialHashTable.ops s) vol.hash_table_ keys m).index_map = [] := by
      rw [← List.length_eq_zero, (retryState_inv _ vol.hash_table_ keys m).len_im]
      exact List.length_eq_zero.mpr hres
    rcases retryState_pending_or_resolved (SpatialHashTable.ops s) vol.hash_table_ keys hlenNew
      m i hi with h | ⟨a, rd, hrd, h⟩
    · rw [him] at h; cases h
    · rw [retryState_rounds, ← hr] at hrd
      exact ⟨a, rd, hrd, h⟩
  have hentry : ∀ i a,
      (UploadKeysRun (SpatialHashTable.ops s) vol.hash_table_ keys).ResolvedTo i a →
      ∃ key, keys[i]? = some key
        ∧ (key, a) ∈ (UploadKeysRun (SpatialHashTable.ops s) vol.hash_table_
            keys).hash_table_.entries := by
    rintro i a ⟨rd, hrd, j, hi, ha, h0⟩
    obtain ⟨hlt, hk, -⟩ := hC1 rd hrd j i a hi ha h0
    refine ⟨keys[i], List.getElem?_eq_getElem hlt, ?_⟩
    exact t4 rd hrd j _ a (by rw [hk]; exact List.getElem?_eq_getElem hlt) ha h0
  have hrange : ∀ i a,
      (UploadKeysRun (SpatialHashTable.ops s) vol.hash_table_ keys).ResolvedTo i a →
      0 ≤ a ∧ a < vol.value_capacity_ := by
    intro i a h
    obtain ⟨key, -, hmem⟩ := hentry i a h
    exact t1.addr_range a (List.mem_append_left _ (List.mem_map.mpr ⟨_, hmem, rfl⟩))
  have hdistinct : ∀ i i' a,
      (UploadKeysRun (SpatialHashTable.ops s) vol.hash_table_ keys).ResolvedTo i a →
      (UploadKeysRun (SpatialHashTable.ops s) vol.hash_table_ keys).ResolvedTo i' a →
      i = i' := by
    intro i i' a h h'
    obtain ⟨key, hk, hmem⟩ := hentry i a h
    obtain ⟨key', hk', hmem'⟩ := hentry i' a h'
    have hnd : ((UploadKeysRun (SpatialHashTable.ops s) vol.hash_table_
        keys).hash_table_.entries.map (fun e => e.2)).Nodup :=
      (List.nodup_append.mp t1.addr_nodup).1
    have heq := List.inj_on_of_nodup_map hnd hmem hmem' rfl
    have hkk : key = key' := congrArg Prod.fst heq
    subst hkk
    have hilt : i < keys.length := by
      by_contra hcon
      rw [List.getElem?_eq_none (not_lt.mp hcon)] at hk
      cases hk
    exact List.getElem?_inj hilt hknd (hk.trans hk'.symm)
  obtain ⟨dev', hd', hwrite, -⟩ := UploadVolumes_spec (SpatialHashTable.ops s) vol dev keys
    vals hdev hN hcap hsize
    (fun i hi => by
      obtain ⟨a, ha⟩ := hall i hi
      exact ⟨a, ha, (hrange i a ha).2⟩) hdistinct
  have hdsttab : (vol.UploadVolumes (SpatialHashTable.ops s) keys vals).2.hash_table_
      = (UploadKeysRun (SpatialHashTable.ops s) vol.hash_table_ keys).hash_table_ := by
    simp only [ScalableTSDFVolumeCuda.UploadVolumes, hdev]
  have hdstN : (vol.UploadVolumes (SpatialHashTable.ops s) keys vals).2.N_ = vol.N_ := by
    simp only [ScalableTSDFVolumeCuda.UploadVolumes, hdev]
  rw [DownloadVolumes_eq _ _ dev' hd', hdsttab, hdstN]
  show (∀ (i : Nat) (k : Vector3i) (v : ScalableTSDFVolumeCpuData),
        keys[i]? = some k → vals[i]? = some v →
        ∃ q : Nat, ((UploadKeysRun (SpatialHashTable.ops s) vol.hash_table_
              keys).hash_table_.entries.map (fun e => e.1))[q]? = some k
          ∧ (((UploadKeysRun (SpatialHashTable.ops s) vol.hash_table_
              keys).hash_table_.entries.map (fun e =>
                (UploadKeysRun (SpatialHashTable.ops s) vol.hash_table_
                  keys).hash_table_.values e.2)).map _)[q]? = some v)
    ∧ (∀ k ∈ (UploadKeysRun (SpatialHashTable.ops s) vol.hash_table_
          keys).hash_table_.entries.map (fun e => e.1), k ∈ keys)
    ∧ ((UploadKeysRun (SpatialHashTable.ops s) vol.hash_table_
          keys).hash_table_.entries.map (fun e => e.1)).Nodup
  refine ⟨?_, ?_, t1.key_nodup⟩
  · intro i k v hk hv
    have hilt : i < keys.length := by
      by_contra hcon
      rw [List.getElem?_eq_none (not_lt.mp hcon)] at hk
      cases hk
    obtain ⟨a, ha⟩ := hall i hilt
    obtain ⟨key, hkey, hmem⟩ := hentry i a ha
    have hkk : key = k := Option.some_injective _ (hkey.symm.trans hk)
    subst hkk
    obtain ⟨h0, hc⟩ := hrange i a ha
    obtain ⟨q, hq⟩ := List.mem_iff_getElem?.mp hmem
    refine ⟨q, by rw [List.getElem?_map, hq]; rfl, ?_⟩
    rw [List.getElem?_map, List.getElem?_map, hq]
    simp only [Option.map_some', Option.some.injEq]
    rw [t3, hvalues]
    simp only
    have hN3 : 0 ≤ vol.N_ ^ 3 := pow_nonneg hN 3
    have hN3le : vol.N_ ^ 3 ≤ 2147483647 := by
      have : vol.N_ ^ 3 * 1 ≤ vol.N_ ^ 3 * vol.value_capacity_ :=
        Int.mul_le_mul_of_nonneg_left (by omega) hN3
      omega
    have hcube : cube32 vol.N_ = vol.N_ ^ 3 := cube32_eq vol.N_ hN hN3le
    have h3 : vol.N_ * vol.N_ * vol.N_ = vol.N_ ^ 3 := by ring
    obtain ⟨hs1, hs2, hs3⟩ := hsize v (List.getElem?_mem hv)
    rw [hcube, h3]
    have hw := hwrite i a v ha hv
    have e1 := memcpyDeviceToHost_eq dev'.tsdf_memory_pool_ (a * vol.N_ ^ 3)
      (vol.N_ ^ 3).toNat v.tsdf_ hs1 (fun j hj => (hw j (by omega)).1)
    have e2 := memcpyDeviceToHost_eq dev'.weight_memory_pool_ (a * vol.N_ ^ 3)
      (vol.N_ ^ 3).toNat v.weight_ hs2 (fun j hj => (hw j (by omega)).2.1)
    have e3 := memcpyDeviceToHost_eq dev'.color_memory_pool_ (a * vol.N_ ^ 3)
      (vol.N_ ^ 3).toNat v.color_ hs3 (fun j hj => (hw j (by omega)).2.2)
    rw [e1, e2, e3]
  · intro k hk
    obtain ⟨e, he, rfl⟩ := List.mem_map.mp hk
    rcases t2 e he with h | h
    · rw [hempty] at h; cases h
    · exact h

end TableLemmas

/-- C7 (amended): for the modelled hash table and every outcome `s` of the races in the
bulk upload, let `src` be a volume with `N ≥ 0`, `value_capacity > 0` and
`N^3 * value_capacity ≤ 2^31 - 1` whose table holds each key once.  If the bulk upload
into a fresh volume with the same parameters resolves every key within its 10 rounds,
then in the resulting volume every downloaded key is present with tsdf, weight and color
arrays identical to the downloaded ones, and a second `DownloadVolumes` returns no other
key and no key twice. -/
theorem DownloadVolumes_UploadVolumes_round_trip (s : List (List Bool))
    (fresh : ScalableTSDFVolumeCudaDevice) (src : ScalableTSDFVolumeCuda SpatialHashTable)
    (hN : 0 ≤ src.N_) (hpos : 0 < src.value_capacity_)
    (hcap : src.N_ ^ 3 * src.value_capacity_ ≤ 2147483647)
    (hkeys : (src.hash_table_.entries.map (fun e => e.1)).Nodup)
    (hres : (roundTripUpload s fresh src).unresolvedKeys = []) :
    (∀ (i : Nat) (k : Vector3i) (v : ScalableTSDFVolumeCpuData),
        (src.DownloadVolumes (SpatialHashTable.ops s)).1[i]? = some k →
        (src.DownloadVolumes (SpatialHashTable.ops s)).2[i]? = some v →
        ∃ q : Nat,
          ((roundTrip s fresh src).DownloadVolumes (SpatialHashTable.ops s)).1[q]? = some k
          ∧ ((roundTrip s fresh src).DownloadVolumes (SpatialHashTable.ops s)).2[q]? = some v)
    ∧ (∀ k ∈ ((roundTrip s fresh src).DownloadVolumes (SpatialHashTable.ops s)).1,
        k ∈ (src.DownloadVolumes (SpatialHashTable.ops s)).1)
    ∧ ((roundTrip s fresh src).DownloadVolumes (SpatialHashTable.ops s)).1.Nodup := by
  have hN3 : 0 ≤ src.N_ ^ 3 := pow_nonneg hN 3
  have hN3le : src.N_ ^ 3 ≤ 2147483647 := by
    have : src.N_ ^ 3 * 1 ≤ src.N_ ^ 3 * src.value_capacity_ :=
      Int.mul_le_mul_of_nonneg_left (by omega) hN3
    omega
  have hcube : cube32 src.N_ = src.N_ ^ 3 := cube32_eq src.N_ hN hN3le
  have hknd : (src.DownloadVolumes (SpatialHashTable.ops s)).1.Nodup := by
    unfold ScalableTSDFVolumeCuda.DownloadVolumes
    cases src.device_ with
    | none => exact List.nodup_nil
    | some dev => exact hkeys
  have hsize : ∀ v ∈ (src.DownloadVolumes (SpatialHashTable.ops s)).2,
      v.tsdf_.length = (src.N_ ^ 3).toNat ∧ v.weight_.length = (src.N_ ^ 3).toNat
        ∧ v.color_.length = (src.N_ ^ 3).toNat := by
    unfold ScalableTSDFVolumeCuda.DownloadVolumes
    cases src.device_ with
    | none => intro v hv; cases hv
    | some dev =>
      intro v hv
      obtain ⟨sub, -, rfl⟩ := List.mem_map.mp hv
      simp only [memcpyDeviceToHost, List.length_map, List.length_range, hcube, and_self]
  have hinv : (ScalableTSDFVolumeCuda.construct (SpatialHashTable.ops s) fresh src.N_
      src.voxel_length_ src.sdf_trunc_ src.transform_volume_to_world_ src.bucket_count_
      src.value_capacity_).hash_table_.Inv src.value_capacity_ := by
    refine ⟨?_, List.nodup_nil, ?_⟩
    · show ([] ++ (List.range src.value_capacity_.toNat).map Int.ofNat).Nodup
      rw [List.nil_append]
      exact (List.nodup_range _).map Int.ofNat_injective
    · intro a ha
      have ha' : a ∈ (List.range src.value_capacity_.toNat).map Int.ofNat := ha
      obtain ⟨i, hi, rfl⟩ := List.mem_map.mp ha'
      have := List.mem_range.mp hi
      constructor
      · exact Int.ofNat_nonneg i
      · show (i : Int) < src.value_capacity_
        omega
  exact upload_then_download s
    (ScalableTSDFVolumeCuda.construct (SpatialHashTable.ops s) fresh src.N_
      src.voxel_length_ src.sdf_trunc_ src.transform_volume_to_world_
          src.bucket_count_ src.value_capacity_) _
    (src.DownloadVolumes (SpatialHashTable.ops s)).1
    (src.DownloadVolumes (SpatialHashTable.ops s)).2 rfl hN hcap hinv rfl (fun _ => rfl) hknd
    hsize hres

/-- Witness for `DownloadVolumes_UploadVolumes_round_trip`: the volume `elevenBlocks`
(block side 1, 11 slots, 11 blocks) uploaded into a fresh volume without any lost race. -/
theorem DownloadVolumes_UploadVolumes_round_trip_witness :
    (roundTripUpload [] staleDevice elevenBlocks).unresolvedKeys = []
    ∧ (∀ k ∈ ((roundTrip [] staleDevice elevenBlocks).DownloadVolumes
          (SpatialHashTable.ops [])).1,
        k ∈ (elevenBlocks.DownloadVolumes (SpatialHashTable.ops [])).1)
    ∧ ((roundTrip [] staleDevice elevenBlocks).DownloadVolumes
          (SpatialHashTable.ops [])).1.Nodup :=
  ⟨by decide,
    (DownloadVolumes_UploadVolumes_round_trip [] staleDevice elevenBlocks (by decide)
      (by decide) (by decide) (by decide) (by decide)).2⟩

/-- C7 (as stated, at a concrete input): the volume `elevenBlocks` holds the blocks
`(0,0,0) … (10,0,0)`, block `i` with signed distance `i`.  Its download is uploaded into
a fresh volume with the same parameters while the 11 keys, which share a bucket, race for
its lock and one attempt wins per round.  After the 10 rounds `(10,0,0)` is not in the
table, and the block `(0,0,0)` holds the arrays downloaded for `(10,0,0)`. -/
theorem round_trip_loses_block_under_contention :
    (elevenBlocks.DownloadVolumes (SpatialHashTable.ops [])).1 = keysX 11
    ∧ (elevenBlocks.DownloadVolumes (SpatialHashTable.ops [])).2 = dataX 11 1
    ∧ keyX 10 ∉ ((roundTrip (oneWinnerPerRound 10 10) staleDevice elevenBlocks).DownloadVolumes
        (SpatialHashTable.ops [])).1
    ∧ ((roundTrip (oneWinnerPerRound 10 10) staleDevice elevenBlocks).DownloadVolumes
        (SpatialHashTable.ops [])).1[0]? = some (keyX 0)
    ∧ ((roundTrip (oneWinnerPerRound 10 10) staleDevice elevenBlocks).DownloadVolumes
        (SpatialHashTable.ops [])).2[0]? = some (uniformCpuData 1 10 10) := by
  set_option maxRecDepth 1000000 in decide

/-! ## Create, Reset and ResetActiveSubvolumeIndices -/

theorem memsetZero_inside {α : Type} [Zero α] (pool : Int → α) (count p : Int) (h0 : 0 ≤ p)
    (h1 : p < count) : memsetZero pool count p = 0 := by
  unfold memsetZero
  rw [if_pos ⟨h0, h1⟩]

theorem slot_position_in_pool (NNN value_capacity a j : Int) (ha0 : 0 ≤ a)
    (ha : a < value_capacity) (hj0 : 0 ≤ j) (hj : j < NNN) :
    0 ≤ a * NNN + j ∧ a * NNN + j < NNN * value_capacity := by
  have h1 : 0 ≤ a * NNN := mul_nonneg ha0 (by omega)
  have h2 : (a + 1) * NNN ≤ value_capacity * NNN :=
    mul_le_mul_of_nonneg_right (by omega) (by omega)
  constructor
  · omega
  · have h3 : (a + 1) * NNN = a * NNN + NNN := by ring
    have h4 : value_capacity * NNN = NNN * value_capacity := by ring
    omega

theorem cudaMemset_inside (mem : Int → uchar) (value count p : Int) (h0 : 0 ≤ p)
    (h1 : p < count) : cudaMemset mem value count p = (value % 256).toNat := by
  unfold cudaMemset
  rw [if_pos ⟨h0, h1⟩]

theorem cudaMemset_outside (mem : Int → uchar) (value count p : Int)
    (h : ¬ (0 ≤ p ∧ p < count)) : cudaMemset mem value count p = mem p := by
  unfold cudaMemset
  rw [if_neg h]

theorem ResetActiveSubvolumeIndices_reads_unassigned {σ : Type}
    (vol : ScalableTSDFVolumeCuda σ) (d' : ScalableTSDFVolumeCudaDevice)
    (h : vol.ResetActiveSubvolumeIndices.device_ = some d') (i : Int) (h0 : 0 ≤ i)
    (h1 : i < vol.value_capacity_) : readInt d'.active_subvolume_indices_ i = -1 := by
  cases hd : vol.device_ with
  | none =>
    simp [ScalableTSDFVolumeCuda.ResetActiveSubvolumeIndices, hd] at h
  | some d =>
    simp only [ScalableTSDFVolumeCuda.ResetActiveSubvolumeIndices, hd, Option.map_some',
      Option.some.injEq] at h
    subst h
    have hb : ∀ b : Int, 0 ≤ b → b < 4 →
        cudaMemset d.active_subvolume_indices_ 0xff (4 * vol.value_capacity_)
          (4 * i + b) = 0xff := by
      intro b hb0 hb4
      unfold cudaMemset
      rw [if_pos ⟨by omega, by omega⟩]
      rfl
    show wrapInt32 ((cudaMemset d.active_subvolume_indices_ 0xff
        (4 * vol.value_capacity_) (4 * i) : Int)
      + 256 * (cudaMemset d.active_subvolume_indices_ 0xff
        (4 * vol.value_capacity_) (4 * i + 1) : Int)
      + 65536 * (cudaMemset d.active_subvolume_indices_ 0xff
        (4 * vol.value_capacity_) (4 * i + 2) : Int)
      + 16777216 * (cudaMemset d.active_subvolume_indices_ 0xff
        (4 * vol.value_capacity_) (4 * i + 3) : Int)) = -1
    have h0' := hb 0 (by decide) (by decide)
    rw [add_zero] at h0'
    rw [h0', hb 1 (by decide) (by decide), hb 2 (by decide) (by decide),
      hb 3 (by decide) (by decide)]
    decide

/-- C11 (amended): on a volume that is already created (its device view is not null),
`Create` with a positive bucket count and a positive value capacity logs an error, and
nothing else, and returns with the volume as it was: block side, bucket count, value
capacity, hash table and the device view with all its pools are the same as before,
whatever the block side passed.  In a build without assertions this is so whatever the
arguments; in a build with assertions a call whose bucket count or value capacity is not
positive is aborted by the leading `assert` instead. -/
theorem Create_on_created_volume_changes_nothing {σ : Type} (ht : HashTableCuda σ)
    (fresh : ScalableTSDFVolumeCudaDevice) (vol : ScalableTSDFVolumeCuda σ)
    (d : ScalableTSDFVolumeCudaDevice) (hdev : vol.device_ = some d)
    (N bucket_count value_capacity : Int) :
    ((vol.Create ht fresh N bucket_count value_capacity).2 = [Event.LogError]
      ∧ (vol.Create ht fresh N bucket_count value_capacity).1 = vol
      ∧ (vol.Create ht fresh N bucket_count value_capacity).1.N_ = vol.N_
      ∧ (vol.Create ht fresh N bucket_count value_capacity).1.bucket_count_
          = vol.bucket_count_
      ∧ (vol.Create ht fresh N bucket_count value_capacity).1.value_capacity_
          = vol.value_capacity_
      ∧ (vol.Create ht fresh N bucket_count value_capacity).1.hash_table_ = vol.hash_table_
      ∧ (vol.Create ht fresh N bucket_count value_capacity).1.device_ = some d)
    ∧ (0 < bucket_count → 0 < value_capacity →
        vol.CreateChecked ht fresh N bucket_count value_capacity
          = some (vol, [Event.LogError]))
    ∧ (¬ (0 < bucket_count ∧ 0 < value_capacity) →
        vol.CreateChecked ht fresh N bucket_count value_capacity = none) := by
  have h : vol.Create ht fresh N bucket_count value_capacity = (vol, [Event.LogError]) := by
    simp only [ScalableTSDFVolumeCuda.Create, hdev]
  refine ⟨?_, ?_, ?_⟩
  · rw [h]
    exact ⟨rfl, rfl, rfl, rfl, rfl, rfl, hdev⟩
  · intro hb hv
    unfold ScalableTSDFVolumeCuda.CreateChecked
    rw [if_pos ⟨hb, hv⟩, h]
  · intro hn
    unfold ScalableTSDFVolumeCuda.CreateChecked
    rw [if_neg hn]

/-- Witness for `Create_on_created_volume_changes_nothing`: `Create(16, 4, 7)` on a created
volume with block side 8 and 100 slots, with and without assertions. -/
theorem Create_on_created_volume_changes_nothing_witness :
    (volumeOver () 8 100).device_ = some staleDevice
    ∧ ((volumeOver () 8 100).Create (fixedAddressOps []) staleDevice 16 4 7).2
      = [Event.LogError]
    ∧ ((volumeOver () 8 100).Create (fixedAddressOps []) staleDevice 16 4 7).1
      = volumeOver () 8 100
    ∧ ((volumeOver () 8 100).Create (fixedAddressOps []) staleDevice 16 4 7).1.N_ = 8
    ∧ (volumeOver () 8 100).CreateChecked (fixedAddressOps []) staleDevice 16 4 7
      = some (volumeOver () 8 100, [Event.LogError]) :=
  ⟨rfl,
    (Create_on_created_volume_changes_nothing (fixedAddressOps []) staleDevice
      (volumeOver () 8 100) staleDevice rfl 16 4 7).1.1,
    (Create_on_created_volume_changes_nothing (fixedAddressOps []) staleDevice
      (volumeOver () 8 100) staleDevice rfl 16 4 7).1.2.1,
    (Create_on_created_volume_changes_nothing (fixedAddressOps []) staleDevice
      (volumeOver () 8 100) staleDevice rfl 16 4 7).1.2.2.1,
    (Create_on_created_volume_changes_nothing (fixedAddressOps []) staleDevice
      (volumeOver () 8 100) staleDevice rfl 16 4 7).2.1 (by decide) (by decide)⟩

/-- C11 (as stated, at a concrete input): `Create(16, 0, -5)` on a created volume with
block side 8 and 100 slots, in a build with assertions.  The leading
`assert(bucket_count > 0 && value_capacity > 0)` fails, so the call is aborted before
`device_` is tested: it does not return and logs no error. -/
theorem Create_with_failing_assertion_is_aborted :
    (volumeOver () 8 100).device_ = some staleDevice
    ∧ (volumeOver () 8 100).CreateChecked (fixedAddressOps []) staleDevice 16 0 (-5) = none
    ∧ ¬ ∃ r, (volumeOver () 8 100).CreateChecked (fixedAddressOps []) staleDevice 16 0 (-5)
        = some r ∧ r.2 = [Event.LogError] := by
  have h : (volumeOver () 8 100).CreateChecked (fixedAddressOps []) staleDevice 16 0 (-5)
      = none := by
    unfold ScalableTSDFVolumeCuda.CreateChecked
    rw [if_neg (by decide)]
  refine ⟨rfl, h, ?_⟩
  rintro ⟨r, hr, -⟩
  rw [h] at hr
  cases hr

/-! ## Integrate -/

/-- C12: for every behaviour of the kernels, the hash table and the array, and for every
frame, the events of one call of `Integrate` other than creating the mask image and
logging are exactly: `hash_table_.ResetLocks()`, `set_iterator(0)` on the array of active
entries, `TouchSubvolumes`, `ResetActiveSubvolumeIndices`, `GetSubvolumesInFrustum`,
`IntegrateSubvolumes`, once each and in this order.  Three kernels are launched: Touch on
the volume with locks reset and the array with its iterator set to 0; collection on what
Touch left, with the active indices reset (every active index below `value_capacity`
reads `-1` when collection starts); Fuse on what collection left.  The volume and the
array after `Integrate` are what Fuse left. -/
theorem Integrate_runs_phases_once_in_order {σ α ι R C T : Type} (ht : HashTableCuda σ)
    (kc : IntegrateCallees σ α ι R C T) (vol : ScalableTSDFVolumeCuda σ) (arr : α) (rgbd : R)
    (camera : C) (pose : T) (frame_id : Int) (r_mask_image : ImageCuda ι) :
    (vol.Integrate ht kc arr rgbd camera pose frame_id r_mask_image).log.filter
        IntegrateEvent.isPhase
      = [IntegrateEvent.ResetLocks, IntegrateEvent.set_iterator 0,
          IntegrateEvent.TouchSubvolumes, IntegrateEvent.ResetActiveSubvolumeIndices,
          IntegrateEvent.GetSubvolumesInFrustum, IntegrateEvent.IntegrateSubvolumes]
    ∧ ∃ (mask_image : ImageCuda ι) (touched collected : ScalableTSDFVolumeCuda σ × α),
        touched = kc.TouchSubvolumes
          ({ vol with hash_table_ := ht.ResetLocks vol.hash_table_ }, kc.set_iterator arr 0)
          (kc.depth_ rgbd) camera pose frame_id mask_image
        ∧ collected = kc.GetSubvolumesInFrustum
            (touched.1.ResetActiveSubvolumeIndices, touched.2) camera pose frame_id
        ∧ (vol.Integrate ht kc arr rgbd camera pose frame_id r_mask_image).launches
          = [(IntegrateEvent.TouchSubvolumes,
                { vol with hash_table_ := ht.ResetLocks vol.hash_table_ },
                kc.set_iterator arr 0),
              (IntegrateEvent.GetSubvolumesInFrustum,
                touched.1.ResetActiveSubvolumeIndices, touched.2),
              (IntegrateEvent.IntegrateSubvolumes, collected)]
        ∧ (∀ d, touched.1.ResetActiveSubvolumeIndices.device_ = some d →
            ∀ i : Int, 0 ≤ i → i < touched.1.ResetActiveSubvolumeIndices.value_capacity_ →
              readInt d.active_subvolume_indices_ i = -1)
        ∧ ((vol.Integrate ht kc arr rgbd camera pose frame_id r_mask_image).volume,
            (vol.Integrate ht kc arr rgbd camera pose frame_id
              r_mask_image).active_subvolume_entry_array_)
          = kc.IntegrateSubvolumes collected rgbd mask_image camera pose := by
  constructor
  · simp only [ScalableTSDFVolumeCuda.Integrate, ScalableTSDFVolumeCuda.TouchSubvolumes,
      ScalableTSDFVolumeCuda.GetSubvolumesInFrustum,
      ScalableTSDFVolumeCuda.IntegrateSubvolumes]
    split <;> simp [IntegrateEvent.isPhase]
  · refine ⟨_, _, _, rfl, rfl, rfl, ?_, rfl⟩
    intro d hd i h0 h1
    exact ResetActiveSubvolumeIndices_reads_unassigned _ d hd i h0 h1

/-! ## The active indices and the pools after a reset -/

/-- C13: on a created volume, `ResetActiveSubvolumeIndices` sets each of the four bytes
of every entry `0 .. value_capacity - 1` of the array of active indices to `0xff`, so
that each of these entries reads as the `int` `-1`; no byte outside these entries is
written (every other entry reads as before), and nothing else in the device view or
in the host object changes. -/
theorem ResetActiveSubvolumeIndices_marks_every_slot_unassigned {σ : Type}
    (vol : ScalableTSDFVolumeCuda σ) (d : ScalableTSDFVolumeCudaDevice)
    (hdev : vol.device_ = some d) :
    ∃ d', vol.ResetActiveSubvolumeIndices.device_ = some d'
      ∧ (∀ i : Int, 0 ≤ i → i < vol.value_capacity_ →
          (∀ b : Int, 0 ≤ b → b < 4 → d'.active_subvolume_indices_ (4 * i + b) = 0xff)
          ∧ readInt d'.active_subvolume_indices_ i = -1)
      ∧ (∀ p : Int, ¬ (0 ≤ p ∧ p < 4 * vol.value_capacity_) →
          d'.active_subvolume_indices_ p = d.active_subvolume_indices_ p)
      ∧ (∀ i : Int, ¬ (0 ≤ i ∧ i < vol.value_capacity_) →
          readInt d'.active_subvolume_indices_ i = readInt d.active_subvolume_indices_ i)
      ∧ d'.tsdf_memory_pool_ = d.tsdf_memory_pool_
      ∧ d'.weight_memory_pool_ = d.weight_memory_pool_
      ∧ d'.color_memory_pool_ = d.color_memory_pool_
      ∧ d'.N_ = d.N_ ∧ d'.bucket_count_ = d.bucket_count_
      ∧ d'.value_capacity_ = d.value_capacity_
      ∧ vol.ResetActiveSubvolumeIndices.hash_table_ = vol.hash_table_
      ∧ vol.ResetActiveSubvolumeIndices.N_ = vol.N_
      ∧ vol.ResetActiveSubvolumeIndices.value_capacity_ = vol.value_capacity_ := by
  refine ⟨{ d with
      active_subvolume_indices_ :=
        cudaMemset d.active_subvolume_indices_ 0xff (sizeofInt * vol.value_capacity_) },
    by simp only [ScalableTSDFVolumeCuda.ResetActiveSubvolumeIndices, hdev, Option.map_some'],
    ?_, ?_, ?_, rfl, rfl, rfl, rfl, rfl, rfl, rfl, rfl, rfl⟩
  · intro i h0 h1
    have hb : ∀ b : Int, 0 ≤ b → b < 4 →
        cudaMemset d.active_subvolume_indices_ 0xff (4 * vol.value_capacity_)
          (4 * i + b) = 0xff := by
      intro b hb0 hb4
      rw [cudaMemset_inside _ _ _ _ (by omega) (by omega)]
      rfl
    refine ⟨hb, ?_⟩
    show wrapInt32 ((cudaMemset d.active_subvolume_indices_ 0xff
        (4 * vol.value_capacity_) (4 * i) : Int)
      + 256 * (cudaMemset d.active_subvolume_indices_ 0xff
        (4 * vol.value_capacity_) (4 * i + 1) : Int)
      + 65536 * (cudaMemset d.active_subvolume_indices_ 0xff
        (4 * vol.value_capacity_) (4 * i + 2) : Int)
      + 16777216 * (cudaMemset d.active_subvolume_indices_ 0xff
        (4 * vol.value_capacity_) (4 * i + 3) : Int)) = -1
    have h0' := hb 0 (by decide) (by decide)
    rw [add_zero] at h0'
    rw [h0', hb 1 (by decide) (by decide), hb 2 (by decide) (by decide),
      hb 3 (by decide) (by decide)]
    decide
  · intro p hp
    exact cudaMemset_outside _ _ _ _ (by unfold sizeofInt; exact hp)
  · intro i hi
    show readInt (cudaMemset d.active_subvolume_indices_ 0xff
      (sizeofInt * vol.value_capacity_)) i = _
    unfold readInt
    rw [cudaMemset_outside _ _ _ (sizeofInt * i) (by unfold sizeofInt; omega),
      cudaMemset_outside _ _ _ (sizeofInt * i + 1) (by unfold sizeofInt; omega),
      cudaMemset_outside _ _ _ (sizeofInt * i + 2) (by unfold sizeofInt; omega),
      cudaMemset_outside _ _ _ (sizeofInt * i + 3) (by unfold sizeofInt; omega)]

/-- Witness for `ResetActiveSubvolumeIndices_marks_every_slot_unassigned`: a volume with 3
slots whose array of active indices holds the byte 9 everywhere (every entry reads
`0x09090909`): afterwards entries 0 and 2 read `-1`, entries 3 and -1 read as before. -/
theorem ResetActiveSubvolumeIndices_marks_every_slot_unassigned_witness :
    (volumeOver () 8 3).device_ = some staleDevice
    ∧ readInt staleDevice.active_subvolume_indices_ 2 = 151587081
    ∧ ∃ d', (volumeOver () 8 3).ResetActiveSubvolumeIndices.device_ = some d'
      ∧ readInt d'.active_subvolume_indices_ 0 = -1
      ∧ readInt d'.active_subvolume_indices_ 2 = -1
      ∧ readInt d'.active_subvolume_indices_ 3 = readInt staleDevice.active_subvolume_indices_ 3
      ∧ readInt d'.active_subvolume_indices_ (-1)
          = readInt staleDevice.active_subvolume_indices_ (-1) := by
  obtain ⟨d', h, h1, -, h3, -⟩ :=
    ResetActiveSubvolumeIndices_marks_every_slot_unassigned (volumeOver () 8 3) staleDevice rfl
  exact ⟨rfl, by decide, d', h, (h1 0 (by decide) (by decide)).2,
    (h1 2 (by decide) (by decide)).2, h3 3 (by decide), h3 (-1) (by decide)⟩

/-- C14: after `Reset` on a created volume every element of the tsdf, weight and color
pools below the allocated length `NNN * value_capacity` is zero, `NNN` being the `int`
that the code computes as `N_ * N_ * N_`; hence every voxel `j` of every slot `a` in
`[0, value_capacity)` has signed distance 0, weight 0 and color (0,0,0).  `NNN` is the
cube of the block side whenever that fits an `int`.  The same holds after `Create` on a
volume not created before, which logs nothing. -/
theorem Reset_zeroes_every_voxel_of_every_slot {σ : Type} (ht : HashTableCuda σ)
    (vol : ScalableTSDFVolumeCuda σ) (d : ScalableTSDFVolumeCudaDevice)
    (hdev : vol.device_ = some d) :
    (∃ d', vol.Reset.device_ = some d'
      ∧ (∀ p : Int, 0 ≤ p → p < poolLength vol.N_ vol.value_capacity_ →
          d'.tsdf_memory_pool_ p = 0 ∧ d'.weight_memory_pool_ p = 0
          ∧ d'.color_memory_pool_ p = VectorCuda.mk3 0 0 0)
      ∧ (∀ a j : Int, 0 ≤ a → a < vol.value_capacity_ → 0 ≤ j → j < cube32 vol.N_ →
          d'.tsdf_memory_pool_ (a * cube32 vol.N_ + j) = 0
          ∧ d'.weight_memory_pool_ (a * cube32 vol.N_ + j) = 0
          ∧ d'.color_memory_pool_ (a * cube32 vol.N_ + j) = VectorCuda.mk3 0 0 0))
    ∧ (0 ≤ vol.N_ → vol.N_ ^ 3 ≤ 2147483647 → cube32 vol.N_ = vol.N_ ^ 3)
    ∧ (∀ (fresh : ScalableTSDFVolumeCudaDevice) (vol0 : ScalableTSDFVolumeCuda σ)
        (N bucket_count value_capacity : Int), vol0.device_ = none →
        (vol0.Create ht fresh N bucket_count value_capacity).2 = []
        ∧ ∃ d', (vol0.Create ht fresh N bucket_count value_capacity).1.device_ = some d'
          ∧ (∀ p : Int, 0 ≤ p → p < poolLength N value_capacity →
              d'.tsdf_memory_pool_ p = 0 ∧ d'.weight_memory_pool_ p = 0
              ∧ d'.color_memory_pool_ p = VectorCuda.mk3 0 0 0)
          ∧ (∀ a j : Int, 0 ≤ a → a < value_capacity → 0 ≤ j → j < cube32 N →
              d'.tsdf_memory_pool_ (a * cube32 N + j) = 0
              ∧ d'.weight_memory_pool_ (a * cube32 N + j) = 0
              ∧ d'.color_memory_pool_ (a * cube32 N + j) = VectorCuda.mk3 0 0 0)) := by
  have key : ∀ (e : ScalableTSDFVolumeCudaDevice) (N vc : Int),
      (∀ p : Int, 0 ≤ p → p < poolLength N vc →
        memsetZero e.tsdf_memory_pool_ (cube32 N * vc) p = 0
        ∧ memsetZero e.weight_memory_pool_ (cube32 N * vc) p = 0
        ∧ memsetZero e.color_memory_pool_ (cube32 N * vc) p = VectorCuda.mk3 0 0 0)
      ∧ (∀ a j : Int, 0 ≤ a → a < vc → 0 ≤ j → j < cube32 N →
        memsetZero e.tsdf_memory_pool_ (cube32 N * vc) (a * cube32 N + j) = 0
        ∧ memsetZero e.weight_memory_pool_ (cube32 N * vc) (a * cube32 N + j) = 0
        ∧ memsetZero e.color_memory_pool_ (cube32 N * vc) (a * cube32 N + j)
            = VectorCuda.mk3 0 0 0) := by
    intro e N vc
    have h1 : ∀ p : Int, 0 ≤ p → p < poolLength N vc →
        memsetZero e.tsdf_memory_pool_ (cube32 N * vc) p = 0
        ∧ memsetZero e.weight_memory_pool_ (cube32 N * vc) p = 0
        ∧ memsetZero e.color_memory_pool_ (cube32 N * vc) p = VectorCuda.mk3 0 0 0 := by
      intro p h0 h1
      refine ⟨memsetZero_inside _ _ _ h0 h1, memsetZero_inside _ _ _ h0 h1, ?_⟩
      exact (memsetZero_inside e.color_memory_pool_ (cube32 N * vc) p h0 h1).trans rfl
    refine ⟨h1, fun a j ha0 ha hj0 hj => ?_⟩
    obtain ⟨g0, g1⟩ := slot_position_in_pool (cube32 N) vc a j ha0 ha hj0 hj
    exact h1 _ g0 g1
  refine ⟨?_, cube32_eq vol.N_, ?_⟩
  · have hr : vol.Reset.device_ = some
        { d with
          tsdf_memory_pool_ :=
            memsetZero d.tsdf_memory_pool_ (cube32 vol.N_ * vol.value_capacity_)
          weight_memory_pool_ :=
            memsetZero d.weight_memory_pool_ (cube32 vol.N_ * vol.value_capacity_)
          color_memory_pool_ :=
            memsetZero d.color_memory_pool_ (cube32 vol.N_ * vol.value_capacity_) } := by
      simp only [ScalableTSDFVolumeCuda.Reset, hdev, Option.map_some']
    exact ⟨_, hr, key d vol.N_ vol.value_capacity_⟩
  · intro fresh vol0 N bucket_count value_capacity hnone
    simp only [ScalableTSDFVolumeCuda.Create, hnone, ScalableTSDFVolumeCuda.UpdateDevice,
      ScalableTSDFVolumeCuda.Reset, Option.map_some']
    refine ⟨trivial, _, rfl, ?_⟩
    exact key _ N value_capacity

/-- Witness for `Reset_zeroes_every_voxel_of_every_slot`: a volume with block side 2 and 3
slots whose pools hold 9 everywhere: afterwards position `23 = 2 * 2^3 + 7`, the last
voxel of the last slot, holds `(0, 0, (0,0,0))`. -/
theorem Reset_zeroes_every_voxel_of_every_slot_witness :
    (volumeOver () 2 3).device_ = some staleDevice
    ∧ staleDevice.tsdf_memory_pool_ 23 = 9
    ∧ ∃ d', (volumeOver () 2 3).Reset.device_ = some d'
      ∧ d'.tsdf_memory_pool_ 23 = 0 ∧ d'.weight_memory_pool_ 23 = 0
      ∧ d'.color_memory_pool_ 23 = VectorCuda.mk3 0 0 0 := by
  obtain ⟨⟨d', h, h1, -⟩, -, -⟩ :=
    Reset_zeroes_every_voxel_of_every_slot (fixedAddressOps []) (volumeOver () 2 3)
      staleDevice rfl
  exact ⟨rfl, by decide, d', h, h1 23 (by decide) (by decide)⟩

/-! ## Fusion of one voxel -/

/-- Fusing samples whose weights add up to no more than `WEIGHT_MAX` into a voxel
`(t, w)`: the weight becomes the sum of all weights, and the signed distance times that
weight is the weighted sum of the signed distances. -/
theorem fuse_foldl_sums (WEIGHT_MAX : Nat) (l : List (float × Nat)) :
    ∀ (t : float) (w : Nat), w + (l.map (fun s => s.2)).sum ≤ WEIGHT_MAX →
      (l.foldl (fuse WEIGHT_MAX) (t, w)).2 = w + (l.map (fun s => s.2)).sum
      ∧ (l.foldl (fuse WEIGHT_MAX) (t, w)).1 * ((w + (l.map (fun s => s.2)).sum : Nat) : float)
          = t * w + (l.map (fun s => s.1 * (s.2 : float))).sum := by
  induction l with
  | nil =>
    intro t w _
    simp
  | cons s l ih =>
    intro t w h
    simp only [List.map_cons, List.sum_cons] at h ⊢
    have hmin : min (w + s.2) WEIGHT_MAX = w + s.2 := min_eq_left (by omega)
    have hstep : fuse WEIGHT_MAX (t, w) s
        = ((t * w + s.1 * s.2) / ((w : float) + s.2), w + s.2) := by
      simp only [fuse, hmin]
    rw [List.foldl_cons, hstep]
    obtain ⟨h1, h2⟩ := ih ((t * w + s.1 * s.2) / ((w : float) + s.2)) (w + s.2) (by omega)
    refine ⟨by rw [h1]; omega, ?_⟩
    have e : w + (s.2 + (l.map (fun s => s.2)).sum) = w + s.2 + (l.map (fun s => s.2)).sum := by
      omega
    rw [e, h2]
    have hcancel : (t * w + s.1 * s.2) / ((w : float) + s.2) * ((w + s.2 : Nat) : float)
        = t * w + s.1 * s.2 := by
      by_cases hz : w + s.2 = 0
      · have hw : w = 0 := by omega
        have hs : s.2 = 0 := by omega
        rw [hw, hs]
        simp
      · have hne : ((w : float) + s.2) ≠ 0 := by
          have : ((w + s.2 : Nat) : float) ≠ 0 := Nat.cast_ne_zero.mpr hz
          simpa using this
        rw [Nat.cast_add, div_mul_cancel₀ _ hne]
    rw [hcancel]
    ring

/-- C15: for every `WEIGHT_MAX` of at least 4, fusing the three samples
`(0.1, 1), (0.2, 1), (-0.1, 2)` into an empty voxel gives signed distance `0.025` and
weight `4` in every order of integration; there are six orders. -/
theorem fusion_of_three_samples_is_order_independent (WEIGHT_MAX : Nat)
    (hmax : 4 ≤ WEIGHT_MAX) :
    (∀ l : List (float × Nat), l.Perm fusionSamples → fuseAll WEIGHT_MAX l = (25 / 1000, 4))
    ∧ (∀ l ∈ fusionSamples.permutations, fuseAll WEIGHT_MAX l = (25 / 1000, 4))
    ∧ fusionSamples.permutations.length = 6 := by
  have main : ∀ l : List (float × Nat), l.Perm fusionSamples →
      fuseAll WEIGHT_MAX l = (25 / 1000, 4) := by
    intro l hl
    have hW : (l.map (fun s => s.2)).sum = 4 := by
      rw [(hl.map _).sum_eq]
      rfl
    have hS : (l.map (fun s => s.1 * (s.2 : float))).sum = 1 / 10 := by
      rw [(hl.map _).sum_eq]
      norm_num [fusionSamples]
    obtain ⟨h1, h2⟩ := fuse_foldl_sums WEIGHT_MAX l 0 0 (by omega)
    rw [hW] at h1
    rw [hS, hW] at h2
    have h3 : (fuseAll WEIGHT_MAX l).1 = 25 / 1000 := by
      have : (l.foldl (fuse WEIGHT_MAX) (0, 0)).1 * 4 = 1 / 10 := by
        have := h2
        norm_num at this
        linarith
      show (l.foldl (fuse WEIGHT_MAX) (0, 0)).1 = 25 / 1000
      linarith
    exact Prod.ext h3 (by simpa using h1)
  refine ⟨main, fun l hl => main l (List.mem_permutations.mp hl), ?_⟩
  rw [List.length_permutations]
  rfl

/-- Witness for `fusion_of_three_samples_is_order_independent`: `WEIGHT_MAX = 255` and two
of the orders. -/
theorem fusion_of_three_samples_is_order_independent_witness :
    (4 ≤ 255)
    ∧ fuseAll 255 [(-1 / 10, 2), (1 / 10, 1), (2 / 10, 1)] = (25 / 1000, 4)
    ∧ fuseAll 255 [(2 / 10, 1), (-1 / 10, 2), (1 / 10, 1)] = (25 / 1000, 4) :=
  ⟨by decide,
    (fusion_of_three_samples_is_order_independent 255 (by decide)).1 _
      ((List.Perm.swap _ _ _).trans ((List.Perm.swap _ _ _).cons _)),
    (fusion_of_three_samples_is_order_independent 255 (by decide)).1 _
      (((List.Perm.swap _ _ _).cons _).trans (List.Perm.swap _ _ _))⟩

/-! ## Repeated keys in a bulk upload -/

/-- C16 (amended): a bulk upload of any key list into a modelled table that satisfies the
invariants of the spec.  The table afterwards holds at most one live entry per block
coordinate.  For every position of the key list that was resolved, to the address `a`
say: the returned address list carries `a` at that position, and the table holds exactly
one live entry for the coordinate at that position, the one with slot address `a`.
Hence all resolved positions of one coordinate carry the same slot address; and when no
key is left unresolved, all positions of one coordinate do, and every coordinate of the
key list has exactly one live entry. -/
theorem UploadKeys_repeated_key_shares_one_entry (s : List (List Bool))
    (t0 : SpatialHashTable) (cap : Int) (hinv : t0.Inv cap) (keys : List Vector3i) :
    ((UploadKeysRun (SpatialHashTable.ops s) t0 keys).hash_table_.entries.map
        (fun e => e.1)).Nodup
    ∧ (∀ (i : Nat) (key : Vector3i) (a : Int), keys[i]? = some key →
        (UploadKeysRun (SpatialHashTable.ops s) t0 keys).ResolvedTo i a →
        (UploadKeys (SpatialHashTable.ops s) t0 keys)[i]? = some a
        ∧ (key, a) ∈ (UploadKeysRun (SpatialHashTable.ops s) t0 keys).hash_table_.entries
        ∧ ((UploadKeysRun (SpatialHashTable.ops s) t0 keys).hash_table_.entries.map
            (fun e => e.1)).count key = 1)
    ∧ (∀ (i i' : Nat) (key : Vector3i) (a a' : Int), keys[i]? = some key →
        keys[i']? = some key →
        (UploadKeysRun (SpatialHashTable.ops s) t0 keys).ResolvedTo i a →
        (UploadKeysRun (SpatialHashTable.ops s) t0 keys).ResolvedTo i' a' →
        a = a' ∧ (UploadKeys (SpatialHashTable.ops s) t0 keys)[i]?
          = (UploadKeys (SpatialHashTable.ops s) t0 keys)[i']?)
    ∧ ((UploadKeysRun (SpatialHashTable.ops s) t0 keys).unresolvedKeys = [] →
        ∀ (i i' : Nat) (key : Vector3i), keys[i]? = some key → keys[i']? = some key →
          (UploadKeys (SpatialHashTable.ops s) t0 keys)[i]?
            = (UploadKeys (SpatialHashTable.ops s) t0 keys)[i']?
          ∧ ((UploadKeysRun (SpatialHashTable.ops s) t0 keys).hash_table_.entries.map
              (fun e => e.1)).count key = 1) := by
  obtain ⟨m, hm1, -, -, hr, -, htab, -⟩ := UploadKeysRun_shape (SpatialHashTable.ops s) t0 keys
  obtain ⟨t1, -, -, t4⟩ := retryState_table s t0 cap hinv keys m
  rw [← htab] at t1 t4
  rw [retryState_rounds, ← hr] at t4
  obtain ⟨-, hC1⟩ := UploadKeysRun_resolved (SpatialHashTable.ops s) t0 keys
  have hentry : ∀ (i : Nat) (key : Vector3i) (a : Int), keys[i]? = some key →
      (UploadKeysRun (SpatialHashTable.ops s) t0 keys).ResolvedTo i a →
      (UploadKeys (SpatialHashTable.ops s) t0 keys)[i]? = some a
      ∧ (key, a) ∈ (UploadKeysRun (SpatialHashTable.ops s) t0 keys).hash_table_.entries
      ∧ ((UploadKeysRun (SpatialHashTable.ops s) t0 keys).hash_table_.entries.map
          (fun e => e.1)).count key = 1 := by
    rintro i key a hk ⟨rd, hrd, j, hi, ha, h0⟩
    obtain ⟨-, hkj, hva⟩ := hC1 rd hrd j i a hi ha h0
    have hmem := t4 rd hrd j key a (by rw [hkj]; exact hk) ha h0
    exact ⟨hva, hmem, List.count_eq_one_of_mem t1.key_nodup
      (List.mem_map.mpr ⟨(key, a), hmem, rfl⟩)⟩
  have hsame : ∀ (i i' : Nat) (key : Vector3i) (a a' : Int), keys[i]? = some key →
      keys[i']? = some key →
      (UploadKeysRun (SpatialHashTable.ops s) t0 keys).ResolvedTo i a →
      (UploadKeysRun (SpatialHashTable.ops s) t0 keys).ResolvedTo i' a' →
      a = a' ∧ (UploadKeys (SpatialHashTable.ops s) t0 keys)[i]?
        = (UploadKeys (SpatialHashTable.ops s) t0 keys)[i']? := by
    intro i i' key a a' hk hk' h h'
    obtain ⟨e1, e2, -⟩ := hentry i key a hk h
    obtain ⟨e1', e2', -⟩ := hentry i' key a' hk' h'
    have heq := List.inj_on_of_nodup_map t1.key_nodup e2 e2' rfl
    have haa : a = a' := congrArg Prod.snd heq
    subst haa
    exact ⟨rfl, e1.trans e1'.symm⟩
  refine ⟨t1.key_nodup, hentry, hsame, ?_⟩
  intro hres
  have hlenNew : ∀ (t : SpatialHashTable) (ks : List Vector3i),
      ((SpatialHashTable.ops s).New t ks).1.length = ks.length :=
    fun t ks => SpatialHashTable.insertAll_length ks _ _
  have hall : ∀ i, i < keys.length →
      ∃ a, (UploadKeysRun (SpatialHashTable.ops s) t0 keys).ResolvedTo i a := by
    intro i hi
    rw [unresolvedKeys_of_rounds (SpatialHashTable.ops s) t0 keys _ m hm1 hr] at hres
    have him : (retryState (SpatialHashTable.ops s) t0 keys m).index_map = [] := by
      rw [← List.length_eq_zero, (retryState_inv _ t0 keys m).len_im]
      exact List.length_eq_zero.mpr hres
    rcases retryState_pending_or_resolved (SpatialHashTable.ops s) t0 keys hlenNew
      m i hi with h | ⟨a, rd, hrd, h⟩
    · rw [him] at h; cases h
    · rw [retryState_rounds, ← hr] at hrd
      exact ⟨a, rd, hrd, h⟩
  have hlt : ∀ (i : Nat) (key : Vector3i), keys[i]? = some key → i < keys.length := by
    intro i key hk
    by_contra hcon
    rw [List.getElem?_eq_none (not_lt.mp hcon)] at hk
    cases hk
  intro i i' key hk hk'
  obtain ⟨a, ha⟩ := hall i (hlt i key hk)
  obtain ⟨a', ha'⟩ := hall i' (hlt i' key hk')
  exact ⟨(hsame i i' key a a' hk hk' ha ha').2, (hentry i key a hk ha).2.2⟩

/-- Witness for `UploadKeys_repeated_key_shares_one_entry`: the keys `(1,0,0)`, `(1,0,0)`,
`(0,0,0)`, `(1,0,0)` and a table with 4 free slots, where the second attempt of the first
round finds the lock taken: no key is left unresolved, positions 0 and 3 carry the same
address and the table holds `(1,0,0)` once. -/
theorem UploadKeys_repeated_key_shares_one_entry_witness :
    (SpatialHashTable.created [[false, true, false]] 1 4).Inv 4
    ∧ (UploadKeysRun (SpatialHashTable.ops [])
        (SpatialHashTable.created [[false, true, false]] 1 4)
        [keyX 1, keyX 1, keyX 0, keyX 1]).unresolvedKeys = []
    ∧ (UploadKeys (SpatialHashTable.ops [])
        (SpatialHashTable.created [[false, true, false]] 1 4)
        [keyX 1, keyX 1, keyX 0, keyX 1])[0]?
      = (UploadKeys (SpatialHashTable.ops [])
        (SpatialHashTable.created [[false, true, false]] 1 4)
        [keyX 1, keyX 1, keyX 0, keyX 1])[3]?
    ∧ ((UploadKeysRun (SpatialHashTable.ops [])
        (SpatialHashTable.created [[false, true, false]] 1 4)
        [keyX 1, keyX 1, keyX 0, keyX 1]).hash_table_.entries.map (fun e => e.1)).count
          (keyX 1) = 1 :=
  ⟨⟨by decide, by decide, by decide⟩, by decide,
    ((UploadKeys_repeated_key_shares_one_entry [] _ 4 ⟨by decide, by decide, by decide⟩
      [keyX 1, keyX 1, keyX 0, keyX 1]).2.2.2 (by decide) 0 3 (keyX 1) rfl rfl).1,
    ((UploadKeys_repeated_key_shares_one_entry [] _ 4 ⟨by decide, by decide, by decide⟩
      [keyX 1, keyX 1, keyX 0, keyX 1]).2.2.2 (by decide) 0 3 (keyX 1) rfl rfl).2⟩

/-- C16 (as stated, at a concrete input): the key list `(0,0,0)` followed by eleven times
`(1,0,0)`, a table with two free slots, and races in which one attempt per round gets
the lock.  After `UploadKeys` the table holds one live entry for `(1,0,0)`, with slot
address 1, but the positions of `(1,0,0)` in the returned address list do not all carry
the same address: the last two positions were never resolved and carry 0, the slot
address of `(0,0,0)`. -/
theorem UploadKeys_repeated_key_gets_two_addresses :
    (SpatialHashTable.created (oneWinnerPerRound 10 11) 1 2).Inv 2
    ∧ (UploadKeysRun (SpatialHashTable.ops [])
        (SpatialHashTable.created (oneWinnerPerRound 10 11) 1 2)
        repeatedKeys).hash_table_.entries = [(keyX 0, 0), (keyX 1, 1)]
    ∧ UploadKeys (SpatialHashTable.ops [])
        (SpatialHashTable.created (oneWinnerPerRound 10 11) 1 2) repeatedKeys
      = [0, 1, 1, 1, 1, 1, 1, 1, 1, 1, 0, 0]
    ∧ repeatedKeys[1]? = some (keyX 1) ∧ repeatedKeys[11]? = some (keyX 1)
    ∧ (UploadKeys (SpatialHashTable.ops [])
        (SpatialHashTable.created (oneWinnerPerRound 10 11) 1 2) repeatedKeys)[1]?
      ≠ (UploadKeys (SpatialHashTable.ops [])
        (SpatialHashTable.created (oneWinnerPerRound 10 11) 1 2) repeatedKeys)[11]?
    ∧ (UploadKeysRun (SpatialHashTable.ops [])
        (SpatialHashTable.created (oneWinnerPerRound 10 11) 1 2)
        repeatedKeys).unresolvedKeys = [keyX 1, keyX 1] :=
  ⟨⟨by decide, by decide, by decide⟩, by set_option maxRecDepth 1000000 in decide⟩

/-! ## Equality of block keys -/

/-- The loop of `operator==` returns `true` exactly when the components agree at every
index the loop still visits. -/
theorem VectorCuda.eqLoop_iff {T : Type} [DecidableEq T] [Inhabited T] {N : Nat}
    (a b : VectorCuda T N) (n : Nat) :
    ∀ i, VectorCuda.eqLoop a b i n = true ↔ ∀ k, i ≤ k → k < i + n → a.get k = b.get k := by
  induction n with
  | zero =>
    intro i
    simp only [VectorCuda.eqLoop, true_iff]
    intro k h1 h2
    omega
  | succ n ih =>
    intro i
    simp only [VectorCuda.eqLoop]
    by_cases h : a.get i = b.get i
    · rw [if_neg (not_not.mpr h), ih (i + 1)]
      constructor
      · intro hk k h1 h2
        by_cases hki : k = i
        · rw [hki]; exact h
        · exact hk k (by omega) (by omega)
      · intro hk k h1 h2
        exact hk k (by omega) (by omega)
    · rw [if_pos h]
      constructor
      · intro hf; cases hf
      · intro hk
        exact absurd (hk i (le_refl _) (by omega)) h

theorem VectorCuda.operator_eq_iff {T : Type} [DecidableEq T] [Inhabited T] {N : Nat}
    (a b : VectorCuda T N) :
    a.operator_eq b = true ↔ ∀ i, i < N → a.get i = b.get i := by
  unfold VectorCuda.operator_eq
  rw [VectorCuda.eqLoop_iff]
  constructor
  · intro h i hi
    exact h i (Nat.zero_le _) (by omega)
  · intro h k _ hk
    exact h k (by omega)

theorem VectorCuda.operator_eq_iff_eq {T : Type} [DecidableEq T] [Inhabited T] {N : Nat}
    (a b : VectorCuda T N) : a.operator_eq b = true ↔ a = b := by
  rw [VectorCuda.operator_eq_iff]
  constructor
  · intro h
    have hv : a.v = b.v := by
      apply List.ext_getElem (by rw [a.size_eq, b.size_eq])
      intro i h1 h2
      have := h i (by rw [← a.size_eq]; exact h1)
      simp only [VectorCuda.get, List.getD_eq_getElem?_getD, List.getElem?_eq_getElem h1,
        List.getElem?_eq_getElem h2, Option.getD_some] at this
      exact this
    cases a
    cases b
    simp only at hv
    subst hv
    rfl
  · intro h i _
    rw [h]

/-- C17: for block keys `a`, `b` (`Vector3i`), `a == b` holds iff `a(i)` equals `b(i)` for
`i = 0, 1, 2` (which is to say, iff `a` and `b` are the same key); `a != b` is the negation
of `a == b`; and `==` is reflexive, symmetric and transitive. -/
theorem Vector3i_equality_is_componentwise (a b c : Vector3i) :
    (a.operator_eq b = true ↔ a.get 0 = b.get 0 ∧ a.get 1 = b.get 1 ∧ a.get 2 = b.get 2)
    ∧ (a.operator_eq b = true ↔ ∀ i, i < 3 → a.get i = b.get i)
    ∧ (a.operator_eq b = true ↔ a = b)
    ∧ a.operator_ne b = !(a.operator_eq b)
    ∧ (a.operator_ne b = true ↔ ¬ (a.operator_eq b = true))
    ∧ a.operator_eq a = true
    ∧ (a.operator_eq b = true → b.operator_eq a = true)
    ∧ (a.operator_eq b = true → b.operator_eq c = true → a.operator_eq c = true) := by
  refine ⟨?_, VectorCuda.operator_eq_iff a b, VectorCuda.operator_eq_iff_eq a b, rfl, ?_,
    (VectorCuda.operator_eq_iff_eq a a).mpr rfl, ?_, ?_⟩
  · rw [VectorCuda.operator_eq_iff]
    constructor
    · intro h
      exact ⟨h 0 (by decide), h 1 (by decide), h 2 (by decide)⟩
    · rintro ⟨h0, h1, h2⟩ i hi
      obtain rfl | rfl | rfl : i = 0 ∨ i = 1 ∨ i = 2 := by omega
      · exact h0
      · exact h1
      · exact h2
  · simp [VectorCuda.operator_ne]
  · intro h
    exact (VectorCuda.operator_eq_iff_eq b a).mpr ((VectorCuda.operator_eq_iff_eq a b).mp h).symm
  · intro h1 h2
    exact (VectorCuda.operator_eq_iff_eq a c).mpr
      (((VectorCuda.operator_eq_iff_eq a b).mp h1).trans
        ((VectorCuda.operator_eq_iff_eq b c).mp h2))

/-! ## Pool addressing -/

/-- The offset at which the loop body of `UploadVolumes` copies is `uploadOffset`. -/
theorem uploadVolumesBody_offset (NNN : Int) (values : List ScalableTSDFVolumeCpuData)
    (value_addrs : List Int) (acc : Bool × ScalableTSDFVolumeCudaDevice) (i : Nat) :
    uploadVolumesBody NNN values value_addrs acc i
      = if value_addrs.getD i 0 < 0 then (false, acc.2)
        else
          (acc.1,
            { acc.2 with
              tsdf_memory_pool_ := memcpyHostToDevice acc.2.tsdf_memory_pool_
                (uploadOffset NNN (value_addrs.getD i 0)) (values.getD i default).tsdf_
                NNN.toNat
              weight_memory_pool_ := memcpyHostToDevice acc.2.weight_memory_pool_
                (uploadOffset NNN (value_addrs.getD i 0)) (values.getD i default).weight_
                NNN.toNat
              color_memory_pool_ := memcpyHostToDevice acc.2.color_memory_pool_
                (uploadOffset NNN (value_addrs.getD i 0)) (values.getD i default).color_
                NNN.toNat }) :=
  rfl

theorem slot_ranges_disjoint (NNN a a' j j' : Int) (hj0 : 0 ≤ j) (hj : j < NNN)
    (hj0' : 0 ≤ j') (hj' : j' < NNN) (hne : a ≠ a') : a * NNN + j ≠ a' * NNN + j' := by
  intro h
  rcases lt_or_gt_of_ne hne with hlt | hgt
  · have h2 : (a + 1) * NNN ≤ a' * NNN := mul_le_mul_of_nonneg_right (by omega) (by omega)
    have h3 : (a + 1) * NNN = a * NNN + NNN := by ring
    omega
  · have h2 : (a' + 1) * NNN ≤ a * NNN := mul_le_mul_of_nonneg_right (by omega) (by omega)
    have h3 : (a' + 1) * NNN = a' * NNN + NNN := by ring
    omega

/-- C18: for a slot address `a` in `[0, value_capacity)` and a local index `j` in
`[0, N^3)`: the flat index `a * N^3 + j` lies in `[0, N^3 * value_capacity)`; it differs
from the flat index of every local index of every other slot address; and when
`N^3 * value_capacity ≤ 2^31 - 1`, the `int` that the code computes as `N_ * N_ * N_` is
`N^3`, the pool length that `Create` allocates is `N^3 * value_capacity`, and the `int`
offset `NNN * addr` of `UploadVolumes` is the exact product `N^3 * a`. -/
theorem pool_addressing_in_bounds_and_disjoint (N value_capacity a j : Int) (ha0 : 0 ≤ a)
    (ha : a < value_capacity) (hj0 : 0 ≤ j) (hj : j < N ^ 3) :
    (0 ≤ a * N ^ 3 + j ∧ a * N ^ 3 + j < N ^ 3 * value_capacity)
    ∧ (∀ a' j' : Int, 0 ≤ a' → a' < value_capacity → 0 ≤ j' → j' < N ^ 3 → a ≠ a' →
        a * N ^ 3 + j ≠ a' * N ^ 3 + j')
    ∧ (N ^ 3 * value_capacity ≤ 2147483647 →
        cube32 N = N ^ 3 ∧ poolLength N value_capacity = N ^ 3 * value_capacity
        ∧ uploadOffset (cube32 N) a = N ^ 3 * a
        ∧ 0 ≤ uploadOffset (cube32 N) a + j
        ∧ uploadOffset (cube32 N) a + j < poolLength N value_capacity) := by
  have hin := slot_position_in_pool (N ^ 3) value_capacity a j ha0 ha hj0 hj
  refine ⟨hin, fun a' j' _ _ hj0' hj' hne => slot_ranges_disjoint _ a a' j j' hj0 hj hj0' hj' hne,
    ?_⟩
  intro hfit
  have hN : 0 ≤ N := by
    by_contra hcon
    have : N ^ 3 ≤ 0 := Odd.pow_nonpos (by decide) (by omega)
    omega
  have h3 : N ^ 3 ≤ N ^ 3 * value_capacity := le_mul_of_one_le_right (by omega) (by omega)
  have hc : cube32 N = N ^ 3 := cube32_eq N hN (by omega)
  have ha3 : N ^ 3 * a ≤ N ^ 3 * value_capacity :=
    mul_le_mul_of_nonneg_left (by omega) (by omega)
  have ha3' : 0 ≤ N ^ 3 * a := mul_nonneg (by omega) ha0
  have ho : uploadOffset (cube32 N) a = N ^ 3 * a := by
    unfold uploadOffset
    rw [hc]
    exact wrapInt32_eq _ (by omega) (by omega)
  have hp : poolLength N value_capacity = N ^ 3 * value_capacity := by
    unfold poolLength
    rw [hc]
  have hcomm : N ^ 3 * a = a * N ^ 3 := mul_comm _ _
  refine ⟨hc, hp, ho, ?_, ?_⟩
  · rw [ho, hcomm]; exact hin.1
  · rw [ho, hp, hcomm]; exact hin.2

/-- Witness for `pool_addressing_in_bounds_and_disjoint`: block side 8, 4 slots, slot
address 3, local index 511. -/
theorem pool_addressing_in_bounds_and_disjoint_witness :
    ((0 : Int) ≤ 3 ∧ (3 : Int) < 4 ∧ (0 : Int) ≤ 511 ∧ (511 : Int) < 8 ^ 3)
    ∧ uploadOffset (cube32 8) 3 = 8 ^ 3 * 3
    ∧ poolLength 8 4 = 8 ^ 3 * 4 :=
  ⟨by decide,
    ((pool_addressing_in_bounds_and_disjoint 8 4 3 511 (by decide) (by decide) (by decide)
      (by decide)).2.2 (by decide)).2.2.1,
    ((pool_addressing_in_bounds_and_disjoint 8 4 3 511 (by decide) (by decide) (by decide)
      (by decide)).2.2 (by decide)).2.1⟩

section OwnershipLemmas

theorem Ownership.getD_some (w : Ownership) (i p : Nat)
    (h : w.device_.getD i none = some p) :
    ∃ hi : i < w.device_.length, w.device_[i] = some p := by
  by_cases hi : i < w.device_.length
  · refine ⟨hi, ?_⟩
    rw [List.getD_eq_getElem?_getD, List.getElem?_eq_getElem hi] at h
    exact h
  · rw [List.getD_eq_getElem?_getD, List.getElem?_eq_none (by omega)] at h
    cases h

theorem Ownership.getD_none (w : Ownership) (i : Nat) (hi : i < w.device_.length)
    (h : w.device_.getD i none = none) : w.device_[i] = none := by
  rw [List.getD_eq_getElem?_getD, List.getElem?_eq_getElem hi] at h
  exact h

theorem Ownership.Inv.pointer {w : Ownership} (hw : w.Inv) (i p : Nat)
    (h : w.device_.getD i none = some p) :
    p = 0 ∧ 1 ≤ w.holders 0 ∧ ∃ hi : i < w.device_.length, w.device_[i] = some 0 := by
  obtain ⟨hi, hp⟩ := w.getD_some i p h
  have hmem : some p ∈ w.device_ := hp ▸ List.getElem_mem hi
  have hp0 : p = 0 := by
    rcases hw.view0 _ hmem with h1 | h1
    · cases h1
    · exact Option.some_injective _ h1
  subst hp0
  exact ⟨rfl, List.count_pos_iff.mpr hmem, hi, hp⟩

theorem Ownership.count_set_none (l : List (Option Nat)) (i : Nat) (hi : i < l.length)
    (h : l[i] = some 0) : (l.set i none).count (some 0) = l.count (some 0) - 1 := by
  rw [List.count_set _ _ _ _ hi, h]
  simp

theorem Ownership.count_set_some (l : List (Option Nat)) (i : Nat) (hi : i < l.length)
    (h : l[i] = none) : (l.set i (some 0)).count (some 0) = l.count (some 0) + 1 := by
  rw [List.count_set _ _ _ _ hi, h]
  simp

theorem Ownership.resetPtr_of_none (w : Ownership) (i : Nat)
    (h : w.device_.getD i none = none) : w.resetPtr i = w := by
  simp only [Ownership.resetPtr, h]

theorem Ownership.resetPtr_of_some (w : Ownership) (i p : Nat)
    (h : w.device_.getD i none = some p) :
    w.resetPtr i
      = { w with
          device_ := w.device_.set i none
          use_count := Function.update w.use_count p (w.use_count p - 1) } := by
  simp only [Ownership.resetPtr, h]

theorem Ownership.resetPtr_freed (w : Ownership) (i : Nat) : (w.resetPtr i).freed = w.freed := by
  cases h : w.device_.getD i none with
  | none => rw [w.resetPtr_of_none i h]
  | some p => rw [w.resetPtr_of_some i p h]

theorem Ownership.resetPtr_length (w : Ownership) (i : Nat) :
    (w.resetPtr i).device_.length = w.device_.length := by
  cases h : w.device_.getD i none with
  | none => rw [w.resetPtr_of_none i h]
  | some p => rw [w.resetPtr_of_some i p h]; exact List.length_set _ _ _

theorem Ownership.resetPtr_getD (w : Ownership) (i : Nat) :
    (w.resetPtr i).device_.getD i none = none := by
  cases h : w.device_.getD i none with
  | none => rw [w.resetPtr_of_none i h]; exact h
  | some p =>
    rw [w.resetPtr_of_some i p h]
    obtain ⟨hi, -⟩ := w.getD_some i p h
    show (w.device_.set i none).getD i none = none
    rw [List.getD_eq_getElem?_getD, List.getElem?_set]
    simp [hi]

theorem Ownership.resetPtr_inv {w : Ownership} (hw : w.Inv) (i : Nat) : (w.resetPtr i).Inv := by
  cases h : w.device_.getD i none with
  | none => rw [w.resetPtr_of_none i h]; exact hw
  | some p =>
    obtain ⟨rfl, h1, hi, hp⟩ := hw.pointer i p h
    rw [w.resetPtr_of_some i 0 h]
    have hcount : (w.device_.set i none).count (some 0) = w.holders 0 - 1 :=
      Ownership.count_set_none _ i hi hp
    refine ⟨?_, ?_, hw.once, ?_, hw.sole⟩
    · intro o ho
      rcases List.mem_or_eq_of_mem_set ho with h2 | h2
      · exact hw.view0 o h2
      · exact Or.inl h2
    · show Function.update w.use_count 0 (w.use_count 0 - 1) 0 = _
      rw [Function.update_same, hw.count]
      exact hcount.symm
    · intro hf
      show (w.device_.set i none).count (some 0) = 0
      rw [hcount, hw.gone hf]

theorem Ownership.Release_of_none (w : Ownership) (i : Nat)
    (h : w.device_.getD i none = none) : w.Release i = w := by
  simp only [Ownership.Release, h]
  exact w.resetPtr_of_none i h

theorem Ownership.Release_of_shared (w : Ownership) (i p : Nat)
    (h : w.device_.getD i none = some p) (hc : w.use_count p ≠ 1) :
    w.Release i = w.resetPtr i := by
  simp only [Ownership.Release, h, if_neg hc]

theorem Ownership.Release_of_sole (w : Ownership) (i p : Nat)
    (h : w.device_.getD i none = some p) (hc : w.use_count p = 1) :
    w.Release i
      = { device_ := w.device_.set i none
          use_count := Function.update w.use_count p (w.use_count p - 1)
          freed := w.freed ++ [⟨i, p, w.use_count p, w.holders p⟩] } := by
  simp only [Ownership.Release, h, if_pos hc]
  exact Ownership.resetPtr_of_some _ i p h

theorem Ownership.Release_length (w : Ownership) (i : Nat) :
    (w.Release i).device_.length = w.device_.length := by
  cases h : w.device_.getD i none with
  | none => rw [w.Release_of_none i h]
  | some p =>
    by_cases hc : w.use_count p = 1
    · rw [w.Release_of_sole i p h hc]; exact List.length_set _ _ _
    · rw [w.Release_of_shared i p h hc]; exact w.resetPtr_length i

theorem Ownership.Release_getD (w : Ownership) (i : Nat) :
    (w.Release i).device_.getD i none = none := by
  cases h : w.device_.getD i none with
  | none => rw [w.Release_of_none i h]; exact h
  | some p =>
    by_cases hc : w.use_count p = 1
    · rw [w.Release_of_sole i p h hc]
      obtain ⟨hi, -⟩ := w.getD_some i p h
      show (w.device_.set i none).getD i none = none
      rw [List.getD_eq_getElem?_getD, List.getElem?_set]
      simp [hi]
    · rw [w.Release_of_shared i p h hc]; exact w.resetPtr_getD i

theorem Ownership.Release_inv {w : Ownership} (hw : w.Inv) (i : Nat) : (w.Release i).Inv := by
  cases h : w.device_.getD i none with
  | none => rw [w.Release_of_none i h]; exact hw
  | some p =>
    obtain ⟨rfl, h1, hi, hp⟩ := hw.pointer i p h
    by_cases hc : w.use_count 0 = 1
    · rw [w.Release_of_sole i 0 h hc]
      have hh : w.holders 0 = 1 := by rw [← hw.count]; exact hc
      have hfreed : w.freed = [] := by
        by_contra hne
        have := hw.gone hne
        omega
      have hcount : (w.device_.set i none).count (some 0) = w.holders 0 - 1 :=
        Ownership.count_set_none _ i hi hp
      refine ⟨?_, ?_, ?_, ?_, ?_⟩
      · intro o ho
        rcases List.mem_or_eq_of_mem_set ho with h2 | h2
        · exact hw.view0 o h2
        · exact Or.inl h2
      · show Function.update w.use_count 0 (w.use_count 0 - 1) 0 = _
        rw [Function.update_same, hw.count]
        exact hcount.symm
      · show (w.freed ++ [_]).length ≤ 1
        rw [hfreed]
        exact le_refl _
      · intro _
        show (w.device_.set i none).count (some 0) = 0
        rw [hcount, hh]
      · intro r hr
        have hr' : r ∈ w.freed ++ [⟨i, 0, w.use_count 0, w.holders 0⟩] := hr
        rw [hfreed, List.nil_append, List.mem_singleton] at hr'
        subst hr'
        exact ⟨rfl, hc, hh⟩
    · rw [w.Release_of_shared i 0 h hc]
      exact Ownership.resetPtr_inv hw i

theorem Ownership.assignPtr_inv {w : Ownership} (hw : w.Inv) (i j : Nat)
    (hi : i < w.device_.length) : (w.assignPtr i j).Inv := by
  cases hj : w.device_.getD j none with
  | none =>
    simp only [Ownership.assignPtr, hj]
    exact Ownership.resetPtr_inv hw i
  | some p =>
    obtain ⟨rfl, h1, -, -⟩ := hw.pointer j p hj
    have hfreed : w.freed = [] := by
      by_contra hne
      have := hw.gone hne
      omega
    have hw' := Ownership.resetPtr_inv hw i
    have hi' : i < (w.resetPtr i).device_.length := by rw [w.resetPtr_length]; exact hi
    have hnone : (w.resetPtr i).device_[i] = none :=
      Ownership.getD_none _ i hi' (w.resetPtr_getD i)
    have hcount : ((w.resetPtr i).device_.set i (some 0)).count (some 0)
        = (w.resetPtr i).holders 0 + 1 := Ownership.count_set_some _ i hi' hnone
    have hf' : (w.resetPtr i).freed = [] := by rw [w.resetPtr_freed, hfreed]
    simp only [Ownership.assignPtr, hj]
    refine ⟨?_, ?_, ?_, ?_, ?_⟩
    · intro o ho
      rcases List.mem_or_eq_of_mem_set ho with h2 | h2
      · exact hw'.view0 o h2
      · exact Or.inr h2
    · show Function.update (w.resetPtr i).use_count 0 ((w.resetPtr i).use_count 0 + 1) 0 = _
      rw [Function.update_same, hw'.count]
      exact hcount.symm
    · show (w.resetPtr i).freed.length ≤ 1
      exact hw'.once
    · intro hne
      exact absurd hf' hne
    · intro r hr
      exact hw'.sole r hr

theorem Ownership.step_inv {w : Ownership} (hw : w.Inv) (op : OwnershipOp) :
    (w.step op).Inv := by
  cases op with
  | copyConstruct j =>
    simp only [Ownership.step]
    split
    · have h0 : Ownership.Inv { w with device_ := w.device_ ++ [none] } := by
        refine ⟨?_, ?_, hw.once, ?_, hw.sole⟩
        · intro o ho
          rcases List.mem_append.mp ho with h1 | h1
          · exact hw.view0 o h1
          · exact Or.inl (List.mem_singleton.mp h1)
        · show w.use_count 0 = (w.device_ ++ [none]).count (some 0)
          rw [List.count_append, hw.count]
          rfl
        · intro hf
          show (w.device_ ++ [none]).count (some 0) = 0
          rw [List.count_append]
          have := hw.gone hf
          unfold Ownership.holders at this
          rw [this]
          rfl
      exact Ownership.assignPtr_inv h0 _ j
        (by show w.device_.length < (w.device_ ++ [none]).length
            rw [List.length_append, List.length_singleton]; omega)
    · exact hw
  | assign i j =>
    simp only [Ownership.step]
    split
    · rename_i hij
      unfold Ownership.assign
      split
      · exact Ownership.assignPtr_inv (Ownership.Release_inv hw i) i j
          (by rw [w.Release_length]; exact hij.1)
      · exact hw
    · exact hw
  | Release i =>
    simp only [Ownership.step]
    split
    · exact Ownership.Release_inv hw i
    · exact hw

theorem Ownership.created_inv : Ownership.created.Inv :=
  ⟨fun _ ho => Or.inr (List.mem_singleton.mp ho), rfl, Nat.zero_le _,
    fun h => absurd rfl h, fun r hr => absurd hr (List.not_mem_nil r)⟩

theorem Ownership.run_inv (ops : List OwnershipOp) :
    ∀ w : Ownership, w.Inv → (w.run ops).Inv := by
  induction ops with
  | nil => intro w hw; exact hw
  | cons op ops ih =>
    intro w hw
    exact ih (w.step op) (Ownership.step_inv hw op)

end OwnershipLemmas

/-! ## Ownership of the device view -/

/-- C19: start from one created volume and run any sequence of copy constructions, copy
assignments and `Release`s.  Then every run of the `cudaFree`s was in a `Release` that
read use count 1 while its volume was the only one pointing at the view; the pools were
freed at most once; once they are freed no volume points at the view; the use count
is the number of volumes pointing at the view.  After `Release` the `device_` of the volume
is null, a second `Release` frees nothing, and neither does a self-assignment (which
changes nothing).  (And the pools do get freed: `Release` by the only holder frees them,
`Release` by one of several holders does not.) -/
theorem device_view_is_freed_once_by_its_last_holder (ops : List OwnershipOp) :
    (∀ r ∈ (Ownership.created.run ops).freed, r.use_count = 1 ∧ r.holders = 1 ∧ r.view = 0)
    ∧ (Ownership.created.run ops).freed.length ≤ 1
    ∧ ((Ownership.created.run ops).freed ≠ [] →
        ∀ i, (Ownership.created.run ops).device_.getD i none = none)
    ∧ (Ownership.created.run ops).use_count 0 = (Ownership.created.run ops).holders 0
    ∧ (∀ i, ((Ownership.created.run ops).step (OwnershipOp.Release i)).device_.getD i none
        = none)
    ∧ (∀ i, (((Ownership.created.run ops).step (OwnershipOp.Release i)).step
          (OwnershipOp.Release i)).freed
        = ((Ownership.created.run ops).step (OwnershipOp.Release i)).freed)
    ∧ (∀ i, (Ownership.created.run ops).step (OwnershipOp.assign i i)
        = Ownership.created.run ops)
    ∧ (∀ i, (Ownership.created.run ops).device_.getD i none = some 0 →
        (((Ownership.created.run ops).holders 0 = 1 →
          ((Ownership.created.run ops).step (OwnershipOp.Release i)).freed
            = (Ownership.created.run ops).freed ++ [⟨i, 0, 1, 1⟩])
        ∧ ((Ownership.created.run ops).holders 0 ≠ 1 →
          ((Ownership.created.run ops).step (OwnershipOp.Release i)).freed
            = (Ownership.created.run ops).freed))) := by
  have hw := Ownership.run_inv ops _ Ownership.created_inv
  generalize Ownership.created.run ops = w at hw
  have hrel : ∀ i, (w.step (OwnershipOp.Release i)).device_.getD i none = none := by
    intro i
    simp only [Ownership.step]
    split
    · exact w.Release_getD i
    · rename_i hi
      rw [List.getD_eq_getElem?_getD, List.getElem?_eq_none (by omega)]
      rfl
  refine ⟨fun r hr => ⟨(hw.sole r hr).2.1, (hw.sole r hr).2.2, (hw.sole r hr).1⟩, hw.once, ?_,
    hw.count, hrel, ?_, ?_, ?_⟩
  · intro hf i
    have h0 := hw.gone hf
    cases h : w.device_.getD i none with
    | none => rfl
    | some p =>
      obtain ⟨-, h1, -⟩ := hw.pointer i p h
      omega
  · intro i
    have h1 := hrel i
    generalize w.step (OwnershipOp.Release i) = w1 at h1
    simp only [Ownership.step]
    split
    · rw [w1.Release_of_none i h1]
    · rfl
  · intro i
    simp only [Ownership.step, Ownership.assign, ne_eq, not_true_eq_false, if_false, ite_self]
  · intro i hi
    obtain ⟨hlt, -⟩ := w.getD_some i 0 hi
    simp only [Ownership.step, if_pos hlt]
    constructor
    · intro hh
      have hc : w.use_count 0 = 1 := by rw [hw.count]; exact hh
      rw [w.Release_of_sole i 0 hi hc, hc, hh]
    · intro hh
      have hc : w.use_count 0 ≠ 1 := by rw [hw.count]; exact hh
      rw [w.Release_of_shared i 0 hi hc, w.resetPtr_freed]

/-- An instance: a copy is made, the original is released (nothing is freed, the copy
still holds the view), the copy is assigned to itself, and the copy is released, which
frees the pools; one more `Release` of the copy frees nothing. -/
theorem Ownership_copy_release_release :
    (Ownership.created.run [OwnershipOp.copyConstruct 0, OwnershipOp.Release 0]).freed = []
    ∧ (Ownership.created.run [OwnershipOp.copyConstruct 0, OwnershipOp.Release 0]).device_
        = [none, some 0]
    ∧ (Ownership.created.run [OwnershipOp.copyConstruct 0, OwnershipOp.Release 0,
        OwnershipOp.assign 1 1, OwnershipOp.Release 1]).freed = [⟨1, 0, 1, 1⟩]
    ∧ (Ownership.created.run [OwnershipOp.copyConstruct 0, OwnershipOp.Release 0,
        OwnershipOp.assign 1 1, OwnershipOp.Release 1, OwnershipOp.Release 1]).freed
        = [⟨1, 0, 1, 1⟩]
    ∧ (Ownership.created.run [OwnershipOp.copyConstruct 0, OwnershipOp.Release 0,
        OwnershipOp.assign 1 1, OwnershipOp.Release 1, OwnershipOp.Release 1]).device_
        = [none, none] := by
  decide

/-! ## The warning of UploadKeys -/

theorem Round.events_filter_isWarning (rd : Round) : rd.events.filter Event.isWarning = [] :=
  rfl

/-- When `UploadKeys` warns: exactly when round 10 is the first round in which `New`
resolves every key it is given. -/
theorem UploadKeysRun_warning_iff {σ : Type} (ht : HashTableCuda σ) (table : σ)
    (keys : List Vector3i) :
    ((roundAt ht table keys 9).allResolved
        ∧ (∀ k, k < 9 → ¬ (roundAt ht table keys k).allResolved) →
      (UploadKeysRun ht table keys).log.filter Event.isWarning
        = [Event.LogWarning (roundAt ht table keys 9).keys_to_attempt.length])
    ∧ (¬ ((roundAt ht table keys 9).allResolved
        ∧ (∀ k, k < 9 → ¬ (roundAt ht table keys k).allResolved)) →
      (UploadKeysRun ht table keys).log.filter Event.isWarning = []) := by
  have hflat : ∀ m, (((List.range m).map (roundAt ht table keys)).flatMap
      Round.events).filter Event.isWarning = [] := by
    intro m
    rw [filter_flatMap_events]
    simp only [Round.events_filter_isWarning]
    induction (List.range m).map (roundAt ht table keys) with
    | nil => rfl
    | cons x l ih => simp [ih]
  obtain ⟨m, hm1, hm10, hnot, -, -, -, hcase⟩ := UploadKeysRun_shape ht table keys
  have hk : kTotalAttempt = 10 := rfl
  rw [hk] at hm10 hcase
  rcases hcase with ⟨hall, -, -, hlog⟩ | ⟨hm, hnall, -, -, hlog⟩
  · rw [hlog, List.filter_append, hflat, List.nil_append]
    by_cases h10 : m = 10
    · subst h10
      rw [if_pos rfl]
      exact ⟨fun _ => rfl, fun hc => absurd ⟨hall, fun k hk => hnot k (by omega)⟩ hc⟩
    · rw [if_neg h10]
      exact ⟨fun hc => absurd hall (hc.2 (m - 1) (by omega)), fun _ => rfl⟩
  · rw [hlog, hflat]
    subst hm
    exact ⟨fun hc => absurd hc.1 hnall, fun _ => rfl⟩

/-- C20 (the code at the failing input): ten keys that share a bucket, a table with ten
free slots, and races in which one attempt per round gets the lock.  Every key is
resolved, the last one in round 10 (no key is unresolved, the table holds all ten), and
`UploadKeys` warns that 1 subvolume may fail to be inserted.  In general, for every
behaviour of the table, `UploadKeys` warns exactly when round 10 is the first round in
which every key given to `New` is resolved, and never when keys are left unresolved. -/
theorem UploadKeys_warns_when_last_key_is_resolved_in_round_ten :
    ((UploadKeysRun (SpatialHashTable.ops [])
        (SpatialHashTable.created (oneWinnerPerRound 10 10) 1 10) (keysX 10)).rounds.length = 10
      ∧ (UploadKeysRun (SpatialHashTable.ops [])
        (SpatialHashTable.created (oneWinnerPerRound 10 10) 1 10) (keysX 10)).unresolvedKeys = []
      ∧ (UploadKeysRun (SpatialHashTable.ops [])
        (SpatialHashTable.created (oneWinnerPerRound 10 10) 1 10) (keysX 10)).value_addrs
          = [0, 1, 2, 3, 4, 5, 6, 7, 8, 9]
      ∧ (UploadKeysRun (SpatialHashTable.ops [])
        (SpatialHashTable.created (oneWinnerPerRound 10 10) 1 10)
          (keysX 10)).hash_table_.entries.map (fun e => e.1) = keysX 10
      ∧ (UploadKeysRun (SpatialHashTable.ops [])
        (SpatialHashTable.created (oneWinnerPerRound 10 10) 1 10) (keysX 10)).attempt = 10
      ∧ (UploadKeysRun (SpatialHashTable.ops [])
        (SpatialHashTable.created (oneWinnerPerRound 10 10) 1 10) (keysX 10)).log.filter
          Event.isWarning = [Event.LogWarning 1])
    ∧ ∀ (σ : Type) (ht : HashTableCuda σ) (table : σ) (keys : List Vector3i),
        ((roundAt ht table keys 9).allResolved
            ∧ (∀ k, k < 9 → ¬ (roundAt ht table keys k).allResolved) →
          (UploadKeysRun ht table keys).log.filter Event.isWarning
            = [Event.LogWarning (roundAt ht table keys 9).keys_to_attempt.length])
        ∧ (¬ ((roundAt ht table keys 9).allResolved
            ∧ (∀ k, k < 9 → ¬ (roundAt ht table keys k).allResolved)) →
          (UploadKeysRun ht table keys).log.filter Event.isWarning = []) := by
  refine ⟨?_, fun σ ht table keys => UploadKeysRun_warning_iff ht table keys⟩
  set_option maxRecDepth 1000000 in decide

/-! ## Vectors: component access, ToVectorb, homogeneous, hnormalized -/

section VectorLemmas

theorem VectorCuda.get_set {T : Type} [Inhabited T] {N : Nat} (a : VectorCuda T N)
    (i j : Nat) (x : T) :
    (a.set i x).get j = if i = j ∧ i < N then x else a.get j := by
  unfold VectorCuda.get VectorCuda.set
  simp only [List.getD_eq_getElem?_getD, List.getElem?_set, a.size_eq]
  by_cases hij : i = j
  · subst hij
    by_cases hi : i < N
    · simp [hi]
    · simp [hi, List.getElem?_eq_none (show a.v.length ≤ i by rw [a.size_eq]; omega)]
  · simp [hij]

theorem VectorCuda.ext_get {T : Type} [Inhabited T] {N : Nat} (a b : VectorCuda T N)
    (h : ∀ i, i < N → a.get i = b.get i) : a = b := by
  have hv : a.v = b.v := by
    apply List.ext_getElem (by rw [a.size_eq, b.size_eq])
    intro i h1 h2
    have := h i (by rw [← a.size_eq]; exact h1)
    simp only [VectorCuda.get, List.getD_eq_getElem?_getD, List.getElem?_eq_getElem h1,
      List.getElem?_eq_getElem h2, Option.getD_some] at this
    exact this
  cases a
  cases b
  simp only at hv
  subst hv
  rfl

/-- A loop `for (i = 0; i < n; ++i) ret.v[i] = f(i);` on a vector of dimension at least
`n`: component `i` is `f i` below `n` and what it was elsewhere. -/
theorem VectorCuda.setFold_get {T : Type} [Inhabited T] {M : Nat} (f : Nat → T) (n : Nat)
    (hn : n ≤ M) (start : VectorCuda T M) (i : Nat) :
    ((List.range n).foldl (fun ret k => ret.set k (f k)) start).get i
      = if i < n then f i else start.get i := by
  induction n with
  | zero => simp
  | succ n ih =>
    rw [List.range_succ, List.foldl_append, List.foldl_cons, List.foldl_nil,
      VectorCuda.get_set, ih (by omega)]
    by_cases h1 : n = i
    · subst h1
      simp [show n < M from by omega]
    · have h2 : ¬ (n = i ∧ n < M) := fun h => h1 h.1
      rw [if_neg h2]
      by_cases h3 : i < n
      · rw [if_pos h3, if_pos (by omega)]
      · rw [if_neg h3, if_neg (by omega)]

/-- A loop over `d = 0, 1, 2` that replaces component `d` by a function of `d` and of
the component itself. -/
theorem VectorCuda.updateFold_get {T : Type} [Inhabited T] (g : Nat → T → T)
    (a : VectorCuda T 3) (d : Nat) (hd : d < 3) :
    ((List.range 3).foldl (fun mb k => mb.set k (g k (mb.get k))) a).get d
      = g d (a.get d) := by
  have hr : List.range 3 = [0, 1, 2] := rfl
  rw [hr]
  simp only [List.foldl_cons, List.foldl_nil]
  obtain rfl | rfl | rfl : d = 0 ∨ d = 1 ∨ d = 2 := by omega
  all_goals simp [VectorCuda.get_set]

end VectorLemmas

theorem ucharOfFloat_intCast (z : Int) (h0 : 0 ≤ z) (h1 : z ≤ 255) :
    ((ucharOfFloat (z : float) : Nat) : Int) = z := by
  unfold ucharOfFloat
  have hz : (0 : float) ≤ (z : float) := by exact_mod_cast h0
  rw [if_pos hz, Int.floor_intCast, Int.toNat_of_nonneg (Int.emod_nonneg _ (by decide))]
  exact Int.emod_eq_of_lt h0 (by omega)

/-- C25: for a vector of `int`s with no negative component, component `i` of
`ToVectorb()` is `min(v[i], 255)`: a component in `[0, 255]` is kept and a larger one
becomes 255. -/
theorem ToVectorb_saturates_at_255 {N : Nat} (a : VectorCuda Int N)
    (hnonneg : ∀ i, i < N → 0 ≤ a.get i) (i : Nat) (hi : i < N) :
    ((a.ToVectorb.get i : Nat) : Int) = min (a.get i) 255
    ∧ (a.get i ≤ 255 → ((a.ToVectorb.get i : Nat) : Int) = a.get i)
    ∧ (255 < a.get i → a.ToVectorb.get i = 255) := by
  have hget : a.ToVectorb.get i = ucharOfFloat (fminf ((a.get i : Int) : float) 255) := by
    unfold VectorCuda.ToVectorb
    rw [VectorCuda.setFold_get (fun k => ucharOfFloat (fminf ((a.get k : Int) : float) 255))
      N (le_refl _) _ i, if_pos hi]
  have hmin : fminf ((a.get i : Int) : float) 255 = ((min (a.get i) 255 : Int) : float) := by
    unfold fminf
    push_cast
    rfl
  have hmain : ((a.ToVectorb.get i : Nat) : Int) = min (a.get i) 255 := by
    rw [hget, hmin]
    exact ucharOfFloat_intCast _ (le_min (hnonneg i hi) (by decide)) (min_le_right _ _)
  refine ⟨hmain, fun h => ?_, fun h => ?_⟩
  · rw [hmain, min_eq_left h]
  · have := hmain
    rw [min_eq_right (le_of_lt h)] at this
    exact_mod_cast this

/-- Witness for `ToVectorb_saturates_at_255`: the vector `(0, 7, 300)`, whose last
component becomes 255. -/
theorem ToVectorb_saturates_at_255_witness :
    (∀ i, i < 3 → 0 ≤ (VectorCuda.mk3 (0 : Int) 7 300).get i)
    ∧ (((VectorCuda.mk3 (0 : Int) 7 300).ToVectorb.get 1 : Nat) : Int)
        = min ((VectorCuda.mk3 (0 : Int) 7 300).get 1) 255
    ∧ (VectorCuda.mk3 (0 : Int) 7 300).get 1 = 7
    ∧ (VectorCuda.mk3 (0 : Int) 7 300).ToVectorb.get 2 = 255 :=
  ⟨by decide,
    (ToVectorb_saturates_at_255 (VectorCuda.mk3 (0 : Int) 7 300) (by decide) 1 (by decide)).1,
    by decide,
    (ToVectorb_saturates_at_255 (VectorCuda.mk3 (0 : Int) 7 300) (by decide) 2
      (by decide)).2.2 (by decide)⟩

/-- C26: for a vector `v` of `int`s of dimension `N`, `v.homogeneous()` has dimension
`N + 1`, its components `0 .. N-1` are those of `v`, its component `N` is 1, and
`v.homogeneous().hnormalized()` is `v`. -/
theorem hnormalized_undoes_homogeneous {N : Nat} (v : VectorCuda Int N) :
    v.homogeneous.v.length = N + 1
    ∧ (∀ i, i < N → v.homogeneous.get i = v.get i)
    ∧ v.homogeneous.get N = 1
    ∧ v.homogeneous.hnormalized = v := by
  have h1 : ∀ i, i < N → v.homogeneous.get i = v.get i := by
    intro i hi
    unfold VectorCuda.homogeneous
    rw [VectorCuda.get_set, if_neg (by omega),
      VectorCuda.setFold_get (fun k => v.get k) N (by omega) _ i, if_pos hi]
  have h2 : v.homogeneous.get N = 1 := by
    unfold VectorCuda.homogeneous
    rw [VectorCuda.get_set, if_pos ⟨rfl, by omega⟩]
  refine ⟨v.homogeneous.size_eq, h1, h2, ?_⟩
  apply VectorCuda.ext_get
  intro i hi
  unfold VectorCuda.hnormalized
  rw [VectorCuda.setFold_get
    (fun k => Int.tdiv (v.homogeneous.get k) (v.homogeneous.get N)) N (le_refl _) _ i,
    if_pos hi, h1 i hi, h2, Int.tdiv_one]

section BoundLemmas

/-- A running minimum over the entries of a list that satisfy a condition. -/
theorem condMinFold_spec {ι α : Type} [LinearOrder α] (c : ι → Prop) [DecidablePred c]
    (f : ι → α) (l : List ι) :
    ∀ a : α,
      l.foldl (fun m i => if c i then min m (f i) else m) a ≤ a
      ∧ (∀ i ∈ l, c i → l.foldl (fun m i => if c i then min m (f i) else m) a ≤ f i)
      ∧ (l.foldl (fun m i => if c i then min m (f i) else m) a = a
          ∨ ∃ i ∈ l, c i ∧ l.foldl (fun m i => if c i then min m (f i) else m) a = f i)
      ∧ l.foldl (fun m i => if c i then min m (f i) else m) a
          = (l.filter (fun i => decide (c i))).foldl (fun m i => min m (f i)) a := by
  induction l with
  | nil => intro a; simp
  | cons i l ih =>
    intro a
    rw [List.foldl_cons]
    by_cases hc : c i
    · obtain ⟨h1, h2, h3, h4⟩ := ih (min a (f i))
      simp only [if_pos hc] at h1 h2 h3 h4 ⊢
      refine ⟨le_trans h1 (min_le_left _ _), ?_, ?_, ?_⟩
      · intro k hk hck
        rcases List.mem_cons.mp hk with rfl | hk'
        · exact le_trans h1 (min_le_right _ _)
        · exact h2 k hk' hck
      · rcases h3 with h | ⟨k, hk, hck, h⟩
        · rcases min_choice a (f i) with hm | hm
          · left; rw [h, hm]
          · right; exact ⟨i, List.mem_cons_self _ _, hc, by rw [h, hm]⟩
        · right; exact ⟨k, List.mem_cons_of_mem _ hk, hck, h⟩
      · rw [h4, List.filter_cons_of_pos (by simpa using hc), List.foldl_cons]
    · obtain ⟨h1, h2, h3, h4⟩ := ih a
      simp only [if_neg hc] at h1 h2 h3 h4 ⊢
      refine ⟨h1, ?_, ?_, ?_⟩
      · intro k hk hck
        rcases List.mem_cons.mp hk with rfl | hk'
        · exact absurd hck hc
        · exact h2 k hk' hck
      · rcases h3 with h | ⟨k, hk, hck, h⟩
        · left; exact h
        · right; exact ⟨k, List.mem_cons_of_mem _ hk, hck, h⟩
      · rw [h4, List.filter_cons_of_neg (by simpa using hc)]

/-- A running maximum over the entries of a list that satisfy a condition. -/
theorem condMaxFold_spec {ι α : Type} [LinearOrder α] (c : ι → Prop) [DecidablePred c]
    (f : ι → α) (l : List ι) :
    ∀ a : α,
      a ≤ l.foldl (fun m i => if c i then max m (f i) else m) a
      ∧ (∀ i ∈ l, c i → f i ≤ l.foldl (fun m i => if c i then max m (f i) else m) a)
      ∧ (l.foldl (fun m i => if c i then max m (f i) else m) a = a
          ∨ ∃ i ∈ l, c i ∧ l.foldl (fun m i => if c i then max m (f i) else m) a = f i)
      ∧ l.foldl (fun m i => if c i then max m (f i) else m) a
          = (l.filter (fun i => decide (c i))).foldl (fun m i => max m (f i)) a := by
  induction l with
  | nil => intro a; simp
  | cons i l ih =>
    intro a
    rw [List.foldl_cons]
    by_cases hc : c i
    · obtain ⟨h1, h2, h3, h4⟩ := ih (max a (f i))
      simp only [if_pos hc] at h1 h2 h3 h4 ⊢
      refine ⟨le_trans (le_max_left _ _) h1, ?_, ?_, ?_⟩
      · intro k hk hck
        rcases List.mem_cons.mp hk with rfl | hk'
        · exact le_trans (le_max_right _ _) h1
        · exact h2 k hk' hck
      · rcases h3 with h | ⟨k, hk, hck, h⟩
        · rcases max_choice a (f i) with hm | hm
          · left; rw [h, hm]
          · right; exact ⟨i, List.mem_cons_self _ _, hc, by rw [h, hm]⟩
        · right; exact ⟨k, List.mem_cons_of_mem _ hk, hck, h⟩
      · rw [h4, List.filter_cons_of_pos (by simpa using hc), List.foldl_cons]
    · obtain ⟨h1, h2, h3, h4⟩ := ih a
      simp only [if_neg hc] at h1 h2 h3 h4 ⊢
      refine ⟨h1, ?_, ?_, ?_⟩
      · intro k hk hck
        rcases List.mem_cons.mp hk with rfl | hk'
        · exact absurd hck hc
        · exact h2 k hk' hck
      · rcases h3 with h | ⟨k, hk, hck, h⟩
        · left; exact h
        · right; exact ⟨k, List.mem_cons_of_mem _ hk, hck, h⟩
      · rw [h4, List.filter_cons_of_neg (by simpa using hc)]

/-- The loop over `j = 0, 1, 2` that updates two vectors side by side is the pair of the
two loops. -/
theorem pairUpdateFold {T : Type} [Inhabited T] (g h : Nat → T → T)
    (acc : VectorCuda T 3 × VectorCuda T 3) :
    (List.range 3).foldl
        (fun b j => (b.1.set j (g j (b.1.get j)), b.2.set j (h j (b.2.get j)))) acc
      = ((List.range 3).foldl (fun mb k => mb.set k (g k (mb.get k))) acc.1,
          (List.range 3).foldl (fun mb k => mb.set k (h k (mb.get k))) acc.2) := by
  have hr : List.range 3 = [0, 1, 2] := rfl
  rw [hr]
  rfl

theorem getMinMaxBoundBody_get (thr : Int) (counts : List Int) (mins maxs : List Vector3f)
    (acc : Vector3f × Vector3f) (i j : Nat) (hj : j < 3) :
    (getMinMaxBoundBody thr counts mins maxs acc i).1.get j
      = (if counts.getD i 0 > thr then min (acc.1.get j) ((mins.getD i default).get j)
          else acc.1.get j)
    ∧ (getMinMaxBoundBody thr counts mins maxs acc i).2.get j
      = (if counts.getD i 0 > thr then max (acc.2.get j) ((maxs.getD i default).get j)
          else acc.2.get j) := by
  by_cases hc : counts.getD i 0 > thr
  · have hbody : getMinMaxBoundBody thr counts mins maxs acc i
        = ((List.range 3).foldl
            (fun mb k => mb.set k ((fun k x => min x ((mins.getD i default).get k)) k
              (mb.get k))) acc.1,
          (List.range 3).foldl
            (fun mb k => mb.set k ((fun k x => max x ((maxs.getD i default).get k)) k
              (mb.get k))) acc.2) := by
      unfold getMinMaxBoundBody
      rw [if_pos hc]
      exact pairUpdateFold (fun k x => min x ((mins.getD i default).get k))
        (fun k x => max x ((maxs.getD i default).get k)) acc
    rw [hbody, if_pos hc, if_pos hc]
    exact ⟨VectorCuda.updateFold_get (fun k x => min x ((mins.getD i default).get k)) acc.1 j
        hj,
      VectorCuda.updateFold_get (fun k x => max x ((maxs.getD i default).get k)) acc.2 j hj⟩
  · have hbody : getMinMaxBoundBody thr counts mins maxs acc i = acc := by
      unfold getMinMaxBoundBody
      rw [if_neg hc]
    rw [hbody, if_neg hc, if_neg hc]
    exact ⟨rfl, rfl⟩

theorem getMinMaxBoundFold_get (thr : Int) (counts : List Int) (mins maxs : List Vector3f)
    (j : Nat) (hj : j < 3) (l : List Nat) :
    ∀ acc : Vector3f × Vector3f,
      (l.foldl (getMinMaxBoundBody thr counts mins maxs) acc).1.get j
        = l.foldl (fun m i => if counts.getD i 0 > thr
            then min m ((mins.getD i default).get j) else m) (acc.1.get j)
      ∧ (l.foldl (getMinMaxBoundBody thr counts mins maxs) acc).2.get j
        = l.foldl (fun m i => if counts.getD i 0 > thr
            then max m ((maxs.getD i default).get j) else m) (acc.2.get j) := by
  induction l with
  | nil => intro acc; exact ⟨rfl, rfl⟩
  | cons i l ih =>
    intro acc
    obtain ⟨h1, h2⟩ := ih (getMinMaxBoundBody thr counts mins maxs acc i)
    obtain ⟨g1, g2⟩ := getMinMaxBoundBody_get thr counts mins maxs acc i j hj
    rw [List.foldl_cons, List.foldl_cons, List.foldl_cons, h1, h2, g1, g2]
    exact ⟨rfl, rfl⟩

end BoundLemmas

theorem VectorCuda.mk3_const_get {T : Type} [Inhabited T] (x : T) (j : Nat) (hj : j < 3) :
    (VectorCuda.mk3 x x x).get j = x := by
  obtain rfl | rfl | rfl : j = 0 ∨ j = 1 ∨ j = 2 := by omega
  all_goals rfl

/-! ## GetMinMaxBound -/

/-- C23: the loop of `GetMinMaxBound` over the downloaded arrays, on axis `j`.  The
returned minimum is the running minimum, started at `1e5`, over the per-subvolume minima
of exactly those subvolumes whose count of valid points is greater than
`num_valid_pts_thr`: it is at most `1e5` and at most the minimum of every such subvolume,
and it is `1e5` or the minimum of one of them.  Likewise the returned maximum with `-1e5`
and the per-subvolume maxima.  When no subvolume has a count above the threshold the
result is `((1e5,1e5,1e5), (-1e5,-1e5,-1e5))`, whose minimum exceeds its maximum.
`GetMinMaxBound` returns what this loop computes from the arrays that the kernel
fills, for every behaviour of the kernels. -/
theorem GetMinMaxBound_takes_bounds_of_counted_subvolumes (num_valid_pts_thr : Int)
    (valid_pts_count_cpu : List Int) (min_bounds_cpu max_bounds_cpu : List Vector3f)
    (j : Nat) (hj : j < 3) :
    ((getMinMaxBoundLoop num_valid_pts_thr valid_pts_count_cpu min_bounds_cpu
          max_bounds_cpu).1.get j
        = ((List.range valid_pts_count_cpu.length).filter
            (fun i => decide (valid_pts_count_cpu.getD i 0 > num_valid_pts_thr))).foldl
            (fun m i => min m ((min_bounds_cpu.getD i default).get j)) 100000
      ∧ (getMinMaxBoundLoop num_valid_pts_thr valid_pts_count_cpu min_bounds_cpu
          max_bounds_cpu).2.get j
        = ((List.range valid_pts_count_cpu.length).filter
            (fun i => decide (valid_pts_count_cpu.getD i 0 > num_valid_pts_thr))).foldl
            (fun m i => max m ((max_bounds_cpu.getD i default).get j)) (-100000))
    ∧ ((getMinMaxBoundLoop num_valid_pts_thr valid_pts_count_cpu min_bounds_cpu
          max_bounds_cpu).1.get j ≤ 100000
      ∧ (∀ i, i < valid_pts_count_cpu.length →
          valid_pts_count_cpu.getD i 0 > num_valid_pts_thr →
          (getMinMaxBoundLoop num_valid_pts_thr valid_pts_count_cpu min_bounds_cpu
            max_bounds_cpu).1.get j ≤ (min_bounds_cpu.getD i default).get j)
      ∧ ((getMinMaxBoundLoop num_valid_pts_thr valid_pts_count_cpu min_bounds_cpu
            max_bounds_cpu).1.get j = 100000
          ∨ ∃ i, i < valid_pts_count_cpu.length
            ∧ valid_pts_count_cpu.getD i 0 > num_valid_pts_thr
            ∧ (getMinMaxBoundLoop num_valid_pts_thr valid_pts_count_cpu min_bounds_cpu
                max_bounds_cpu).1.get j = (min_bounds_cpu.getD i default).get j))
    ∧ (-100000 ≤ (getMinMaxBoundLoop num_valid_pts_thr valid_pts_count_cpu min_bounds_cpu
          max_bounds_cpu).2.get j
      ∧ (∀ i, i < valid_pts_count_cpu.length →
          valid_pts_count_cpu.getD i 0 > num_valid_pts_thr →
          (max_bounds_cpu.getD i default).get j
            ≤ (getMinMaxBoundLoop num_valid_pts_thr valid_pts_count_cpu min_bounds_cpu
              max_bounds_cpu).2.get j)
      ∧ ((getMinMaxBoundLoop num_valid_pts_thr valid_pts_count_cpu min_bounds_cpu
            max_bounds_cpu).2.get j = -100000
          ∨ ∃ i, i < valid_pts_count_cpu.length
            ∧ valid_pts_count_cpu.getD i 0 > num_valid_pts_thr
            ∧ (getMinMaxBoundLoop num_valid_pts_thr valid_pts_count_cpu min_bounds_cpu
                max_bounds_cpu).2.get j = (max_bounds_cpu.getD i default).get j))
    ∧ ((∀ i, i < valid_pts_count_cpu.length →
          ¬ valid_pts_count_cpu.getD i 0 > num_valid_pts_thr) →
        getMinMaxBoundLoop num_valid_pts_thr valid_pts_count_cpu min_bounds_cpu max_bounds_cpu
          = (VectorCuda.mk3 100000 100000 100000,
              VectorCuda.mk3 (-100000) (-100000) (-100000))
        ∧ (getMinMaxBoundLoop num_valid_pts_thr valid_pts_count_cpu min_bounds_cpu
            max_bounds_cpu).2.get j
          < (getMinMaxBoundLoop num_valid_pts_thr valid_pts_count_cpu min_bounds_cpu
            max_bounds_cpu).1.get j)
    ∧ (∀ (σ α : Type) (kc : GetMinMaxBoundCallees σ α) (vol : ScalableTSDFVolumeCuda σ)
        (arr : α),
        (vol.GetMinMaxBound kc arr num_valid_pts_thr).1
          = getMinMaxBoundLoop num_valid_pts_thr
              (kc.GetMinMaxBound
                (kc.GetAllSubvolumes (vol.ResetActiveSubvolumeIndices, arr))
                (kc.size (kc.GetAllSubvolumes (vol.ResetActiveSubvolumeIndices, arr)).2)).2.1
              (kc.GetMinMaxBound
                (kc.GetAllSubvolumes (vol.ResetActiveSubvolumeIndices, arr))
                (kc.size (kc.GetAllSubvolumes (vol.ResetActiveSubvolumeIndices, arr)).2)).2.2.1
              (kc.GetMinMaxBound
                (kc.GetAllSubvolumes (vol.ResetActiveSubvolumeIndices, arr))
                (kc.size
                  (kc.GetAllSubvolumes (vol.ResetActiveSubvolumeIndices, arr)).2)).2.2.2) := by
  have hcomp : ∀ (k : Nat), k < 3 →
      (getMinMaxBoundLoop num_valid_pts_thr valid_pts_count_cpu min_bounds_cpu
          max_bounds_cpu).1.get k
        = (List.range valid_pts_count_cpu.length).foldl
            (fun m i => if valid_pts_count_cpu.getD i 0 > num_valid_pts_thr
              then min m ((min_bounds_cpu.getD i default).get k) else m) 100000
      ∧ (getMinMaxBoundLoop num_valid_pts_thr valid_pts_count_cpu min_bounds_cpu
          max_bounds_cpu).2.get k
        = (List.range valid_pts_count_cpu.length).foldl
            (fun m i => if valid_pts_count_cpu.getD i 0 > num_valid_pts_thr
              then max m ((max_bounds_cpu.getD i default).get k) else m) (-100000) := by
    intro k hk
    have h := getMinMaxBoundFold_get num_valid_pts_thr valid_pts_count_cpu min_bounds_cpu
      max_bounds_cpu k hk (List.range valid_pts_count_cpu.length)
      (VectorCuda.mk3 100000 100000 100000, VectorCuda.mk3 (-100000) (-100000) (-100000))
    rw [VectorCuda.mk3_const_get (100000 : float) k hk,
      VectorCuda.mk3_const_get (-100000 : float) k hk] at h
    exact h
  obtain ⟨e1, e2⟩ := hcomp j hj
  obtain ⟨a1, a2, a3, a4⟩ := condMinFold_spec
    (fun i => valid_pts_count_cpu.getD i 0 > num_valid_pts_thr)
    (fun i => (min_bounds_cpu.getD i default).get j)
    (List.range valid_pts_count_cpu.length) (100000 : float)
  obtain ⟨b1, b2, b3, b4⟩ := condMaxFold_spec
    (fun i => valid_pts_count_cpu.getD i 0 > num_valid_pts_thr)
    (fun i => (max_bounds_cpu.getD i default).get j)
    (List.range valid_pts_count_cpu.length) (-100000 : float)
  rw [← e1] at a1 a2 a3 a4
  rw [← e2] at b1 b2 b3 b4
  refine ⟨⟨a4, b4⟩, ⟨a1, fun i hi hc => a2 i (List.mem_range.mpr hi) hc, ?_⟩,
    ⟨b1, fun i hi hc => b2 i (List.mem_range.mpr hi) hc, ?_⟩, ?_, ?_⟩
  · rcases a3 with h | ⟨i, hi, hc, h⟩
    · exact Or.inl h
    · exact Or.inr ⟨i, List.mem_range.mp hi, hc, h⟩
  · rcases b3 with h | ⟨i, hi, hc, h⟩
    · exact Or.inl h
    · exact Or.inr ⟨i, List.mem_range.mp hi, hc, h⟩
  · intro hnone
    have hk : ∀ k, k < 3 →
        (getMinMaxBoundLoop num_valid_pts_thr valid_pts_count_cpu min_bounds_cpu
            max_bounds_cpu).1.get k = 100000
        ∧ (getMinMaxBoundLoop num_valid_pts_thr valid_pts_count_cpu min_bounds_cpu
            max_bounds_cpu).2.get k = -100000 := by
      intro k hk
      obtain ⟨f1, f2⟩ := hcomp k hk
      obtain ⟨-, -, c3, -⟩ := condMinFold_spec
        (fun i => valid_pts_count_cpu.getD i 0 > num_valid_pts_thr)
        (fun i => (min_bounds_cpu.getD i default).get k)
        (List.range valid_pts_count_cpu.length) (100000 : float)
      obtain ⟨-, -, d3, -⟩ := condMaxFold_spec
        (fun i => valid_pts_count_cpu.getD i 0 > num_valid_pts_thr)
        (fun i => (max_bounds_cpu.getD i default).get k)
        (List.range valid_pts_count_cpu.length) (-100000 : float)
      rw [← f1] at c3
      rw [← f2] at d3
      constructor
      · rcases c3 with h | ⟨i, hi, hc, -⟩
        · exact h
        · exact absurd hc (hnone i (List.mem_range.mp hi))
      · rcases d3 with h | ⟨i, hi, hc, -⟩
        · exact h
        · exact absurd hc (hnone i (List.mem_range.mp hi))
    refine ⟨Prod.ext ?_ ?_, ?_⟩
    · apply VectorCuda.ext_get
      intro k hk'
      rw [(hk k hk').1, VectorCuda.mk3_const_get (100000 : float) k hk']
    · apply VectorCuda.ext_get
      intro k hk'
      rw [(hk k hk').2, VectorCuda.mk3_const_get (-100000 : float) k hk']
    · rw [(hk j hj).1, (hk j hj).2]
      norm_num
  · intro σ α kc vol arr
    rfl

/-- Witness for `GetMinMaxBound_takes_bounds_of_counted_subvolumes`: three subvolumes
with 6, 2 and 9 valid points and the threshold 5, on axis 0: the second subvolume, whose
minimum is -50 and whose maximum is 99, is not counted, and the bounds are 0 and 4. -/
theorem GetMinMaxBound_takes_bounds_of_counted_subvolumes_witness :
    (0 < 3)
    ∧ (getMinMaxBoundLoop 5 [6, 2, 9]
        [VectorCuda.mk3 1 2 3, VectorCuda.mk3 (-50) 0 0, VectorCuda.mk3 0 5 1]
        [VectorCuda.mk3 4 4 4, VectorCuda.mk3 99 99 99, VectorCuda.mk3 3 8 2]).1.get 0 = 0
    ∧ (getMinMaxBoundLoop 5 [6, 2, 9]
        [VectorCuda.mk3 1 2 3, VectorCuda.mk3 (-50) 0 0, VectorCuda.mk3 0 5 1]
        [VectorCuda.mk3 4 4 4, VectorCuda.mk3 99 99 99, VectorCuda.mk3 3 8 2]).2.get 0 = 4 :=
  ⟨by decide,
    ((GetMinMaxBound_takes_bounds_of_counted_subvolumes 5 [6, 2, 9]
      [VectorCuda.mk3 1 2 3, VectorCuda.mk3 (-50) 0 0, VectorCuda.mk3 0 5 1]
      [VectorCuda.mk3 4 4 4, VectorCuda.mk3 99 99 99, VectorCuda.mk3 3 8 2] 0
      (by decide)).1.1).trans (by decide),
    ((GetMinMaxBound_takes_bounds_of_counted_subvolumes 5 [6, 2, 9]
      [VectorCuda.mk3 1 2 3, VectorCuda.mk3 (-50) 0 0, VectorCuda.mk3 0 5 1]
      [VectorCuda.mk3 4 4 4, VectorCuda.mk3 99 99 99, VectorCuda.mk3 3 8 2] 0
      (by decide)).1.2).trans (by decide)⟩

/-! ## float arithmetic: rounding -/

section RoundLemmas

theorem roundNearestEven_intCast (n : Int) : roundNearestEven (n : ℚ) = n := by
  unfold roundNearestEven
  rw [Int.floor_intCast, sub_self, if_pos (by norm_num)]

theorem abs_roundNearestEven_sub_le (q : ℚ) : |(roundNearestEven q : ℚ) - q| ≤ 1 / 2 := by
  have h1 := Int.floor_le q
  have h2 := Int.lt_floor_add_one q
  unfold roundNearestEven
  rw [abs_le]
  split_ifs with ha hb hc
  · constructor <;> linarith
  · push_cast; constructor <;> linarith
  · constructor <;> linarith
  · push_cast; constructor <;> linarith

theorem roundNearestEven_eq_of_abs_sub_lt (q : ℚ) (m : Int) (h : |q - m| < 1 / 2) :
    roundNearestEven q = m := by
  rw [abs_lt] at h
  obtain ⟨h1, h2⟩ := h
  unfold roundNearestEven
  by_cases hq : (m : ℚ) ≤ q
  · have hf : ⌊q⌋ = m := Int.floor_eq_iff.mpr ⟨hq, by linarith⟩
    rw [hf, if_pos (by linarith)]
  · have hf : ⌊q⌋ = m - 1 := Int.floor_eq_iff.mpr ⟨by push_cast; linarith, by push_cast; linarith⟩
    rw [hf, if_neg (by push_cast; linarith), if_pos (by push_cast; linarith)]
    ring

theorem two_zpow_pos (e : Int) : (0 : ℚ) < 2 ^ e := zpow_pos (by norm_num) e

theorem log_two_eq (q : ℚ) (e : Int) (hlo : 2 ^ e ≤ q) (hhi : q < 2 ^ (e + 1)) :
    Int.log 2 q = e := by
  have hq : 0 < q := lt_of_lt_of_le (two_zpow_pos e) hlo
  apply le_antisymm
  · have := (Int.lt_zpow_iff_log_lt (b := 2) (by norm_num) hq (x := e + 1)).mp
      (by push_cast; exact hhi)
    omega
  · exact (Int.zpow_le_iff_le_log (b := 2) (by norm_num) hq).mp (by push_cast; exact hlo)

theorem roundFloat_zero : roundFloat 0 = 0 := by
  unfold roundFloat
  rw [zero_div]
  have := roundNearestEven_intCast 0
  rw [Int.cast_zero] at this
  rw [this, Int.cast_zero, zero_mul]

theorem log_two_abs_lt (q : ℚ) (hq : q ≠ 0) (k : Int) (h : |q| < 2 ^ k) :
    Int.log 2 |q| < k :=
  (Int.lt_zpow_iff_log_lt (b := 2) (by norm_num) (abs_pos.mpr hq)).mp (by push_cast; exact h)

/-- A number `m * 2^e` with `|m| < 2^24` and `e >= -149` is rounded to itself. -/
theorem roundFloat_of_mantissa (m e : Int) (hm : |m| < 2 ^ 24) (he : -149 ≤ e) :
    roundFloat ((m : ℚ) * 2 ^ e) = (m : ℚ) * 2 ^ e := by
  by_cases hm0 : m = 0
  · rw [hm0, Int.cast_zero, zero_mul, roundFloat_zero]
  have hq : (m : ℚ) * 2 ^ e ≠ 0 :=
    mul_ne_zero (Int.cast_ne_zero.mpr hm0) (ne_of_gt (two_zpow_pos e))
  have hlt : |(m : ℚ) * 2 ^ e| < 2 ^ (e + 24) := by
    rw [abs_mul, abs_of_pos (two_zpow_pos e), zpow_add₀ (by norm_num : (2 : ℚ) ≠ 0),
      mul_comm]
    have : |(m : ℚ)| < 2 ^ (24 : Int) := by
      have h : ((|m| : Int) : ℚ) < ((2 ^ 24 : Int) : ℚ) := Int.cast_lt.mpr hm
      rw [Int.cast_abs] at h
      rw [show ((2 : ℚ) ^ (24 : Int)) = ((2 ^ 24 : Int) : ℚ) by norm_num]
      exact h
    exact mul_lt_mul_of_pos_left this (two_zpow_pos e)
  have hlog := log_two_abs_lt _ hq _ hlt
  have hE : ulpExponent ((m : ℚ) * 2 ^ e) ≤ e := by
    unfold ulpExponent
    omega
  obtain ⟨k, hk⟩ : ∃ k : Nat, e = ulpExponent ((m : ℚ) * 2 ^ e) + k :=
    ⟨(e - ulpExponent ((m : ℚ) * 2 ^ e)).toNat, by omega⟩
  unfold roundFloat
  have hdiv : (m : ℚ) * 2 ^ e / 2 ^ ulpExponent ((m : ℚ) * 2 ^ e) = ((m * 2 ^ k : Int) : ℚ) := by
    rw [div_eq_iff (ne_of_gt (two_zpow_pos _))]
    nth_rewrite 1 [hk]
    rw [zpow_add₀ (by norm_num : (2 : ℚ) ≠ 0), zpow_natCast]
    push_cast
    ring
  rw [hdiv, roundNearestEven_intCast, ← hdiv,
    div_mul_cancel₀ _ (ne_of_gt (two_zpow_pos _))]

/-- The relative error of rounding in the normal range is at most `2^-24`. -/
theorem roundFloat_error (q : ℚ) (h : 2 ^ (-126 : Int) ≤ |q|) :
    |roundFloat q - q| ≤ 2 ^ (-24 : Int) * |q| := by
  have hq : 0 < |q| := lt_of_lt_of_le (two_zpow_pos _) h
  have hlog : -126 ≤ Int.log 2 |q| :=
    (Int.zpow_le_iff_le_log (b := 2) (by norm_num) hq).mp (by push_cast; exact h)
  have hE : ulpExponent q = Int.log 2 |q| - 23 := by
    unfold ulpExponent
    rw [max_eq_left hlog]
  have hpow : (2 : ℚ) ^ Int.log 2 |q| ≤ |q| := by
    have := Int.zpow_log_le_self (b := 2) (by norm_num) hq
    push_cast at this
    exact this
  have hu := two_zpow_pos (ulpExponent q)
  have herr := abs_roundNearestEven_sub_le (q / 2 ^ ulpExponent q)
  have hmul : roundFloat q - q
      = ((roundNearestEven (q / 2 ^ ulpExponent q) : ℚ) - q / 2 ^ ulpExponent q)
        * 2 ^ ulpExponent q := by
    unfold roundFloat
    rw [sub_mul, div_mul_cancel₀ _ (ne_of_gt hu)]
  rw [hmul, abs_mul, abs_of_pos hu]
  have h2 : (2 : ℚ) ^ ulpExponent q = 2 ^ (-23 : Int) * 2 ^ Int.log 2 |q| := by
    rw [hE, sub_eq_add_neg, zpow_add₀ (by norm_num : (2 : ℚ) ≠ 0), mul_comm]
  calc |(roundNearestEven (q / 2 ^ ulpExponent q) : ℚ) - q / 2 ^ ulpExponent q|
        * 2 ^ ulpExponent q
      ≤ 1 / 2 * 2 ^ ulpExponent q := mul_le_mul_of_nonneg_right herr (le_of_lt hu)
    _ = 2 ^ (-24 : Int) * 2 ^ Int.log 2 |q| := by rw [h2]; norm_num; ring
    _ ≤ 2 ^ (-24 : Int) * |q| := mul_le_mul_of_nonneg_left hpow (le_of_lt (two_zpow_pos _))

/-- Rounding of a number whose binary exponent `e` is known. -/
theorem roundFloat_eq_of_exponent (q : ℚ) (e m : Int) (he : -126 ≤ e) (hlo : 2 ^ e ≤ |q|)
    (hhi : |q| < 2 ^ (e + 1)) (hm : |q / 2 ^ (e - 23) - m| < 1 / 2) :
    roundFloat q = (m : ℚ) * 2 ^ (e - 23) := by
  have hE : ulpExponent q = e - 23 := by
    unfold ulpExponent
    rw [log_two_eq |q| e hlo hhi, max_eq_left he]
  unfold roundFloat
  rw [hE, roundNearestEven_eq_of_abs_sub_lt _ m hm]

end RoundLemmas

section RoundLemmasMore

theorem roundFloat_two_zpow (k : Int) (hk : -149 ≤ k) : roundFloat (2 ^ k) = 2 ^ k := by
  have := roundFloat_of_mantissa 1 k (by decide) hk
  rw [Int.cast_one, one_mul] at this
  exact this

end RoundLemmasMore

/-! ## UpdateDevice -/

section KeyBoundLemmas

/-- The loops of `GetMinBound` and `GetMaxBound`, on one axis: the running `op` (`min` or
`max`) of the key components. -/
theorem boundFold_get (op : Int → Int → Int) (d : Nat) (hd : d < 3) (keys : List Vector3i) :
    ∀ acc : Vector3i,
      (keys.foldl
        (fun b key =>
          (List.range 3).foldl (fun mb k => mb.set k (op (key.get k) (mb.get k))) b)
        acc).get d
      = keys.foldl (fun m key => op (key.get d) m) (acc.get d) := by
  induction keys with
  | nil => intro acc; rfl
  | cons key keys ih =>
    intro acc
    rw [List.foldl_cons, List.foldl_cons, ih,
      VectorCuda.updateFold_get (fun k x => op (key.get k) x) acc d hd]

theorem minBoundLoop_spec (keys : List Vector3i) (d : Nat) (hd : d < 3) :
    (minBoundLoop keys).get d ≤ max_int
    ∧ (∀ key ∈ keys, (minBoundLoop keys).get d ≤ key.get d)
    ∧ ((minBoundLoop keys).get d = max_int
        ∨ ∃ key ∈ keys, (minBoundLoop keys).get d = key.get d) := by
  have h : (minBoundLoop keys).get d
      = keys.foldl (fun m key => if (fun _ : Vector3i => True) key then min m (key.get d)
          else m) max_int := by
    unfold minBoundLoop
    rw [boundFold_get (fun a b => min a b) d hd keys,
      VectorCuda.mk3_const_get max_int d hd]
    congr 1
    funext m key
    rw [if_pos trivial, min_comm]
  obtain ⟨h1, h2, h3, -⟩ := condMinFold_spec (fun _ : Vector3i => True)
    (fun key => key.get d) keys max_int
  rw [← h] at h1 h2 h3
  refine ⟨h1, fun key hk => h2 key hk trivial, ?_⟩
  rcases h3 with h3 | ⟨key, hk, -, h3⟩
  · exact Or.inl h3
  · exact Or.inr ⟨key, hk, h3⟩

theorem maxBoundLoop_spec (keys : List Vector3i) (d : Nat) (hd : d < 3) :
    min_int ≤ (maxBoundLoop keys).get d
    ∧ (∀ key ∈ keys, key.get d ≤ (maxBoundLoop keys).get d)
    ∧ ((maxBoundLoop keys).get d = min_int
        ∨ ∃ key ∈ keys, (maxBoundLoop keys).get d = key.get d) := by
  have h : (maxBoundLoop keys).get d
      = keys.foldl (fun m key => if (fun _ : Vector3i => True) key then max m (key.get d)
          else m) min_int := by
    unfold maxBoundLoop
    rw [boundFold_get (fun a b => max a b) d hd keys,
      VectorCuda.mk3_const_get min_int d hd]
    congr 1
    funext m key
    rw [if_pos trivial, max_comm]
  obtain ⟨h1, h2, h3, -⟩ := condMaxFold_spec (fun _ : Vector3i => True)
    (fun key => key.get d) keys min_int
  rw [← h] at h1 h2 h3
  refine ⟨h1, fun key hk => h2 key hk trivial, ?_⟩
  rcases h3 with h3 | ⟨key, hk, -, h3⟩
  · exact Or.inl h3
  · exact Or.inr ⟨key, hk, h3⟩

/-- A key component whose products with the block side fit an `int` is an `int`. -/
theorem key_component_fits (k N : Int) (hN : 0 < N) (h1 : -2147483648 ≤ k * N)
    (h2 : k * N + N ≤ 2147483647) : -2147483648 ≤ k ∧ k ≤ 2147483647 := by
  constructor
  · by_contra hcon
    have hk : k ≤ 0 := by omega
    have : k * N ≤ k * 1 := Int.mul_le_mul_of_nonpos_left hk (by omega)
    omega
  · by_contra hcon
    have hk : 0 ≤ k := by omega
    have : k * 1 ≤ k * N := Int.mul_le_mul_of_nonneg_left (by omega) hk
    omega

/-- With keys whose products with the block side fit an `int`, the bounds that the loops
of `GetMinBound` and `GetMaxBound` find on a non-empty key list are components of keys,
and the `int` arithmetic on them is exact. -/
theorem keyBounds_fit (keys : List Vector3i) (N : Int) (hne : keys ≠ []) (hN : 0 < N)
    (hfit : ∀ key ∈ keys, ∀ d, d < 3 →
      -2147483648 ≤ key.get d * N ∧ key.get d * N + N ≤ 2147483647)
    (d : Nat) (hd : d < 3) :
    (∃ key ∈ keys, (minBoundLoop keys).get d = key.get d)
    ∧ (∃ key ∈ keys, (maxBoundLoop keys).get d = key.get d)
    ∧ (minBoundLoop keys).get d ≤ (maxBoundLoop keys).get d
    ∧ wrapInt32 ((minBoundLoop keys).get d * N) = (minBoundLoop keys).get d * N
    ∧ wrapInt32 (wrapInt32 ((maxBoundLoop keys).get d * N) + N)
        = (maxBoundLoop keys).get d * N + N := by
  obtain ⟨k0, hk0⟩ := List.exists_mem_of_ne_nil keys hne
  obtain ⟨a1, a2, a3⟩ := minBoundLoop_spec keys d hd
  obtain ⟨b1, b2, b3⟩ := maxBoundLoop_spec keys d hd
  have hk0fit := key_component_fits (k0.get d) N hN (hfit k0 hk0 d hd).1 (hfit k0 hk0 d hd).2
  have hmin : ∃ key ∈ keys, (minBoundLoop keys).get d = key.get d := by
    rcases a3 with h | h
    · refine ⟨k0, hk0, ?_⟩
      have := a2 k0 hk0
      rw [h] at this ⊢
      unfold max_int at this ⊢
      omega
    · exact h
  have hmax : ∃ key ∈ keys, (maxBoundLoop keys).get d = key.get d := by
    rcases b3 with h | h
    · refine ⟨k0, hk0, ?_⟩
      have := b2 k0 hk0
      rw [h] at this ⊢
      unfold min_int at this ⊢
      omega
    · exact h
  refine ⟨hmin, hmax, le_trans (a2 k0 hk0) (b2 k0 hk0), ?_, ?_⟩
  · obtain ⟨key, hk, he⟩ := hmin
    rw [he]
    exact wrapInt32_eq _ (hfit key hk d hd).1 (by have := (hfit key hk d hd).2; omega)
  · obtain ⟨key, hk, he⟩ := hmax
    rw [he, wrapInt32_eq _ (hfit key hk d hd).1 (by have := (hfit key hk d hd).2; omega)]
    exact wrapInt32_eq _ (by have := (hfit key hk d hd).1; omega) (hfit key hk d hd).2

end KeyBoundLemmas

section BoundFloatLemmas

/-- `GetMinBound` and `GetMaxBound` on axis `d` when the transform leaves points where
they are. -/
theorem GetBound_get {σ : Type} (ht : HashTableCuda σ) (vol : ScalableTSDFVolumeCuda σ)
    (hid : ∀ x, vol.transform_volume_to_world_.mul x = x) (d : Nat) (hd : d < 3) :
    (vol.GetMinBound ht).get d
      = fmul (fadd (intToFloat
          (wrapInt32 ((minBoundLoop (ht.DownloadKeys vol.hash_table_)).get d * vol.N_)))
          (1 / 2)) vol.voxel_length_
    ∧ (vol.GetMaxBound ht).get d
      = fmul (fadd (intToFloat
          (wrapInt32 (wrapInt32 ((maxBoundLoop (ht.DownloadKeys vol.hash_table_)).get d
            * vol.N_) + vol.N_))) (1 / 2)) vol.voxel_length_ := by
  unfold ScalableTSDFVolumeCuda.GetMinBound ScalableTSDFVolumeCuda.GetMaxBound
  simp only [hid]
  obtain rfl | rfl | rfl : d = 0 ∨ d = 1 ∨ d = 2 := by omega
  all_goals exact ⟨rfl, rfl⟩

/-- An `int` of magnitude below `2^23` is converted to `float` exactly, and so is its sum
with `0.5f`. -/
theorem fadd_intToFloat_half (x : Int) (h1 : -8388608 ≤ x) (h2 : x ≤ 8388607) :
    fadd (intToFloat x) (1 / 2) = (x : ℚ) + 1 / 2 := by
  have e1 : intToFloat x = (x : ℚ) := by
    have := roundFloat_of_mantissa x 0 (by rw [abs_lt]; constructor <;> omega) (by decide)
    rw [zpow_zero, mul_one] at this
    exact this
  have e2 : (x : ℚ) + 1 / 2 = ((2 * x + 1 : Int) : ℚ) * 2 ^ (-1 : Int) := by
    push_cast
    norm_num
    ring
  unfold fadd
  rw [e1, e2]
  exact roundFloat_of_mantissa (2 * x + 1) (-1) (by rw [abs_lt]; constructor <;> omega)
    (by decide)

/-- The `float` `(x + 0.5f) * L` for an `int` `x` of magnitude below `2^23` and a voxel
length `L` between `2^-100` and `2^100`: the rounded product, within a relative error of
`2^-24` of the exact product and finite, and the exact product when `L` is a power of
two. -/
theorem boundFloat_spec (x : Int) (L : float) (h1 : -8388608 ≤ x) (h2 : x ≤ 8388607)
    (hL1 : 2 ^ (-100 : Int) ≤ L) (hL2 : L ≤ 2 ^ (100 : Int)) :
    fmul (fadd (intToFloat x) (1 / 2)) L = roundFloat (((x : ℚ) + 1 / 2) * L)
    ∧ |fmul (fadd (intToFloat x) (1 / 2)) L - ((x : ℚ) + 1 / 2) * L|
        ≤ 2 ^ (-24 : Int) * |((x : ℚ) + 1 / 2) * L|
    ∧ |fmul (fadd (intToFloat x) (1 / 2)) L| < 2 ^ (128 : Int)
    ∧ |((x : ℚ) + 1 / 2) * L| ≤ (8388608 - 1 / 2) * L
    ∧ (∀ k : Int, -100 ≤ k → k ≤ 100 → L = 2 ^ k →
        fmul (fadd (intToFloat x) (1 / 2)) L = ((x : ℚ) + 1 / 2) * L) := by
  have hLpos : 0 < L := lt_of_lt_of_le (two_zpow_pos _) hL1
  have e : fmul (fadd (intToFloat x) (1 / 2)) L = roundFloat (((x : ℚ) + 1 / 2) * L) := by
    unfold fmul
    rw [fadd_intToFloat_half x h1 h2]
  have hx1 : (-8388608 : ℚ) ≤ (x : ℚ) := by exact_mod_cast h1
  have hx2 : (x : ℚ) ≤ 8388607 := by exact_mod_cast h2
  have habs_hi : |(x : ℚ) + 1 / 2| ≤ 8388608 - 1 / 2 := by
    rw [abs_le]; constructor <;> linarith
  have habs_lo : (1 / 2 : ℚ) ≤ |(x : ℚ) + 1 / 2| := by
    rcases le_or_lt 0 x with h | h
    · have : (0 : ℚ) ≤ (x : ℚ) := by exact_mod_cast h
      rw [abs_of_nonneg (by linarith)]
      linarith
    · have : (x : ℚ) ≤ -1 := by exact_mod_cast (by omega : x ≤ -1)
      rw [abs_of_neg (by linarith)]
      linarith
  have hA_hi : |((x : ℚ) + 1 / 2) * L| ≤ (8388608 - 1 / 2) * L := by
    rw [abs_mul, abs_of_pos hLpos]
    exact mul_le_mul_of_nonneg_right habs_hi (le_of_lt hLpos)
  have hA_lo : (2 : ℚ) ^ (-126 : Int) ≤ |((x : ℚ) + 1 / 2) * L| := by
    rw [abs_mul, abs_of_pos hLpos]
    calc (2 : ℚ) ^ (-126 : Int) ≤ 1 / 2 * 2 ^ (-100 : Int) := by norm_num
      _ ≤ |(x : ℚ) + 1 / 2| * L :=
        mul_le_mul habs_lo hL1 (le_of_lt (two_zpow_pos _)) (abs_nonneg _)
  have herr := roundFloat_error _ hA_lo
  rw [← e] at herr
  refine ⟨e, herr, ?_, hA_hi, ?_⟩
  · have hb : |fmul (fadd (intToFloat x) (1 / 2)) L|
        ≤ |((x : ℚ) + 1 / 2) * L| + 2 ^ (-24 : Int) * |((x : ℚ) + 1 / 2) * L| := by
      have : fmul (fadd (intToFloat x) (1 / 2)) L = ((x : ℚ) + 1 / 2) * L
          + (fmul (fadd (intToFloat x) (1 / 2)) L - ((x : ℚ) + 1 / 2) * L) := by ring
      rw [this]
      exact le_trans (abs_add _ _) (add_le_add_left herr _)
    have hA2 : |((x : ℚ) + 1 / 2) * L| ≤ (8388608 - 1 / 2) * 2 ^ (100 : Int) :=
      le_trans hA_hi (mul_le_mul_of_nonneg_left hL2 (by norm_num))
    have h24 : (0 : ℚ) ≤ 2 ^ (-24 : Int) := le_of_lt (two_zpow_pos _)
    have : |((x : ℚ) + 1 / 2) * L| + 2 ^ (-24 : Int) * |((x : ℚ) + 1 / 2) * L|
        ≤ (8388608 - 1 / 2) * 2 ^ (100 : Int)
          + 2 ^ (-24 : Int) * ((8388608 - 1 / 2) * 2 ^ (100 : Int)) :=
      add_le_add hA2 (mul_le_mul_of_nonneg_left hA2 h24)
    refine lt_of_le_of_lt (le_trans hb this) ?_
    norm_num
  · intro k hk1 hk2 hL
    rw [e, hL]
    have e2 : ((x : ℚ) + 1 / 2) * 2 ^ k = ((2 * x + 1 : Int) : ℚ) * 2 ^ (k - 1) := by
      rw [zpow_sub₀ (by norm_num : (2 : ℚ) ≠ 0), zpow_one]
      push_cast
      ring
    rw [e2]
    exact roundFloat_of_mantissa (2 * x + 1) (k - 1) (by rw [abs_lt]; constructor <;> omega)
      (by omega)

end BoundFloatLemmas

/-! ## GetMinBound and GetMaxBound -/

/-- C21 (amended): a volume with a non-empty key list, block side `N > 0`, voxel length
`L` with `2^-100 <= L <= 2^100` and a volume-to-world transform that leaves points where
they are, all of whose keys have `-2^23 <= key(d) * N` and `key(d) * N + N < 2^23`.  On
each axis `d` the block bound of `GetMinBound` is the least `key(d)` and that of
`GetMaxBound` the greatest; the results are the `float`s that `(min_d * N + 0.5) * L` and
`(max_d * N + N + 0.5) * L` are rounded to, each within a relative error of `2^-24` and
finite; `GetMinBound(d) < GetMaxBound(d)`; the difference is `((max_d - min_d) * N + N) * L`
up to `2^-24` times the sum of the magnitudes of the two products; and when `L` is a
power of two the results are the two products and the difference is
`((max_d - min_d) * N + N) * L`. -/
theorem GetMinBound_GetMaxBound_of_blocks {σ : Type} (ht : HashTableCuda σ)
    (vol : ScalableTSDFVolumeCuda σ) (hne : ht.DownloadKeys vol.hash_table_ ≠ [])
    (hN : 0 < vol.N_) (hL1 : 2 ^ (-100 : Int) ≤ vol.voxel_length_)
    (hL2 : vol.voxel_length_ ≤ 2 ^ (100 : Int))
    (hid : ∀ x, vol.transform_volume_to_world_.mul x = x)
    (hfit : ∀ key ∈ ht.DownloadKeys vol.hash_table_, ∀ d, d < 3 →
      -8388608 ≤ key.get d * vol.N_ ∧ key.get d * vol.N_ + vol.N_ ≤ 8388607)
    (d : Nat) (hd : d < 3) :
    ((∃ key ∈ ht.DownloadKeys vol.hash_table_,
          (minBoundLoop (ht.DownloadKeys vol.hash_table_)).get d = key.get d)
      ∧ ∀ key ∈ ht.DownloadKeys vol.hash_table_,
          (minBoundLoop (ht.DownloadKeys vol.hash_table_)).get d ≤ key.get d)
    ∧ ((∃ key ∈ ht.DownloadKeys vol.hash_table_,
          (maxBoundLoop (ht.DownloadKeys vol.hash_table_)).get d = key.get d)
      ∧ ∀ key ∈ ht.DownloadKeys vol.hash_table_,
          key.get d ≤ (maxBoundLoop (ht.DownloadKeys vol.hash_table_)).get d)
    ∧ ((vol.GetMinBound ht).get d
        = roundFloat (((((minBoundLoop (ht.DownloadKeys vol.hash_table_)).get d * vol.N_
            : Int) : float) + 1 / 2) * vol.voxel_length_)
      ∧ |(vol.GetMinBound ht).get d
          - ((((minBoundLoop (ht.DownloadKeys vol.hash_table_)).get d * vol.N_ : Int) : float)
              + 1 / 2) * vol.voxel_length_|
        ≤ 2 ^ (-24 : Int)
          * |((((minBoundLoop (ht.DownloadKeys vol.hash_table_)).get d * vol.N_ : Int) : float)
              + 1 / 2) * vol.voxel_length_|
      ∧ |(vol.GetMinBound ht).get d| < 2 ^ (128 : Int))
    ∧ ((vol.GetMaxBound ht).get d
        = roundFloat (((((maxBoundLoop (ht.DownloadKeys vol.hash_table_)).get d * vol.N_
            + vol.N_ : Int) : float) + 1 / 2) * vol.voxel_length_)
      ∧ |(vol.GetMaxBound ht).get d
          - ((((maxBoundLoop (ht.DownloadKeys vol.hash_table_)).get d * vol.N_ + vol.N_
              : Int) : float) + 1 / 2) * vol.voxel_length_|
        ≤ 2 ^ (-24 : Int)
          * |((((maxBoundLoop (ht.DownloadKeys vol.hash_table_)).get d * vol.N_ + vol.N_
              : Int) : float) + 1 / 2) * vol.voxel_length_|
      ∧ |(vol.GetMaxBound ht).get d| < 2 ^ (128 : Int))
    ∧ (vol.GetMinBound ht).get d < (vol.GetMaxBound ht).get d
    ∧ |(vol.GetMaxBound ht).get d - (vol.GetMinBound ht).get d
        - ((((maxBoundLoop (ht.DownloadKeys vol.hash_table_)).get d
              - (minBoundLoop (ht.DownloadKeys vol.hash_table_)).get d) * vol.N_ + vol.N_
            : Int) : float) * vol.voxel_length_|
      ≤ 2 ^ (-24 : Int)
        * (|((((minBoundLoop (ht.DownloadKeys vol.hash_table_)).get d * vol.N_ : Int) : float)
              + 1 / 2) * vol.voxel_length_|
          + |((((maxBoundLoop (ht.DownloadKeys vol.hash_table_)).get d * vol.N_ + vol.N_
              : Int) : float) + 1 / 2) * vol.voxel_length_|)
    ∧ (∀ k : Int, -100 ≤ k → k ≤ 100 → vol.voxel_length_ = 2 ^ k →
        (vol.GetMinBound ht).get d
          = ((((minBoundLoop (ht.DownloadKeys vol.hash_table_)).get d * vol.N_ : Int) : float)
              + 1 / 2) * vol.voxel_length_
        ∧ (vol.GetMaxBound ht).get d
          = ((((maxBoundLoop (ht.DownloadKeys vol.hash_table_)).get d * vol.N_ + vol.N_
              : Int) : float) + 1 / 2) * vol.voxel_length_
        ∧ (vol.GetMaxBound ht).get d - (vol.GetMinBound ht).get d
          = ((((maxBoundLoop (ht.DownloadKeys vol.hash_table_)).get d
                - (minBoundLoop (ht.DownloadKeys vol.hash_table_)).get d) * vol.N_ + vol.N_
              : Int) : float) * vol.voxel_length_) := by
  have hfit32 : ∀ key ∈ ht.DownloadKeys vol.hash_table_, ∀ d, d < 3 →
      -2147483648 ≤ key.get d * vol.N_ ∧ key.get d * vol.N_ + vol.N_ ≤ 2147483647 :=
    fun key hk d hd => ⟨by linarith [(hfit key hk d hd).1], by linarith [(hfit key hk d hd).2]⟩
  obtain ⟨h1, h2, h3, h4, h5⟩ :=
    keyBounds_fit (ht.DownloadKeys vol.hash_table_) vol.N_ hne hN hfit32 d hd
  obtain ⟨-, a2, -⟩ := minBoundLoop_spec (ht.DownloadKeys vol.hash_table_) d hd
  obtain ⟨-, b2, -⟩ := maxBoundLoop_spec (ht.DownloadKeys vol.hash_table_) d hd
  obtain ⟨g1, g2⟩ := GetBound_get ht vol hid d hd
  rw [h4] at g1
  rw [h5] at g2
  have hle : (minBoundLoop (ht.DownloadKeys vol.hash_table_)).get d * vol.N_
      ≤ (maxBoundLoop (ht.DownloadKeys vol.hash_table_)).get d * vol.N_ :=
    Int.mul_le_mul_of_nonneg_right h3 (le_of_lt hN)
  have hx : -8388608 ≤ (minBoundLoop (ht.DownloadKeys vol.hash_table_)).get d * vol.N_
      ∧ (minBoundLoop (ht.DownloadKeys vol.hash_table_)).get d * vol.N_ ≤ 8388607 := by
    obtain ⟨key, hk, he⟩ := h1
    rw [he]
    exact ⟨(hfit key hk d hd).1, by linarith [(hfit key hk d hd).2]⟩
  have hy : -8388608
        ≤ (maxBoundLoop (ht.DownloadKeys vol.hash_table_)).get d * vol.N_ + vol.N_
      ∧ (maxBoundLoop (ht.DownloadKeys vol.hash_table_)).get d * vol.N_ + vol.N_
        ≤ 8388607 := by
    obtain ⟨key, hk, he⟩ := h2
    rw [he]
    exact ⟨by linarith [(hfit key hk d hd).1], (hfit key hk d hd).2⟩
  obtain ⟨p1, p2, p3, p4, p5⟩ := boundFloat_spec _ vol.voxel_length_ hx.1 hx.2 hL1 hL2
  obtain ⟨q1, q2, q3, q4, q5⟩ := boundFloat_spec _ vol.voxel_length_ hy.1 hy.2 hL1 hL2
  rw [← g1] at p1 p2 p3 p5
  rw [← g2] at q1 q2 q3 q5
  have hLpos : 0 < vol.voxel_length_ := lt_of_lt_of_le (two_zpow_pos _) hL1
  have hNq : (1 : ℚ) ≤ (vol.N_ : ℚ) := by exact_mod_cast hN
  have hleq : (((minBoundLoop (ht.DownloadKeys vol.hash_table_)).get d * vol.N_ : Int) : ℚ)
      ≤ (((maxBoundLoop (ht.DownloadKeys vol.hash_table_)).get d * vol.N_ : Int) : ℚ) := by
    exact_mod_cast hle
  have hsum : (2 : ℚ) ^ (-24 : Int)
      * (|((((minBoundLoop (ht.DownloadKeys vol.hash_table_)).get d * vol.N_ : Int) : float)
            + 1 / 2) * vol.voxel_length_|
        + |((((maxBoundLoop (ht.DownloadKeys vol.hash_table_)).get d * vol.N_ + vol.N_
            : Int) : float) + 1 / 2) * vol.voxel_length_|)
      < vol.voxel_length_ := by
    have : (2 : ℚ) ^ (-24 : Int) = 1 / 16777216 := by norm_num
    rw [this]
    nlinarith [p4, q4, hLpos]
  have hgap : vol.voxel_length_
      ≤ ((((maxBoundLoop (ht.DownloadKeys vol.hash_table_)).get d * vol.N_ + vol.N_
            : Int) : float) + 1 / 2) * vol.voxel_length_
        - ((((minBoundLoop (ht.DownloadKeys vol.hash_table_)).get d * vol.N_ : Int) : float)
            + 1 / 2) * vol.voxel_length_ := by
    rw [← sub_mul]
    push_cast
    push_cast at hleq
    nlinarith [hleq, hNq, hLpos]
  have p2' := abs_le.mp p2
  have q2' := abs_le.mp q2
  have h24 : (0 : ℚ) ≤ 2 ^ (-24 : Int) := le_of_lt (two_zpow_pos _)
  refine ⟨⟨h1, a2⟩, ⟨h2, b2⟩, ⟨p1, p2, p3⟩, ⟨q1, q2, q3⟩, ?_, ?_, ?_⟩
  · rw [mul_add] at hsum
    linarith [p2'.2, q2'.1]
  · rw [mul_add, abs_le]
    push_cast at p2' q2' ⊢
    constructor <;> linarith [p2'.1, p2'.2, q2'.1, q2'.2]
  · intro k hk1 hk2 hk
    have e1 := p5 k hk1 hk2 hk
    have e2 := q5 k hk1 hk2 hk
    refine ⟨e1, e2, ?_⟩
    rw [e1, e2]
    push_cast
    ring

/-- Witness for `GetMinBound_GetMaxBound_of_blocks`: the keys `(1, 2, 3)` and `(-1, 5, 0)`
with block side 8 and voxel length 1, on axis 0: the bounds are `-1` and `1`, the results
`-7.5` and `16.5`, and the difference is `24`. -/
theorem GetMinBound_GetMaxBound_of_blocks_witness :
    (minBoundLoop [VectorCuda.mk3 1 2 3, VectorCuda.mk3 (-1) 5 0]).get 0 = -1
    ∧ (maxBoundLoop [VectorCuda.mk3 1 2 3, VectorCuda.mk3 (-1) 5 0]).get 0 = 1
    ∧ ((volumeOver () 8 4).GetMinBound
        (keyTableOps [VectorCuda.mk3 1 2 3, VectorCuda.mk3 (-1) 5 0])).get 0 = -15 / 2
    ∧ ((volumeOver () 8 4).GetMaxBound
        (keyTableOps [VectorCuda.mk3 1 2 3, VectorCuda.mk3 (-1) 5 0])).get 0 = 33 / 2
    ∧ ((volumeOver () 8 4).GetMinBound
        (keyTableOps [VectorCuda.mk3 1 2 3, VectorCuda.mk3 (-1) 5 0])).get 0
      < ((volumeOver () 8 4).GetMaxBound
        (keyTableOps [VectorCuda.mk3 1 2 3, VectorCuda.mk3 (-1) 5 0])).get 0
    ∧ ((volumeOver () 8 4).GetMaxBound
        (keyTableOps [VectorCuda.mk3 1 2 3, VectorCuda.mk3 (-1) 5 0])).get 0
      - ((volumeOver () 8 4).GetMinBound
        (keyTableOps [VectorCuda.mk3 1 2 3, VectorCuda.mk3 (-1) 5 0])).get 0 = 24 := by
  have h := GetMinBound_GetMaxBound_of_blocks
    (keyTableOps [VectorCuda.mk3 1 2 3, VectorCuda.mk3 (-1) 5 0]) (volumeOver () 8 4)
    (List.cons_ne_nil _ _) (by decide)
    (by show (2 : ℚ) ^ (-100 : Int) ≤ 1; norm_num) (by show (1 : ℚ) ≤ 2 ^ (100 : Int); norm_num)
    (fun _ => rfl) (by decide) 0 (by decide)
  have hmin : (minBoundLoop [VectorCuda.mk3 1 2 3, VectorCuda.mk3 (-1) 5 0]).get 0 = -1 := by
    decide
  have hmax : (maxBoundLoop [VectorCuda.mk3 1 2 3, VectorCuda.mk3 (-1) 5 0]).get 0 = 1 := by
    decide
  obtain ⟨-, -, -, -, h5, -, h7⟩ := h
  obtain ⟨e1, e2, e3⟩ := h7 0 (by decide) (by decide) (zpow_zero (2 : ℚ)).symm
  refine ⟨hmin, hmax, e1.trans ?_, e2.trans ?_, h5, e3.trans ?_⟩
  · show ((((minBoundLoop [VectorCuda.mk3 1 2 3, VectorCuda.mk3 (-1) 5 0]).get 0 * 8 : Int)
      : float) + 1 / 2) * 1 = -15 / 2
    rw [hmin]; norm_num
  · show ((((maxBoundLoop [VectorCuda.mk3 1 2 3, VectorCuda.mk3 (-1) 5 0]).get 0 * 8 + 8 : Int)
      : float) + 1 / 2) * 1 = 33 / 2
    rw [hmax]; norm_num
  · show ((((maxBoundLoop [VectorCuda.mk3 1 2 3, VectorCuda.mk3 (-1) 5 0]).get 0
      - (minBoundLoop [VectorCuda.mk3 1 2 3, VectorCuda.mk3 (-1) 5 0]).get 0) * 8 + 8 : Int)
      : float) * 1 = 24
    rw [hmin, hmax]; norm_num

/-- C21 (as stated, at a concrete input): the single key `(134217728, 2097152, 1048576)`
with block side 8, voxel length 1 and the identity transform; every product
`key(d) * N` and `key(d) * N + N` fits an `int`.  On axis 0 both block bounds are
`134217728`.  `min_bound(0) * N_ = 2^30` and `max_bound(0) * N_ + N_ = 2^30 + 8` are both
converted to the `float` `2^30`, and `2^30 + 0.5f` is `2^30` again, so `GetMinBound` and
`GetMaxBound` both return `1073741824`: not `(min_d * N + 0.5) * L = 1073741824.5` and
`(max_d * N + N + 0.5) * L = 1073741832.5`, not in strict order, and with difference 0
instead of `((max_d - min_d) * N + N) * L = 8`. -/
theorem GetMinBound_GetMaxBound_coincide_for_large_keys :
    (keyTableOps [VectorCuda.mk3 134217728 2097152 1048576]).DownloadKeys
        (volumeOver () 8 1).hash_table_ ≠ []
    ∧ 0 < (volumeOver () 8 1).N_ ∧ 0 < (volumeOver () 8 1).voxel_length_
    ∧ (∀ x, (volumeOver () 8 1).transform_volume_to_world_.mul x = x)
    ∧ (minBoundLoop [VectorCuda.mk3 134217728 2097152 1048576]).get 0 = 134217728
    ∧ (maxBoundLoop [VectorCuda.mk3 134217728 2097152 1048576]).get 0 = 134217728
    ∧ wrapInt32 (134217728 * 8) = 134217728 * 8
    ∧ wrapInt32 (wrapInt32 (134217728 * 8) + 8) = 134217728 * 8 + 8
    ∧ ((volumeOver () 8 1).GetMinBound
        (keyTableOps [VectorCuda.mk3 134217728 2097152 1048576])).get 0 = 1073741824
    ∧ ((volumeOver () 8 1).GetMaxBound
        (keyTableOps [VectorCuda.mk3 134217728 2097152 1048576])).get 0 = 1073741824
    ∧ ((volumeOver () 8 1).GetMinBound
        (keyTableOps [VectorCuda.mk3 134217728 2097152 1048576])).get 0
      ≠ (((134217728 * 8 : Int) : float) + 1 / 2) * (volumeOver () 8 1).voxel_length_
    ∧ ((volumeOver () 8 1).GetMaxBound
        (keyTableOps [VectorCuda.mk3 134217728 2097152 1048576])).get 0
      ≠ (((134217728 * 8 + 8 : Int) : float) + 1 / 2) * (volumeOver () 8 1).voxel_length_
    ∧ ¬ ((volumeOver () 8 1).GetMinBound
          (keyTableOps [VectorCuda.mk3 134217728 2097152 1048576])).get 0
        < ((volumeOver () 8 1).GetMaxBound
          (keyTableOps [VectorCuda.mk3 134217728 2097152 1048576])).get 0
    ∧ ((volumeOver () 8 1).GetMaxBound
          (keyTableOps [VectorCuda.mk3 134217728 2097152 1048576])).get 0
        - ((volumeOver () 8 1).GetMinBound
          (keyTableOps [VectorCuda.mk3 134217728 2097152 1048576])).get 0
      ≠ (((134217728 - 134217728) * 8 + 8 : Int) : float)
          * (volumeOver () 8 1).voxel_length_ := by
  have hmin : (minBoundLoop [VectorCuda.mk3 134217728 2097152 1048576]).get 0
      = 134217728 := by decide
  have hmax : (maxBoundLoop [VectorCuda.mk3 134217728 2097152 1048576]).get 0
      = 134217728 := by decide
  have w1 : wrapInt32 (134217728 * 8) = 1073741824 := by decide
  have w2 : wrapInt32 (wrapInt32 (134217728 * 8) + 8) = 1073741832 := by decide
  have r1 : roundFloat 1073741824 = 1073741824 := by
    have := roundFloat_two_zpow 30 (by decide)
    norm_num at this
    exact this
  have r2 : roundFloat 1073741832 = 1073741824 := by
    rw [roundFloat_eq_of_exponent 1073741832 30 8388608 (by decide)
      (by norm_num [abs_of_pos]) (by norm_num [abs_of_pos]) (by norm_num [abs_lt])]
    norm_num
  have r3 : roundFloat (1073741824 + 1 / 2) = 1073741824 := by
    rw [roundFloat_eq_of_exponent (1073741824 + 1 / 2) 30 8388608 (by decide)
      (by norm_num [abs_of_pos]) (by norm_num [abs_of_pos]) (by norm_num [abs_lt])]
    norm_num
  obtain ⟨g1, g2⟩ := GetBound_get (keyTableOps [VectorCuda.mk3 134217728 2097152 1048576])
    (volumeOver () 8 1) (fun _ => rfl) 0 (by decide)
  have e1 : ((volumeOver () 8 1).GetMinBound
      (keyTableOps [VectorCuda.mk3 134217728 2097152 1048576])).get 0 = 1073741824 := by
    rw [g1]
    show fmul (fadd (intToFloat (wrapInt32
      ((minBoundLoop [VectorCuda.mk3 134217728 2097152 1048576]).get 0 * 8))) (1 / 2)) 1
      = 1073741824
    rw [hmin, w1]
    unfold fmul fadd intToFloat
    rw [show ((1073741824 : Int) : ℚ) = 1073741824 by norm_num, r1, r3, mul_one, r1]
  have e2 : ((volumeOver () 8 1).GetMaxBound
      (keyTableOps [VectorCuda.mk3 134217728 2097152 1048576])).get 0 = 1073741824 := by
    rw [g2]
    show fmul (fadd (intToFloat (wrapInt32 (wrapInt32
      ((maxBoundLoop [VectorCuda.mk3 134217728 2097152 1048576]).get 0 * 8) + 8))) (1 / 2)) 1
      = 1073741824
    rw [hmax, w2]
    unfold fmul fadd intToFloat
    rw [show ((1073741832 : Int) : ℚ) = 1073741832 by norm_num, r2, r3, mul_one, r1]
  refine ⟨List.cons_ne_nil _ _, by decide, one_pos, fun _ => rfl, hmin, hmax, by decide,
    by decide, e1, e2, ?_, ?_, ?_, ?_⟩
  · rw [e1]
    show (1073741824 : float) ≠ (((134217728 * 8 : Int) : float) + 1 / 2) * 1
    norm_num
  · rw [e2]
    show (1073741824 : float) ≠ (((134217728 * 8 + 8 : Int) : float) + 1 / 2) * 1
    norm_num
  · rw [e1, e2]
    exact lt_irrefl _
  · rw [e1, e2]
    show (1073741824 : float) - 1073741824
      ≠ (((134217728 - 134217728) * 8 + 8 : Int) : float) * 1
    norm_num

/-- C22 (refuted by the code): on a volume with no allocated block and block side
`N >= 2` the block bounds of `GetMinBound` and `GetMaxBound` are still the initial
`INT_MAX` and `INT_MIN` on every axis, and neither the product `min_bound(d) * N_` nor
the product `max_bound(d) * N_` fits an `int`. -/
theorem GetMinBound_GetMaxBound_overflow_without_blocks {σ : Type} (ht : HashTableCuda σ)
    (vol : ScalableTSDFVolumeCuda σ) (hempty : ht.DownloadKeys vol.hash_table_ = [])
    (hN : 2 ≤ vol.N_) (d : Nat) (hd : d < 3) :
    (minBoundLoop (ht.DownloadKeys vol.hash_table_)).get d = 2147483647
    ∧ 2147483647 < (minBoundLoop (ht.DownloadKeys vol.hash_table_)).get d * vol.N_
    ∧ wrapInt32 ((minBoundLoop (ht.DownloadKeys vol.hash_table_)).get d * vol.N_)
        ≠ (minBoundLoop (ht.DownloadKeys vol.hash_table_)).get d * vol.N_
    ∧ (maxBoundLoop (ht.DownloadKeys vol.hash_table_)).get d = -2147483648
    ∧ (maxBoundLoop (ht.DownloadKeys vol.hash_table_)).get d * vol.N_ < -2147483648
    ∧ wrapInt32 ((maxBoundLoop (ht.DownloadKeys vol.hash_table_)).get d * vol.N_)
        ≠ (maxBoundLoop (ht.DownloadKeys vol.hash_table_)).get d * vol.N_ := by
  have hmin : (minBoundLoop (ht.DownloadKeys vol.hash_table_)).get d = 2147483647 := by
    rw [hempty]
    exact VectorCuda.mk3_const_get max_int d hd
  have hmax : (maxBoundLoop (ht.DownloadKeys vol.hash_table_)).get d = -2147483648 := by
    rw [hempty]
    exact VectorCuda.mk3_const_get min_int d hd
  have hw : ∀ x : Int, -2147483648 ≤ wrapInt32 x ∧ wrapInt32 x ≤ 2147483647 := by
    intro x
    unfold wrapInt32
    omega
  rw [hmin, hmax]
  refine ⟨rfl, by omega, ?_, rfl, by omega, ?_⟩
  · intro h
    have := (hw (2147483647 * vol.N_)).2
    omega
  · intro h
    have := (hw (-2147483648 * vol.N_)).1
    omega

/-- Witness for `GetMinBound_GetMaxBound_overflow_without_blocks`: a created volume with
block side 8 and voxel length 1 that holds no block.  `INT_MAX * 8` comes out as `-8` and
`INT_MIN * 8` as `0`, so `GetMinBound` returns `-7.5` and `GetMaxBound` returns `8.5` on
every axis. -/
theorem GetMinBound_GetMaxBound_overflow_without_blocks_witness :
    (keyTableOps []).DownloadKeys (volumeOver () 8 1).hash_table_ = []
    ∧ (2 : Int) ≤ (volumeOver () 8 1).N_
    ∧ (2147483647 : Int) < (minBoundLoop []).get 0 * 8
    ∧ (maxBoundLoop []).get 0 * 8 < (-2147483648 : Int)
    ∧ wrapInt32 ((minBoundLoop []).get 0 * 8) = -8
    ∧ wrapInt32 (wrapInt32 ((maxBoundLoop []).get 0 * 8) + 8) = 8
    ∧ ((volumeOver () 8 1).GetMinBound (keyTableOps [])).get 0 = -15 / 2
    ∧ ((volumeOver () 8 1).GetMaxBound (keyTableOps [])).get 0 = 17 / 2 := by
  have h := GetMinBound_GetMaxBound_overflow_without_blocks (keyTableOps [])
    (volumeOver () 8 1) rfl (by decide) 0 (by decide)
  obtain ⟨g1, g2⟩ := GetBound_get (keyTableOps []) (volumeOver () 8 1) (fun _ => rfl) 0
    (by decide)
  have w1 : wrapInt32 ((minBoundLoop []).get 0 * 8) = -8 := by decide
  have w2 : wrapInt32 (wrapInt32 ((maxBoundLoop []).get 0 * 8) + 8) = 8 := by decide
  have hone : (1 : ℚ) = 2 ^ (0 : Int) := (zpow_zero (2 : ℚ)).symm
  refine ⟨rfl, by decide, h.2.1, h.2.2.2.2.1, w1, w2, ?_, ?_⟩
  · rw [g1]
    show fmul (fadd (intToFloat (wrapInt32 ((minBoundLoop []).get 0 * 8))) (1 / 2)) 1
      = -15 / 2
    rw [w1, (boundFloat_spec (-8) 1 (by decide) (by decide) (by norm_num)
      (by norm_num)).2.2.2.2 0 (by decide) (by decide) hone]
    norm_num
  · rw [g2]
    show fmul (fadd (intToFloat (wrapInt32 (wrapInt32 ((maxBoundLoop []).get 0 * 8) + 8)))
      (1 / 2)) 1 = 17 / 2
    rw [w2, (boundFloat_spec 8 1 (by decide) (by decide) (by norm_num)
      (by norm_num)).2.2.2.2 0 (by decide) (by decide) hone]
    norm_num

end cuda
end open3d
